import Mathlib

/-! Privileged task execution queue.

A shallow embedding of `src/privilegedexecutor.{h,cpp}`: the executor object is a record
of its member variables, each member function is a function on that record, and every
signal emission or call into Qt that the specification talks about is appended to a
chronological trace.  Behaviour that C++ leaves undefined (dereferencing the null `m_currentProcess`,
overflow of the signed `int` id counter) has no successor state: the function returns
`none`.
-/

namespace PrivExec

/-! ## Data model -/

/-- Record `PrivilegedTask` of `privilegedexecutor.h`.  `receiver` is the `QObject*`
(`none` is the null pointer, `some n` an object identity); the three slots are the
`const char*` members (`none` is the null pointer). -/
structure PrivilegedTask where
  command : String
  args : List String
  description : String
  taskId : Int
  receiver : Option Nat
  successSlot : Option String
  errorSlot : Option String
  progressSlot : Option String
  deriving DecidableEq, Repr

/-- Observable effects of the executor, in the order in which they happen.  The first
five constructors are the five Qt signals of the class.  The others record calls that
leave the object: `QMetaObject::invokeMethod` on a receiver, `SystemUtils::runCommand`,
`QProcess::start`, `QProcess::kill`, `QObject::deleteLater`; and, as a call log, the two
private functions `enqueueTask` and `startTask`. -/
inductive Event where
  | taskStarted (taskId : Int) (description : String)
  | taskFinished (taskId : Int) (exitCode : Int) (output : String)
  | taskError (taskId : Int) (error : String)
  | taskProgress (taskId : Int) (progress : String)
  | taskCancelled (taskId : Int)
  | invokeMethod (receiver : Nat) (slot : String) (arg : String)
  | runCommand (program : String) (arguments : List String)
  | processStart (handle : Nat) (program : String) (arguments : List String)
  | processKill (handle : Nat)
  | deleteLater (handle : Nat)
  | enqueueTask (task : PrivilegedTask)
  | startTask (task : PrivilegedTask)
  deriving DecidableEq, Repr

/-- The host as seen by the resolver at one moment: the exit codes that
`SystemUtils::runCommand("which", {"pkexec"})` and `runCommand("which", {"sudo"})`
return in `.first` (`-1` when `which` itself could not be run). -/
structure Host where
  whichPkexec : Int
  whichSudo : Int
  deriving DecidableEq, Repr

/-- Member variables of `PrivilegedExecutor`, the static `s_privilegeMethod`, and the
parts of the Qt runtime the class drives:
* `m_currentProcess` is `none` for `nullptr`, `some h` for the `QProcess` with handle `h`;
* `timerActive` is `m_processTimer->isActive()`;
* `pendingCalls` counts the invocations of `processNextTask` posted with
  `Qt::QueuedConnection` and not yet delivered;
* `processCount` is the number of `QProcess` objects created so far (the next handle);
* `trace` is the chronological list of observable effects. -/
structure Executor where
  m_taskQueue : List PrivilegedTask
  m_currentProcess : Option Nat
  m_currentTask : PrivilegedTask
  m_isRunning : Bool
  m_nextTaskId : Int
  timerActive : Bool
  s_privilegeMethod : String
  pendingCalls : Nat
  processCount : Nat
  trace : List Event
  deriving DecidableEq, Repr

/-- Largest value of a C++ `int` (32 bits on every platform Qt supports). -/
def INT_MAX : Int := 2147483647

/-- Append one observable effect to the trace. -/
def emit (s : Executor) (e : Event) : Executor :=
  { s with trace := s.trace ++ [e] }

/-- State after the constructor `PrivilegedExecutor::PrivilegedExecutor`, at process
start (the static `s_privilegeMethod` is the empty string).  The member `m_currentTask`
is not initialised by the constructor: its `QString`/`QStringList` members are empty and
its `int` and pointer members are indeterminate, so they are taken from `junk`. -/
def Executor.init (junk : PrivilegedTask) : Executor :=
  { m_taskQueue := []
    m_currentProcess := none
    m_currentTask := { junk with command := "", args := [], description := "" }
    m_isRunning := false
    m_nextTaskId := 1
    timerActive := false
    s_privilegeMethod := ""
    pendingCalls := 0
    processCount := 0
    trace := [] }

/-! ## Privilege method resolver -/

/-- Function `PrivilegedExecutor::isPkexecAvailable`: runs `which pkexec` and tests the
exit code against 0. -/
def isPkexecAvailable (env : Host) (s : Executor) : Bool × Executor :=
  (decide (env.whichPkexec = 0), emit s (Event.runCommand "which" ["pkexec"]))

/-- Function `PrivilegedExecutor::isSudoAvailable`: runs `which sudo` and tests the exit
code against 0. -/
def isSudoAvailable (env : Host) (s : Executor) : Bool × Executor :=
  (decide (env.whichSudo = 0), emit s (Event.runCommand "which" ["sudo"]))

/-- Function `PrivilegedExecutor::getPrivilegeMethod`: returns the cached value when it
is not empty; otherwise probes pkexec, then sudo, stores the first hit in the static and
returns the static. -/
def getPrivilegeMethod (env : Host) (s : Executor) : String × Executor :=
  if s.s_privilegeMethod ≠ "" then
    (s.s_privilegeMethod, s)
  else
    let r1 := isPkexecAvailable env s
    if r1.1 then
      let s2 := { r1.2 with s_privilegeMethod := "pkexec" }
      (s2.s_privilegeMethod, s2)
    else
      let r2 := isSudoAvailable env r1.2
      if r2.1 then
        let s3 := { r2.2 with s_privilegeMethod := "sudo" }
        (s3.s_privilegeMethod, s3)
      else
        (r2.2.s_privilegeMethod, r2.2)

/-! ## Terminal steps -/

/-- Function `PrivilegedExecutor::finishCurrentTask`. -/
def finishCurrentTask (exitCode : Int) (output : String) (s : Executor) : Executor :=
  let s1 := { s with timerActive := false }
  let s2 :=
    match s1.m_currentTask.receiver with
    | some r =>
      if exitCode = 0 then
        match s1.m_currentTask.successSlot with
        | some slot => emit s1 (Event.invokeMethod r slot output)
        | none => s1
      else
        match s1.m_currentTask.errorSlot with
        | some slot => emit s1 (Event.invokeMethod r slot output)
        | none => s1
    | none => s1
  let s3 := emit s2 (Event.taskFinished s2.m_currentTask.taskId exitCode output)
  let s4 :=
    match s3.m_currentProcess with
    | some h => { emit s3 (Event.deleteLater h) with m_currentProcess := none }
    | none => s3
  { s4 with m_isRunning := false, pendingCalls := s4.pendingCalls + 1 }

/-- Function `PrivilegedExecutor::errorCurrentTask`. -/
def errorCurrentTask (error : String) (s : Executor) : Executor :=
  let s1 := { s with timerActive := false }
  let s2 :=
    match s1.m_currentTask.receiver, s1.m_currentTask.errorSlot with
    | some r, some slot => emit s1 (Event.invokeMethod r slot error)
    | _, _ => s1
  let s3 := emit s2 (Event.taskError s2.m_currentTask.taskId error)
  let s4 :=
    match s3.m_currentProcess with
    | some h => { emit s3 (Event.deleteLater h) with m_currentProcess := none }
    | none => s3
  { s4 with m_isRunning := false, pendingCalls := s4.pendingCalls + 1 }

/-! ## Queue and engine -/

/-- Function `PrivilegedExecutor::startTask`.  The new `QProcess` gets the next unused
handle; `fullArgs` stays empty when the method is neither of the two known names, as in
the source. -/
def startTask (env : Host) (task : PrivilegedTask) (s : Executor) : Executor :=
  let s0 := emit s (Event.startTask task)
  let s1 := { s0 with m_currentTask := task, m_isRunning := true }
  let r := getPrivilegeMethod env s1
  let privilegeMethod := r.1
  let s2 := r.2
  if privilegeMethod = "" then
    errorCurrentTask "No privilege escalation method available" s2
  else
    let h := s2.processCount
    let s3 := { s2 with m_currentProcess := some h, processCount := h + 1 }
    let fullArgs : List String :=
      if privilegeMethod = "pkexec" then [task.command] ++ task.args
      else if privilegeMethod = "sudo" then ["-n", task.command] ++ task.args
      else []
    let s4 := { s3 with timerActive := true }
    emit s4 (Event.processStart h privilegeMethod fullArgs)

/-- Function `PrivilegedExecutor::processNextTask`. -/
def processNextTask (env : Host) (s : Executor) : Executor :=
  if s.m_isRunning then s
  else
    match s.m_taskQueue with
    | [] => s
    | task :: rest => startTask env task { s with m_taskQueue := rest }

/-- Function `PrivilegedExecutor::enqueueTask`. -/
def enqueueTask (task : PrivilegedTask) (s : Executor) : Executor :=
  let s1 := emit { s with m_taskQueue := s.m_taskQueue ++ [task] } (Event.enqueueTask task)
  if s1.m_isRunning then s1 else { s1 with pendingCalls := s1.pendingCalls + 1 }

/-- Function `PrivilegedExecutor::executeCommandAsync`.  The post-increment of
`m_nextTaskId` at `INT_MAX` is signed overflow, which C++ leaves undefined. -/
def executeCommandAsync (command : String) (args : List String) (description : String)
    (receiver : Option Nat) (successSlot errorSlot progressSlot : Option String)
    (s : Executor) : Option Executor :=
  if s.m_nextTaskId = INT_MAX then none
  else
    let task : PrivilegedTask :=
      { command := command, args := args, description := description,
        taskId := s.m_nextTaskId, receiver := receiver, successSlot := successSlot,
        errorSlot := errorSlot, progressSlot := progressSlot }
    some (enqueueTask task { s with m_nextTaskId := s.m_nextTaskId + 1 })

/-- The loop of `cancelTask`: remove the first queue entry whose id is `taskId`;
`none` when no entry matches. -/
def removeFirstWithId (taskId : Int) : List PrivilegedTask → Option (List PrivilegedTask)
  | [] => none
  | t :: rest =>
    if t.taskId = taskId then some rest
    else (removeFirstWithId taskId rest).map (fun q => t :: q)

/-- Function `PrivilegedExecutor::cancelTask`. -/
def cancelTask (taskId : Int) (s : Executor) : Executor :=
  if s.m_isRunning && decide (s.m_currentTask.taskId = taskId) then
    let s1 :=
      match s.m_currentProcess with
      | some h => emit s (Event.processKill h)
      | none => s
    emit s1 (Event.taskCancelled taskId)
  else
    match removeFirstWithId taskId s.m_taskQueue with
    | some q => emit { s with m_taskQueue := q } (Event.taskCancelled taskId)
    | none => s

/-- Function `PrivilegedExecutor::cancelAllTasks`. -/
def cancelAllTasks (s : Executor) : Executor :=
  let s1 :=
    match s.m_isRunning, s.m_currentProcess with
    | true, some h =>
      emit (emit s (Event.processKill h)) (Event.taskCancelled s.m_currentTask.taskId)
    | _, _ => s
  { s1 with
    trace := s1.trace ++ s1.m_taskQueue.map (fun t => Event.taskCancelled t.taskId)
    m_taskQueue := [] }

/-- Function `PrivilegedExecutor::isTaskRunning`. -/
def isTaskRunning (taskId : Int) (s : Executor) : Bool :=
  s.m_isRunning && decide (s.m_currentTask.taskId = taskId)

/-- Function `PrivilegedExecutor::getRunningTasks`. -/
def getRunningTasks (s : Executor) : List String :=
  (if s.m_isRunning then [s.m_currentTask.description] else [])
    ++ s.m_taskQueue.map (fun t => t.description)

/-! ## Subprocess notifications -/

/-- Characters for which `QChar::isSpace` is true. -/
def isSpace (c : Char) : Bool :=
  let n := c.toNat
  n = 0x20 || (0x09 ≤ n && n ≤ 0x0d) || n = 0x85 || n = 0xa0 || n = 0x1680
    || (0x2000 ≤ n && n ≤ 0x200a) || n = 0x2028 || n = 0x2029 || n = 0x202f
    || n = 0x205f || n = 0x3000

/-- Method `QString::trimmed`: whitespace removed from both ends. -/
def trimmed (str : String) : String :=
  String.mk (((str.data.dropWhile isSpace).reverse.dropWhile isSpace).reverse)

/-- Slot `PrivilegedExecutor::onProcessStarted`. -/
def onProcessStarted (s : Executor) : Executor :=
  emit s (Event.taskStarted s.m_currentTask.taskId s.m_currentTask.description)

/-- Slot `PrivilegedExecutor::onProcessFinished`; `output` is what
`m_currentProcess->readAllStandardOutput()` yields.  The slot dereferences
`m_currentProcess` without a null check. -/
def onProcessFinished (exitCode : Int) (output : String) (s : Executor) : Option Executor :=
  match s.m_currentProcess with
  | none => none
  | some _ => some (finishCurrentTask exitCode output s)

/-- Slot `PrivilegedExecutor::onProcessError`; `errorString` is what
`m_currentProcess->errorString()` yields.  The slot dereferences `m_currentProcess`
without a null check. -/
def onProcessError (errorString : String) (s : Executor) : Option Executor :=
  match s.m_currentProcess with
  | none => none
  | some _ => some (errorCurrentTask errorString s)

/-- Slot `PrivilegedExecutor::onProcessReadyRead`; `output` is what
`m_currentProcess->readAllStandardOutput()` yields. -/
def onProcessReadyRead (output : String) (s : Executor) : Executor :=
  match s.m_currentProcess with
  | none => s
  | some _ =>
    if output ≠ "" then
      let s1 := emit s (Event.taskProgress s.m_currentTask.taskId (trimmed output))
      match s1.m_currentTask.progressSlot, s1.m_currentTask.receiver with
      | some slot, some r => emit s1 (Event.invokeMethod r slot (trimmed output))
      | _, _ => s1
    else s

/-! ## Executions -/

/-- One step of an execution: a call of the public interface, the delivery of a queued
`processNextTask` invocation, the expiry of `m_processTimer`, or a signal of a
`QProcess` created by `startTask`.  Steps that consult the resolver carry the host as it
is at that moment. -/
inductive Action where
  | executeCommandAsync (command : String) (args : List String) (description : String)
      (receiver : Option Nat) (successSlot errorSlot progressSlot : Option String)
  | cancelTask (taskId : Int)
  | cancelAllTasks
  | getPrivilegeMethod (env : Host)
  | processNextTask (env : Host)
  | timerTimeout (env : Host)
  | processStarted
  | processReadyRead (output : String)
  | processFinished (exitCode : Int) (output : String)
  | processError (errorString : String)
  deriving DecidableEq, Repr

/-- Whether the runtime can perform the step in state `s`.  A queued invocation can be
delivered only if one is pending, the single-shot timer expires only while active, and a
`QProcess` signal needs a `QProcess` to have been created. -/
def enabled (s : Executor) : Action → Bool
  | Action.processNextTask _ => decide (0 < s.pendingCalls)
  | Action.timerTimeout _ => s.timerActive
  | Action.processStarted => decide (0 < s.processCount)
  | Action.processReadyRead _ => decide (0 < s.processCount)
  | Action.processFinished _ _ => decide (0 < s.processCount)
  | Action.processError _ => decide (0 < s.processCount)
  | _ => true

/-- Effect of one step.  `none` is undefined behaviour.  The constructor connects
`QTimer::timeout` to `processNextTask`, so that is what a timer expiry runs. -/
def step (s : Executor) : Action → Option Executor
  | Action.executeCommandAsync c as d r ss es ps => executeCommandAsync c as d r ss es ps s
  | Action.cancelTask taskId => some (cancelTask taskId s)
  | Action.cancelAllTasks => some (cancelAllTasks s)
  | Action.getPrivilegeMethod env => some (getPrivilegeMethod env s).2
  | Action.processNextTask env =>
    some (processNextTask env { s with pendingCalls := s.pendingCalls - 1 })
  | Action.timerTimeout env => some (processNextTask env { s with timerActive := false })
  | Action.processStarted => some (onProcessStarted s)
  | Action.processReadyRead output => some (onProcessReadyRead output s)
  | Action.processFinished exitCode output => onProcessFinished exitCode output s
  | Action.processError errorString => onProcessError errorString s

/-- Run a sequence of steps; `none` when a step is not enabled or is undefined. -/
def run (s : Executor) : List Action → Option Executor
  | [] => some s
  | a :: rest =>
    if enabled s a then
      match step s a with
      | some s1 => run s1 rest
      | none => none
    else none

/-! ## Projections of the trace -/

/-- The task of a `startTask` call record. -/
def startedTask? : Event → Option PrivilegedTask
  | Event.startTask t => some t
  | _ => none

/-- The task of an `enqueueTask` call record. -/
def submittedTask? : Event → Option PrivilegedTask
  | Event.enqueueTask t => some t
  | _ => none

/-- Tasks handed to `startTask` so far, in order. -/
def startedTasks (tr : List Event) : List PrivilegedTask := tr.filterMap startedTask?

/-- Tasks handed to `enqueueTask` so far, in order. -/
def submittedTasks (tr : List Event) : List PrivilegedTask := tr.filterMap submittedTask?

/-- Effect of one event on the list of subprocess handles in flight: `QProcess::start`
adds the handle, `deleteLater` (which destroys the `QProcess` and with it the
subprocess) removes it. -/
def liveStep (live : List Nat) : Event → List Nat
  | Event.processStart h _ _ => live ++ [h]
  | Event.deleteLater h => live.filter (fun x => x ≠ h)
  | _ => live

/-- Handles of the subprocesses that have been started and not yet released. -/
def inFlight (tr : List Event) : List Nat := tr.foldl liveStep []

/-- Events emitted between state `s` and a later state `s1`. -/
def newEvents (s s1 : Executor) : List Event := s1.trace.drop s.trace.length

/-- Whether `e` is a terminal signal (`taskFinished`, `taskError`, `taskCancelled`) for
the task id `taskId`. -/
def isTerminalFor (taskId : Int) : Event → Bool
  | Event.taskFinished i _ _ => decide (i = taskId)
  | Event.taskError i _ => decide (i = taskId)
  | Event.taskCancelled i => decide (i = taskId)
  | _ => false

/-- The terminal signals emitted for `taskId`, in order. -/
def terminalEvents (taskId : Int) (tr : List Event) : List Event :=
  tr.filter (isTerminalFor taskId)

/-- Number of times `which name` has been run. -/
def probeCount (name : String) (tr : List Event) : Nat :=
  tr.count (Event.runCommand "which" [name])

/-- Results of `n` consecutive calls of `getPrivilegeMethod` on a fixed host, and the
state after the last call. -/
def resolveN (env : Host) : Nat → Executor → List String × Executor
  | 0, s => ([], s)
  | n + 1, s =>
    let r := getPrivilegeMethod env s
    let rest := resolveN env n r.2
    (r.1 :: rest.1, rest.2)

/-! ## Sample data -/

/-- Indeterminate members of `m_currentTask` used in the examples. -/
def junk0 : PrivilegedTask :=
  { command := "", args := [], description := "", taskId := 0, receiver := none,
    successSlot := none, errorSlot := none, progressSlot := none }

/-- A host with both helpers on the search path. -/
def hostBoth : Host := { whichPkexec := 0, whichSudo := 0 }

/-- A host with only sudo on the search path. -/
def hostSudo : Host := { whichPkexec := 1, whichSudo := 0 }

/-- A host with neither helper on the search path. -/
def hostNone : Host := { whichPkexec := 1, whichSudo := 1 }

/-- Submission of `dnf install -y vim` without a receiver. -/
def submitVim : Action :=
  Action.executeCommandAsync "dnf" ["install", "-y", "vim"] "Installing packages: vim"
    none none none none

/-- Submission of `systemctl restart sshd` with a receiver and all three slots. -/
def submitSshd : Action :=
  Action.executeCommandAsync "systemctl" ["restart", "sshd"] "Restarting service: sshd"
    (some 7) (some "onDone") (some "onFailed") (some "onOutput")

/-- State reached by `acts` from a fresh executor (the fresh executor itself when the
run has no result). -/
def stateAfter (acts : List Action) : Executor :=
  (run (Executor.init junk0) acts).getD (Executor.init junk0)

/-- A run in which one task has been submitted and started with pkexec. -/
def runStarted : List Action :=
  [submitVim, Action.processNextTask hostBoth, Action.processStarted]

/-- A run with two submissions: the first task is started and exits with code 0, then
the second task is started. -/
def runTwo : List Action :=
  [submitVim, submitSshd, Action.processNextTask hostBoth, Action.processNextTask hostBoth,
    Action.processStarted, Action.processFinished 0 "Complete!",
    Action.processNextTask hostBoth]

/-- Descriptor that `submitVim` enqueues when it is the first submission. -/
def taskVim : PrivilegedTask :=
  { command := "dnf", args := ["install", "-y", "vim"],
    description := "Installing packages: vim", taskId := 1, receiver := none,
    successSlot := none, errorSlot := none, progressSlot := none }

/-- Descriptor that `submitSshd` enqueues when it is the second submission. -/
def taskSshd : PrivilegedTask :=
  { command := "systemctl", args := ["restart", "sshd"],
    description := "Restarting service: sshd", taskId := 2, receiver := some 7,
    successSlot := some "onDone", errorSlot := some "onFailed",
    progressSlot := some "onOutput" }

/-- The run `runStarted` continued by a cancellation of the running task and the error
notification (`QProcess::Crashed`) of the killed subprocess. -/
def runCancelRunning : List Action :=
  runStarted ++ [Action.cancelTask 1, Action.processError "Process crashed"]

/-- The run `runStarted` continued by the expiry of the 60 s timer. -/
def runTimeout : List Action :=
  runStarted ++ [Action.timerTimeout hostBoth]

/-- A run with two submissions in which the first task is running and the second is
still queued. -/
def runQueued : List Action :=
  [submitVim, submitSshd, Action.processNextTask hostBoth]

/-- A run in which a task meets a host without any helper on first use. -/
def runNoMethod : List Action :=
  [submitVim, Action.processNextTask hostNone]

/-- The run `runTwo`, except that both helpers have disappeared from the host by the
time the second task is dequeued. -/
def runHelperRemoved : List Action :=
  [submitVim, submitSshd, Action.processNextTask hostBoth, Action.processNextTask hostBoth,
    Action.processStarted, Action.processFinished 0 "Complete!",
    Action.processNextTask hostNone]

/-- State reached by `acts` from `s0` (`s0` itself when the run has no result). -/
def stateFrom (s0 : Executor) (acts : List Action) : Executor :=
  (run s0 acts).getD s0

/-- Value that `executeCommandAsync` hands back to its caller.  The function is declared
`void` in `privilegedexecutor.h`, as is every convenience wrapper built on it, so the
value is the unit. -/
def executeCommandAsyncResult (_command : String) (_args : List String)
    (_description : String) (_receiver : Option Nat)
    (_successSlot _errorSlot _progressSlot : Option String) (_s : Executor) : Unit :=
  ()

/-- Value that `cancelTask` hands back to its caller.  The function is declared `void`
in `privilegedexecutor.h`, so the value is the unit. -/
def cancelTaskResult (_taskId : Int) (_s : Executor) : Unit :=
  ()

/-- Whether `e` is a `taskProgress` signal for the task id `taskId`. -/
def isProgressFor (taskId : Int) : Event → Bool
  | Event.taskProgress i _ => decide (i = taskId)
  | _ => false

/-- The progress and terminal signals emitted for `taskId`, in order. -/
def taskSignals (taskId : Int) (tr : List Event) : List Event :=
  tr.filter (fun e => isProgressFor taskId e || isTerminalFor taskId e)

/-- The run `runStarted` continued by the exit of the subprocess with exit code 1. -/
def runExitOne : List Action :=
  runStarted ++ [Action.processFinished 1 "Error: Unable to find a match: vimm"]

/-- The run `runStarted` continued by the exit of the subprocess with exit code 0. -/
def runFinished : List Action :=
  runStarted ++ [Action.processFinished 0 "Complete!"]

/-- The run `runStarted` continued by a cancellation of the running task, after which
output of the subprocess becomes readable. -/
def runCancelThenOutput : List Action :=
  runStarted ++ [Action.cancelTask 1, Action.processReadyRead "Downloading Packages:\n"]

/-- A run in which a task has been dequeued and `QProcess::start` has been called, with
no notification from the subprocess yet. -/
def runLaunch : List Action :=
  [submitVim, Action.processNextTask hostBoth]

/-- The run `runLaunch` continued by the failure of the helper to start. -/
def runLaunchFail : List Action :=
  runLaunch ++ [Action.processError "execve: No such file or directory"]

/-! ## Wrappers, introspection calls, the synchronous path, the mutex -/

/-- Function `PrivilegedExecutor::isTaskRunning` as a call on the object: the value it
returns and the state it leaves.  The body takes the mutex and evaluates one expression;
it assigns to no member and emits nothing. -/
def isTaskRunningCall (taskId : Int) (s : Executor) : Bool × Executor :=
  (s.m_isRunning && decide (s.m_currentTask.taskId = taskId), s)

/-- Function `PrivilegedExecutor::getRunningTasks` as a call on the object: the list it
returns and the state it leaves.  The body takes the mutex, appends the description of
the current task if `m_isRunning`, then the descriptions of the queue; it assigns to no
member and emits nothing. -/
def getRunningTasksCall (s : Executor) : List String × Executor :=
  let tasks : List String := []
  let tasks := if s.m_isRunning then tasks ++ [s.m_currentTask.description] else tasks
  let tasks := s.m_taskQueue.foldl (fun acc task => acc ++ [task.description]) tasks
  (tasks, s)

/-- Function `PrivilegedExecutor::installPackages`. -/
def installPackages (packages : List String) (receiver : Option Nat)
    (successSlot errorSlot progressSlot : Option String) (s : Executor) : Option Executor :=
  let packageList := String.intercalate " " packages
  let description := "Installing packages: " ++ packageList
  let args := ["install", "-y"] ++ packages
  executeCommandAsync "dnf" args description receiver successSlot errorSlot progressSlot s

/-- Function `PrivilegedExecutor::removePackages`. -/
def removePackages (packages : List String) (receiver : Option Nat)
    (successSlot errorSlot progressSlot : Option String) (s : Executor) : Option Executor :=
  let packageList := String.intercalate " " packages
  let description := "Removing packages: " ++ packageList
  let args := ["remove", "-y"] ++ packages
  executeCommandAsync "dnf" args description receiver successSlot errorSlot progressSlot s

/-- Function `PrivilegedExecutor::updatePackages`. -/
def updatePackages (packages : List String) (receiver : Option Nat)
    (successSlot errorSlot progressSlot : Option String) (s : Executor) : Option Executor :=
  if packages.isEmpty then
    executeCommandAsync "dnf" ["update", "-y"] "Updating all packages" receiver successSlot
      errorSlot progressSlot s
  else
    let packageList := String.intercalate " " packages
    executeCommandAsync "dnf" (["update", "-y"] ++ packages)
      ("Updating packages: " ++ packageList) receiver successSlot errorSlot progressSlot s

/-- The executor together with the files of the host that `writeSystemFile` touches: each
entry is a file name and the text whose UTF-8 encoding the file holds. -/
structure World where
  exec : Executor
  files : List (String × String)
  deriving DecidableEq, Repr

/-- Function `PrivilegedExecutor::writeSystemFile`.  `tmp` is the outcome of
`tempFile.open()`: `none` when the temporary file cannot be created, `some name` with the
name Qt chose otherwise.  The local `QTemporaryFile` is destroyed when the function
returns, and its destructor removes the file (auto-remove is on by default). -/
def writeSystemFile (tmp : Option String) (path content : String) (receiver : Option Nat)
    (successSlot errorSlot : Option String) (w : World) : Option World :=
  let description := "Writing system file: " ++ path
  match tmp with
  | none =>
    match receiver, errorSlot with
    | some r, some slot =>
      some { w with
        exec := emit w.exec (Event.invokeMethod r slot "Failed to create temporary file") }
    | _, _ => some w
  | some name =>
    let files1 := (name, content) :: w.files
    let args := [name, path]
    match executeCommandAsync "cp" args description receiver successSlot errorSlot none
        w.exec with
    | none => none
    | some e1 => some { exec := e1, files := files1.filter (fun f => decide (f.1 ≠ name)) }

/-- Function `PrivilegedExecutor::executeCommand` (the synchronous path): the value it
returns and the state it leaves.  `exitCode` is what `SystemUtils::runCommand` yields in
`.first` for the helper invocation. -/
def executeCommand (env : Host) (exitCode : Int) (command : String) (args : List String)
    (s : Executor) : Int × Executor :=
  let r := getPrivilegeMethod env s
  let privilegeMethod := r.1
  if privilegeMethod = "" then (-1, r.2)
  else
    let fullArgs : List String :=
      if privilegeMethod = "pkexec" then [command] ++ args
      else if privilegeMethod = "sudo" then ["-n", command] ++ args
      else []
    (exitCode, emit r.2 (Event.runCommand privilegeMethod fullArgs))

/-- The executor together with its mutex and a log: `m_taskMutex` is `true` while the
`QMutex` member of that name is locked, and `effects` lists the observable effects in
the order in which they happen, each with the state of `m_taskMutex` at that moment. -/
structure Guarded where
  exec : Executor
  m_taskMutex : Bool
  effects : List (Event × Bool)
  deriving DecidableEq, Repr

/-- A fresh executor: the mutex is unlocked and nothing has happened yet. -/
def Guarded.init (junk : PrivilegedTask) : Guarded :=
  { exec := Executor.init junk, m_taskMutex := false, effects := [] }

/-- Constructor of `QMutexLocker locker(&m_taskMutex)`, which calls `QMutex::lock`.
`m_taskMutex` is a plain `QMutex`, which is not recursive: a call of `lock` while the
mutex is locked does not return (`none`). -/
def Guarded.lock (m : Guarded) : Option Guarded :=
  if m.m_taskMutex then none else some { m with m_taskMutex := true }

/-- Destructor of `QMutexLocker`, run when the function that declared the locker
returns: it calls `QMutex::unlock`. -/
def Guarded.unlock (m : Guarded) : Guarded :=
  { m with m_taskMutex := false }

/-- One observable effect: it is appended to the trace of the executor, and to the log
together with the state the mutex has now. -/
def Guarded.record (m : Guarded) (e : Event) : Guarded :=
  { m with exec := emit m.exec e, effects := m.effects ++ [(e, m.m_taskMutex)] }

/-- An assignment to member variables; it is not an observable effect. -/
def Guarded.assign (m : Guarded) (f : Executor → Executor) : Guarded :=
  { m with exec := f m.exec }

/-- Function `PrivilegedExecutor::isPkexecAvailable`; it does not touch the mutex. -/
def Guarded.isPkexecAvailable (env : Host) (m : Guarded) : Bool × Guarded :=
  (decide (env.whichPkexec = 0), m.record (Event.runCommand "which" ["pkexec"]))

/-- Function `PrivilegedExecutor::isSudoAvailable`; it does not touch the mutex. -/
def Guarded.isSudoAvailable (env : Host) (m : Guarded) : Bool × Guarded :=
  (decide (env.whichSudo = 0), m.record (Event.runCommand "which" ["sudo"]))

/-- Function `PrivilegedExecutor::getPrivilegeMethod`; it does not touch the mutex. -/
def Guarded.getPrivilegeMethod (env : Host) (m : Guarded) : String × Guarded :=
  if m.exec.s_privilegeMethod ≠ "" then
    (m.exec.s_privilegeMethod, m)
  else
    let r1 := Guarded.isPkexecAvailable env m
    if r1.1 then
      let m2 := r1.2.assign (fun s => { s with s_privilegeMethod := "pkexec" })
      (m2.exec.s_privilegeMethod, m2)
    else
      let r2 := Guarded.isSudoAvailable env r1.2
      if r2.1 then
        let m3 := r2.2.assign (fun s => { s with s_privilegeMethod := "sudo" })
        (m3.exec.s_privilegeMethod, m3)
      else
        (r2.2.exec.s_privilegeMethod, r2.2)

/-- Function `PrivilegedExecutor::finishCurrentTask`; it does not touch the mutex. -/
def Guarded.finishCurrentTask (exitCode : Int) (output : String) (m : Guarded) : Guarded :=
  let m1 := m.assign (fun s => { s with timerActive := false })
  let m2 :=
    match m1.exec.m_currentTask.receiver with
    | some r =>
      if exitCode = 0 then
        match m1.exec.m_currentTask.successSlot with
        | some slot => m1.record (Event.invokeMethod r slot output)
        | none => m1
      else
        match m1.exec.m_currentTask.errorSlot with
        | some slot => m1.record (Event.invokeMethod r slot output)
        | none => m1
    | none => m1
  let m3 := m2.record (Event.taskFinished m2.exec.m_currentTask.taskId exitCode output)
  let m4 :=
    match m3.exec.m_currentProcess with
    | some h =>
      (m3.record (Event.deleteLater h)).assign (fun s => { s with m_currentProcess := none })
    | none => m3
  m4.assign (fun s => { s with m_isRunning := false, pendingCalls := s.pendingCalls + 1 })

/-- Function `PrivilegedExecutor::errorCurrentTask`; it does not touch the mutex. -/
def Guarded.errorCurrentTask (error : String) (m : Guarded) : Guarded :=
  let m1 := m.assign (fun s => { s with timerActive := false })
  let m2 :=
    match m1.exec.m_currentTask.receiver, m1.exec.m_currentTask.errorSlot with
    | some r, some slot => m1.record (Event.invokeMethod r slot error)
    | _, _ => m1
  let m3 := m2.record (Event.taskError m2.exec.m_currentTask.taskId error)
  let m4 :=
    match m3.exec.m_currentProcess with
    | some h =>
      (m3.record (Event.deleteLater h)).assign (fun s => { s with m_currentProcess := none })
    | none => m3
  m4.assign (fun s => { s with m_isRunning := false, pendingCalls := s.pendingCalls + 1 })

/-- Function `PrivilegedExecutor::startTask`; it does not touch the mutex itself, and
its only caller is `processNextTask`. -/
def Guarded.startTask (env : Host) (task : PrivilegedTask) (m : Guarded) : Guarded :=
  let m0 := m.record (Event.startTask task)
  let m1 := m0.assign (fun s => { s with m_currentTask := task, m_isRunning := true })
  let r := Guarded.getPrivilegeMethod env m1
  let privilegeMethod := r.1
  let m2 := r.2
  if privilegeMethod = "" then
    Guarded.errorCurrentTask "No privilege escalation method available" m2
  else
    let h := m2.exec.processCount
    let m3 := m2.assign (fun s => { s with m_currentProcess := some h, processCount := h + 1 })
    let fullArgs : List String :=
      if privilegeMethod = "pkexec" then [task.command] ++ task.args
      else if privilegeMethod = "sudo" then ["-n", task.command] ++ task.args
      else []
    let m4 := m3.assign (fun s => { s with timerActive := true })
    m4.record (Event.processStart h privilegeMethod fullArgs)

/-- Function `PrivilegedExecutor::processNextTask`: the locker is taken on the first
line and released when the function returns, after `startTask` has returned. -/
def Guarded.processNextTask (env : Host) (m : Guarded) : Option Guarded :=
  match m.lock with
  | none => none
  | some m1 =>
    let m2 :=
      if m1.exec.m_isRunning then m1
      else
        match m1.exec.m_taskQueue with
        | [] => m1
        | task :: rest =>
          Guarded.startTask env task (m1.assign (fun s => { s with m_taskQueue := rest }))
    some m2.unlock

/-- Function `PrivilegedExecutor::enqueueTask`: the locker is taken on the first line and
released when the function returns. -/
def Guarded.enqueueTask (task : PrivilegedTask) (m : Guarded) : Option Guarded :=
  match m.lock with
  | none => none
  | some m1 =>
    let m2 := (m1.assign (fun s => { s with m_taskQueue := s.m_taskQueue ++ [task] })).record
      (Event.enqueueTask task)
    let m3 :=
      if m2.exec.m_isRunning then m2
      else m2.assign (fun s => { s with pendingCalls := s.pendingCalls + 1 })
    some m3.unlock

/-- Function `PrivilegedExecutor::executeCommandAsync`: it builds the descriptor and
increments `m_nextTaskId` without the mutex, then calls `enqueueTask`. -/
def Guarded.executeCommandAsync (command : String) (args : List String)
    (description : String) (receiver : Option Nat)
    (successSlot errorSlot progressSlot : Option String) (m : Guarded) : Option Guarded :=
  if m.exec.m_nextTaskId = INT_MAX then none
  else
    let task : PrivilegedTask :=
      { command := command, args := args, description := description,
        taskId := m.exec.m_nextTaskId, receiver := receiver, successSlot := successSlot,
        errorSlot := errorSlot, progressSlot := progressSlot }
    Guarded.enqueueTask task (m.assign (fun s => { s with m_nextTaskId := s.m_nextTaskId + 1 }))

/-- Function `PrivilegedExecutor::cancelTask`: the locker is taken on the first line and
released when the function returns, on either path. -/
def Guarded.cancelTask (taskId : Int) (m : Guarded) : Option Guarded :=
  match m.lock with
  | none => none
  | some m1 =>
    let m2 :=
      if m1.exec.m_isRunning && decide (m1.exec.m_currentTask.taskId = taskId) then
        let m3 :=
          match m1.exec.m_currentProcess with
          | some h => m1.record (Event.processKill h)
          | none => m1
        m3.record (Event.taskCancelled taskId)
      else
        match removeFirstWithId taskId m1.exec.m_taskQueue with
        | some q =>
          (m1.assign (fun s => { s with m_taskQueue := q })).record (Event.taskCancelled taskId)
        | none => m1
    some m2.unlock

/-- Function `PrivilegedExecutor::cancelAllTasks`: the locker is taken on the first line
and released when the function returns. -/
def Guarded.cancelAllTasks (m : Guarded) : Option Guarded :=
  match m.lock with
  | none => none
  | some m1 =>
    let m2 :=
      match m1.exec.m_isRunning, m1.exec.m_currentProcess with
      | true, some h =>
        (m1.record (Event.processKill h)).record
          (Event.taskCancelled m1.exec.m_currentTask.taskId)
      | _, _ => m1
    let m3 := m2.exec.m_taskQueue.foldl
      (fun acc task => acc.record (Event.taskCancelled task.taskId)) m2
    some (m3.assign (fun s => { s with m_taskQueue := [] })).unlock

/-- Function `PrivilegedExecutor::isTaskRunning`: the value it returns and the state it
leaves; the locker is held while the expression is evaluated. -/
def Guarded.isTaskRunning (taskId : Int) (m : Guarded) : Option (Bool × Guarded) :=
  match m.lock with
  | none => none
  | some m1 =>
    some (m1.exec.m_isRunning && decide (m1.exec.m_currentTask.taskId = taskId), m1.unlock)

/-- Function `PrivilegedExecutor::getRunningTasks`: the list it returns and the state it
leaves; the locker is held while the list is built. -/
def Guarded.getRunningTasks (m : Guarded) : Option (List String × Guarded) :=
  match m.lock with
  | none => none
  | some m1 =>
    let tasks : List String := []
    let tasks := if m1.exec.m_isRunning then tasks ++ [m1.exec.m_currentTask.description] else tasks
    let tasks := m1.exec.m_taskQueue.foldl (fun acc task => acc ++ [task.description]) tasks
    some (tasks, m1.unlock)

/-- Slot `PrivilegedExecutor::onProcessStarted`; it does not touch the mutex. -/
def Guarded.onProcessStarted (m : Guarded) : Guarded :=
  m.record (Event.taskStarted m.exec.m_currentTask.taskId m.exec.m_currentTask.description)

/-- Slot `PrivilegedExecutor::onProcessFinished`; it does not touch the mutex. -/
def Guarded.onProcessFinished (exitCode : Int) (output : String) (m : Guarded) :
    Option Guarded :=
  match m.exec.m_currentProcess with
  | none => none
  | some _ => some (Guarded.finishCurrentTask exitCode output m)

/-- Slot `PrivilegedExecutor::onProcessError`; it does not touch the mutex. -/
def Guarded.onProcessError (errorString : String) (m : Guarded) : Option Guarded :=
  match m.exec.m_currentProcess with
  | none => none
  | some _ => some (Guarded.errorCurrentTask errorString m)

/-- Slot `PrivilegedExecutor::onProcessReadyRead`; it does not touch the mutex. -/
def Guarded.onProcessReadyRead (output : String) (m : Guarded) : Guarded :=
  match m.exec.m_currentProcess with
  | none => m
  | some _ =>
    if output ≠ "" then
      let m1 := m.record (Event.taskProgress m.exec.m_currentTask.taskId (trimmed output))
      match m1.exec.m_currentTask.progressSlot, m1.exec.m_currentTask.receiver with
      | some slot, some r => m1.record (Event.invokeMethod r slot (trimmed output))
      | _, _ => m1
    else m

/-- Effect of one step on the executor with its mutex; the steps are those of `step`. -/
def Guarded.step (m : Guarded) : Action → Option Guarded
  | Action.executeCommandAsync c as d r ss es ps =>
    Guarded.executeCommandAsync c as d r ss es ps m
  | Action.cancelTask taskId => Guarded.cancelTask taskId m
  | Action.cancelAllTasks => Guarded.cancelAllTasks m
  | Action.getPrivilegeMethod env => some (Guarded.getPrivilegeMethod env m).2
  | Action.processNextTask env =>
    Guarded.processNextTask env (m.assign (fun s => { s with pendingCalls := s.pendingCalls - 1 }))
  | Action.timerTimeout env =>
    Guarded.processNextTask env (m.assign (fun s => { s with timerActive := false }))
  | Action.processStarted => some (Guarded.onProcessStarted m)
  | Action.processReadyRead output => some (Guarded.onProcessReadyRead output m)
  | Action.processFinished exitCode output => Guarded.onProcessFinished exitCode output m
  | Action.processError errorString => Guarded.onProcessError errorString m

/-- Run a sequence of steps on the executor with its mutex; `none` when a step is not
enabled, is undefined, or does not return because the mutex is already locked. -/
def Guarded.run (m : Guarded) : List Action → Option Guarded
  | [] => some m
  | a :: rest =>
    if enabled m.exec a then
      match Guarded.step m a with
      | some m1 => Guarded.run m1 rest
      | none => none
    else none

/-- The run `runStarted` continued by a crash of the subprocess: Qt reports
`errorOccurred(Crashed)` and then `finished`. -/
def runCrash : List Action :=
  runStarted ++ [Action.processError "Process crashed"]

/-- A fresh executor on a host without files of interest. -/
def world0 : World := { exec := Executor.init junk0, files := [] }

/-- The five signals of the class, the events of the broadcast channel. -/
def isSignal : Event → Bool
  | Event.taskStarted _ _ => true
  | Event.taskFinished _ _ _ => true
  | Event.taskError _ _ => true
  | Event.taskProgress _ _ => true
  | Event.taskCancelled _ => true
  | _ => false

/-- Calls of a slot of a receiver through `QMetaObject::invokeMethod`. -/
def isInvoke : Event → Bool
  | Event.invokeMethod _ _ _ => true
  | _ => false

/-! ## The remaining wrappers and the submit operations as one family -/

/-- Function `PrivilegedExecutor::enableRepository`. -/
def enableRepository (repo : String) (receiver : Option Nat)
    (successSlot errorSlot : Option String) (s : Executor) : Option Executor :=
  let description := "Enabling repository: " ++ repo
  let args := ["config-manager", "--enable", repo]
  executeCommandAsync "dnf" args description receiver successSlot errorSlot none s

/-- Function `PrivilegedExecutor::disableRepository`. -/
def disableRepository (repo : String) (receiver : Option Nat)
    (successSlot errorSlot : Option String) (s : Executor) : Option Executor :=
  let description := "Disabling repository: " ++ repo
  let args := ["config-manager", "--disable", repo]
  executeCommandAsync "dnf" args description receiver successSlot errorSlot none s

/-- Function `PrivilegedExecutor::addRepository`. -/
def addRepository (repoUrl repoName : String) (receiver : Option Nat)
    (successSlot errorSlot : Option String) (s : Executor) : Option Executor :=
  let description := "Adding repository: " ++ repoName
  let args := ["config-manager", "--add-repo", repoUrl]
  executeCommandAsync "dnf" args description receiver successSlot errorSlot none s

/-- Function `PrivilegedExecutor::enableSystemdService`. -/
def enableSystemdService (service : String) (receiver : Option Nat)
    (successSlot errorSlot : Option String) (s : Executor) : Option Executor :=
  let description := "Enabling service: " ++ service
  let args := ["enable", service]
  executeCommandAsync "systemctl" args description receiver successSlot errorSlot none s

/-- Function `PrivilegedExecutor::disableSystemdService`. -/
def disableSystemdService (service : String) (receiver : Option Nat)
    (successSlot errorSlot : Option String) (s : Executor) : Option Executor :=
  let description := "Disabling service: " ++ service
  let args := ["disable", service]
  executeCommandAsync "systemctl" args description receiver successSlot errorSlot none s

/-- Function `PrivilegedExecutor::restartSystemdService`. -/
def restartSystemdService (service : String) (receiver : Option Nat)
    (successSlot errorSlot : Option String) (s : Executor) : Option Executor :=
  let description := "Restarting service: " ++ service
  let args := ["restart", service]
  executeCommandAsync "systemctl" args description receiver successSlot errorSlot none s

/-- Function `PrivilegedExecutor::deleteSystemFile`. -/
def deleteSystemFile (path : String) (receiver : Option Nat)
    (successSlot errorSlot : Option String) (s : Executor) : Option Executor :=
  let description := "Deleting system file: " ++ path
  let args := [path]
  executeCommandAsync "rm" args description receiver successSlot errorSlot none s

/-- A call of a submit operation of the public interface, with its arguments:
`executeCommandAsync` or one of the eleven convenience wrappers built on it.  For
`writeSystemFile` the first argument is the outcome of creating the temporary file. -/
inductive Submit where
  | executeCommandAsync (command : String) (args : List String) (description : String)
      (receiver : Option Nat) (successSlot errorSlot progressSlot : Option String)
  | installPackages (packages : List String) (receiver : Option Nat)
      (successSlot errorSlot progressSlot : Option String)
  | removePackages (packages : List String) (receiver : Option Nat)
      (successSlot errorSlot progressSlot : Option String)
  | updatePackages (packages : List String) (receiver : Option Nat)
      (successSlot errorSlot progressSlot : Option String)
  | enableRepository (repo : String) (receiver : Option Nat)
      (successSlot errorSlot : Option String)
  | disableRepository (repo : String) (receiver : Option Nat)
      (successSlot errorSlot : Option String)
  | addRepository (repoUrl repoName : String) (receiver : Option Nat)
      (successSlot errorSlot : Option String)
  | enableSystemdService (service : String) (receiver : Option Nat)
      (successSlot errorSlot : Option String)
  | disableSystemdService (service : String) (receiver : Option Nat)
      (successSlot errorSlot : Option String)
  | restartSystemdService (service : String) (receiver : Option Nat)
      (successSlot errorSlot : Option String)
  | writeSystemFile (tmp : Option String) (path content : String) (receiver : Option Nat)
      (successSlot errorSlot : Option String)
  | deleteSystemFile (path : String) (receiver : Option Nat)
      (successSlot errorSlot : Option String)
  deriving DecidableEq, Repr

/-- Put a new executor state into the world. -/
def World.withExec (w : World) (e : Executor) : World :=
  { w with exec := e }

/-- Effect of a submit operation on the executor and the files of the host. -/
def submit : Submit → World → Option World
  | Submit.executeCommandAsync c as d r ss es ps, w =>
    (executeCommandAsync c as d r ss es ps w.exec).map w.withExec
  | Submit.installPackages pk r ss es ps, w => (installPackages pk r ss es ps w.exec).map w.withExec
  | Submit.removePackages pk r ss es ps, w => (removePackages pk r ss es ps w.exec).map w.withExec
  | Submit.updatePackages pk r ss es ps, w => (updatePackages pk r ss es ps w.exec).map w.withExec
  | Submit.enableRepository repo r ss es, w => (enableRepository repo r ss es w.exec).map w.withExec
  | Submit.disableRepository repo r ss es, w =>
    (disableRepository repo r ss es w.exec).map w.withExec
  | Submit.addRepository url name r ss es, w => (addRepository url name r ss es w.exec).map w.withExec
  | Submit.enableSystemdService sv r ss es, w =>
    (enableSystemdService sv r ss es w.exec).map w.withExec
  | Submit.disableSystemdService sv r ss es, w =>
    (disableSystemdService sv r ss es w.exec).map w.withExec
  | Submit.restartSystemdService sv r ss es, w =>
    (restartSystemdService sv r ss es w.exec).map w.withExec
  | Submit.writeSystemFile tmp path content r ss es, w => writeSystemFile tmp path content r ss es w
  | Submit.deleteSystemFile path r ss es, w => (deleteSystemFile path r ss es w.exec).map w.withExec

/-- Value that a submit operation hands back to its caller.  `executeCommandAsync` and
all eleven wrappers are declared `void` in `privilegedexecutor.h`, so for every operation
and every state the value is the unit. -/
def submitResult (_op : Submit) (_w : World) : Unit :=
  ()

/-- Whether the operation reaches `executeCommandAsync`: every operation does, except
`writeSystemFile` when the temporary file cannot be created. -/
def Submit.enqueues : Submit → Bool
  | Submit.writeSystemFile none _ _ _ _ _ => false
  | _ => true

/-- The executor of the run `runStarted` (one task running, queue empty) on a host
without files of interest. -/
def worldStarted : World := { exec := stateAfter runStarted, files := [] }

/-- The call `restartSystemdService("sshd", receiver, "onDone", "onFailed")`. -/
def submitRestartSshd : Submit :=
  Submit.restartSystemdService "sshd" (some 7) (some "onDone") (some "onFailed")

/-! ## Event lists of the member functions -/

/-- Events of `errorCurrentTask` for current task `task` and subprocess handle `proc`. -/
def errorEvents (task : PrivilegedTask) (proc : Option Nat) (error : String) : List Event :=
  (match task.receiver, task.errorSlot with
    | some r, some slot => [Event.invokeMethod r slot error]
    | _, _ => [])
  ++ [Event.taskError task.taskId error]
  ++ (match proc with
    | some h => [Event.deleteLater h]
    | none => [])

/-- Events of `finishCurrentTask` for current task `task` and subprocess handle `proc`. -/
def finishEvents (task : PrivilegedTask) (proc : Option Nat) (exitCode : Int)
    (output : String) : List Event :=
  (match task.receiver with
    | some r =>
      if exitCode = 0 then
        match task.successSlot with
        | some slot => [Event.invokeMethod r slot output]
        | none => []
      else
        match task.errorSlot with
        | some slot => [Event.invokeMethod r slot output]
        | none => []
    | none => [])
  ++ [Event.taskFinished task.taskId exitCode output]
  ++ (match proc with
    | some h => [Event.deleteLater h]
    | none => [])

/-- Value that `getPrivilegeMethod` returns for cache content `cache` on host `env`. -/
def resolved (env : Host) (cache : String) : String :=
  if cache ≠ "" then cache
  else if env.whichPkexec = 0 then "pkexec"
  else if env.whichSudo = 0 then "sudo"
  else ""

/-- Probes that `getPrivilegeMethod` runs for cache content `cache` on host `env`. -/
def probeEvents (env : Host) (cache : String) : List Event :=
  if cache ≠ "" then []
  else if env.whichPkexec = 0 then [Event.runCommand "which" ["pkexec"]]
  else [Event.runCommand "which" ["pkexec"], Event.runCommand "which" ["sudo"]]

/-- Argument vector that `startTask` builds for method `m`. -/
def fullArgs (m : String) (task : PrivilegedTask) : List String :=
  if m = "pkexec" then [task.command] ++ task.args
  else if m = "sudo" then ["-n", task.command] ++ task.args
  else []

/-- Events of `onProcessReadyRead` while a subprocess handle is held. -/
def progressEvents (task : PrivilegedTask) (output : String) : List Event :=
  if output ≠ "" then
    [Event.taskProgress task.taskId (trimmed output)]
    ++ (match task.progressSlot, task.receiver with
      | some slot, some r => [Event.invokeMethod r slot (trimmed output)]
      | _, _ => [])
  else []

/-- Events that are neither call records of `enqueueTask`/`startTask` nor a
`taskStarted` signal nor a `QProcess::start`. -/
def quiet : Event → Bool
  | Event.startTask _ => false
  | Event.enqueueTask _ => false
  | Event.taskStarted _ _ => false
  | Event.processStart _ _ _ => false
  | _ => true

/-- Events that start work on a task: the call record of `startTask` and the call of
`QProcess::start`. -/
def isLaunch : Event → Bool
  | Event.startTask _ => true
  | Event.processStart _ _ _ => true
  | _ => false

/-- Events of `cancelAllTasks` in state `s`. -/
def cancelAllEvents (s : Executor) : List Event :=
  (match s.m_isRunning, s.m_currentProcess with
    | true, some h => [Event.processKill h, Event.taskCancelled s.m_currentTask.taskId]
    | _, _ => [])
  ++ s.m_taskQueue.map (fun t => Event.taskCancelled t.taskId)

/-- Events of `cancelTask taskId` in state `s`. -/
def cancelEvents (taskId : Int) (s : Executor) : List Event :=
  if s.m_isRunning = true ∧ s.m_currentTask.taskId = taskId then
    (match s.m_currentProcess with
      | some h => [Event.processKill h]
      | none => []) ++ [Event.taskCancelled taskId]
  else
    match removeFirstWithId taskId s.m_taskQueue with
    | some _ => [Event.taskCancelled taskId]
    | none => []

/-! ## The invariant of reachable states -/

/-- Facts that hold in every state a fresh executor can reach. -/
structure Inv (s : Executor) : Prop where
  running : s.m_isRunning = s.m_currentProcess.isSome
  cache : s.s_privilegeMethod = "" ∨ s.s_privilegeMethod = "pkexec"
    ∨ s.s_privilegeMethod = "sudo"
  live : inFlight s.trace = s.m_currentProcess.toList
  timer : s.timerActive = true → s.m_isRunning = true
  wake : s.m_isRunning = false → s.m_taskQueue ≠ [] → 0 < s.pendingCalls
  current : (startedTasks s.trace = [] ∧ s.m_isRunning = false ∧ s.processCount = 0)
    ∨ s.m_currentTask ∈ startedTasks s.trace
  fifo : (startedTasks s.trace ++ s.m_taskQueue).Sublist (submittedTasks s.trace)
  next : s.m_nextTaskId = (submittedTasks s.trace).length + 1
  ids : (submittedTasks s.trace).map (fun t => t.taskId)
    = (List.range (submittedTasks s.trace).length).map (fun k => (k : Int) + 1)
  sorted : (submittedTasks s.trace).Pairwise (fun a b => a.taskId < b.taskId)
  fresh : ∀ t ∈ submittedTasks s.trace, t.taskId < s.m_nextTaskId
  accounted : ∀ t ∈ submittedTasks s.trace,
    t ∈ startedTasks s.trace ∨ t ∈ s.m_taskQueue ∨ Event.taskCancelled t.taskId ∈ s.trace
  startedEv : ∀ i d, Event.taskStarted i d ∈ s.trace →
    ∃ t ∈ startedTasks s.trace, t.taskId = i
  launched : ∀ h p a, Event.processStart h p a ∈ s.trace →
    ∃ t ∈ startedTasks s.trace,
      (p = "pkexec" ∧ a = [t.command] ++ t.args) ∨ (p = "sudo" ∧ a = ["-n", t.command] ++ t.args)

/-- Every submitted descriptor carries exactly the arguments of one of the
`executeCommandAsync` steps in `acts`. -/
def Origin (acts : List Action) (s : Executor) : Prop :=
  ∀ t ∈ submittedTasks s.trace,
    Action.executeCommandAsync t.command t.args t.description t.receiver t.successSlot
      t.errorSlot t.progressSlot ∈ acts

/-! ## Basic lemmas -/

@[simp] theorem startedTasks_nil : startedTasks [] = [] := rfl

@[simp] theorem submittedTasks_nil : submittedTasks [] = [] := rfl

@[simp] theorem inFlight_nil : inFlight [] = [] := rfl

@[simp] theorem startedTasks_append (a b : List Event) :
    startedTasks (a ++ b) = startedTasks a ++ startedTasks b := by
  simp [startedTasks]

@[simp] theorem submittedTasks_append (a b : List Event) :
    submittedTasks (a ++ b) = submittedTasks a ++ submittedTasks b := by
  simp [submittedTasks]

@[simp] theorem startedTasks_cons (e : Event) (b : List Event) :
    startedTasks (e :: b) = (startedTask? e).toList ++ startedTasks b := by
  cases h : startedTask? e <;> simp [startedTasks, List.filterMap_cons, h]

@[simp] theorem submittedTasks_cons (e : Event) (b : List Event) :
    submittedTasks (e :: b) = (submittedTask? e).toList ++ submittedTasks b := by
  cases h : submittedTask? e <;> simp [submittedTasks, List.filterMap_cons, h]

@[simp] theorem inFlight_snoc (tr : List Event) (e : Event) :
    inFlight (tr ++ [e]) = liveStep (inFlight tr) e := by
  simp [inFlight, List.foldl_append]

theorem inv_init (junk : PrivilegedTask) : Inv (Executor.init junk) := by
  constructor <;> simp [Executor.init]

/-! ## Effect of each member function as one record update -/

theorem errorCurrentTask_eq (error : String) (s : Executor) :
    errorCurrentTask error s =
      { s with
        m_currentProcess := none, m_isRunning := false, timerActive := false
        pendingCalls := s.pendingCalls + 1
        trace := s.trace ++ errorEvents s.m_currentTask s.m_currentProcess error } := by
  obtain ⟨q, proc, cur, run, nxt, tm, cache, pend, cnt, tr⟩ := s
  obtain ⟨c, a, d, i, r, ss, es, ps⟩ := cur
  cases r <;> cases es <;> cases proc <;> simp [errorCurrentTask, errorEvents, emit]

theorem finishCurrentTask_eq (exitCode : Int) (output : String) (s : Executor) :
    finishCurrentTask exitCode output s =
      { s with
        m_currentProcess := none, m_isRunning := false, timerActive := false
        pendingCalls := s.pendingCalls + 1
        trace := s.trace ++ finishEvents s.m_currentTask s.m_currentProcess exitCode output } := by
  obtain ⟨q, proc, cur, run, nxt, tm, cache, pend, cnt, tr⟩ := s
  obtain ⟨c, a, d, i, r, ss, es, ps⟩ := cur
  by_cases h0 : exitCode = 0 <;>
    cases r <;> cases es <;> cases ss <;> cases proc <;>
      simp [finishCurrentTask, finishEvents, emit, h0]

theorem getPrivilegeMethod_eq (env : Host) (s : Executor) :
    getPrivilegeMethod env s =
      (resolved env s.s_privilegeMethod,
        { s with
          s_privilegeMethod := resolved env s.s_privilegeMethod
          trace := s.trace ++ probeEvents env s.s_privilegeMethod }) := by
  obtain ⟨q, proc, cur, run, nxt, tm, cache, pend, cnt, tr⟩ := s
  by_cases hc : cache = ""
  · by_cases hp : env.whichPkexec = 0
    · simp [getPrivilegeMethod, resolved, probeEvents, isPkexecAvailable, emit, hc, hp]
    · by_cases hs : env.whichSudo = 0 <;>
        simp [getPrivilegeMethod, resolved, probeEvents, isPkexecAvailable, isSudoAvailable,
          emit, hc, hp, hs]
  · simp [getPrivilegeMethod, resolved, probeEvents, hc]

theorem startTask_eq_error (env : Host) (task : PrivilegedTask) (s : Executor)
    (h : resolved env s.s_privilegeMethod = "") :
    startTask env task s =
      { s with
        m_currentTask := task, m_currentProcess := none, m_isRunning := false
        timerActive := false, pendingCalls := s.pendingCalls + 1
        trace := s.trace ++ [Event.startTask task] ++ probeEvents env s.s_privilegeMethod
          ++ errorEvents task s.m_currentProcess "No privilege escalation method available" } := by
  have hc : s.s_privilegeMethod = "" := by
    by_contra hne
    simp [resolved, hne] at h
  simp only [startTask, getPrivilegeMethod_eq, errorCurrentTask_eq, emit, h]
  obtain ⟨q, proc, cur, run, nxt, tm, cache, pend, cnt, tr⟩ := s
  simp at hc
  simp [hc]

theorem startTask_eq_launch (env : Host) (task : PrivilegedTask) (s : Executor)
    (h : resolved env s.s_privilegeMethod ≠ "") :
    startTask env task s =
      { s with
        m_currentTask := task, m_currentProcess := some s.processCount, m_isRunning := true
        timerActive := true, processCount := s.processCount + 1
        s_privilegeMethod := resolved env s.s_privilegeMethod
        trace := s.trace ++ [Event.startTask task] ++ probeEvents env s.s_privilegeMethod
          ++ [Event.processStart s.processCount (resolved env s.s_privilegeMethod)
                (fullArgs (resolved env s.s_privilegeMethod) task)] } := by
  simp only [startTask, getPrivilegeMethod_eq, emit, h, fullArgs]
  simp

/-! ## Projections of the event lists -/

theorem quiet_startedTasks (l : List Event) (h : ∀ e ∈ l, quiet e = true) :
    startedTasks l = [] := by
  induction l with
  | nil => rfl
  | cons e l ih =>
    have he := h e (List.mem_cons_self e l)
    have hl : ∀ x ∈ l, quiet x = true := fun x hx => h x (List.mem_cons_of_mem e hx)
    cases e <;> simp_all [quiet, startedTask?]

theorem quiet_submittedTasks (l : List Event) (h : ∀ e ∈ l, quiet e = true) :
    submittedTasks l = [] := by
  induction l with
  | nil => rfl
  | cons e l ih =>
    have he := h e (List.mem_cons_self e l)
    have hl : ∀ x ∈ l, quiet x = true := fun x hx => h x (List.mem_cons_of_mem e hx)
    cases e <;> simp_all [quiet, submittedTask?]

theorem errorEvents_quiet (task : PrivilegedTask) (proc : Option Nat) (error : String) :
    ∀ e ∈ errorEvents task proc error, quiet e = true := by
  intro e he
  unfold errorEvents at he
  simp only [List.mem_append] at he
  rcases he with (he | he) | he
  · split at he <;> simp at he
    subst he; rfl
  · simp at he
    subst he; rfl
  · split at he <;> simp at he
    subst he; rfl

theorem finishEvents_quiet (task : PrivilegedTask) (proc : Option Nat) (exitCode : Int)
    (output : String) : ∀ e ∈ finishEvents task proc exitCode output, quiet e = true := by
  intro e he
  unfold finishEvents at he
  simp only [List.mem_append] at he
  rcases he with (he | he) | he
  · split at he
    · split at he <;> split at he <;> simp at he <;> (subst he; rfl)
    · simp at he
  · simp at he
    subst he; rfl
  · split at he <;> simp at he
    subst he; rfl

theorem probeEvents_quiet (env : Host) (cache : String) :
    ∀ e ∈ probeEvents env cache, quiet e = true := by
  intro e he
  unfold probeEvents at he
  split at he
  · simp at he
  · split at he <;> simp at he
    · subst he; rfl
    · rcases he with he | he <;> (subst he; rfl)

theorem progressEvents_quiet (task : PrivilegedTask) (output : String) :
    ∀ e ∈ progressEvents task output, quiet e = true := by
  intro e he
  unfold progressEvents at he
  split at he
  · simp only [List.mem_append] at he
    rcases he with he | he
    · simp at he
      subst he; rfl
    · split at he <;> simp at he
      subst he; rfl
  · simp at he

theorem inFlight_append (tr l : List Event) :
    inFlight (tr ++ l) = l.foldl liveStep (inFlight tr) := by
  simp [inFlight, List.foldl_append]

theorem quiet_of_mem_taskStarted (l : List Event) (h : ∀ e ∈ l, quiet e = true) (i : Int)
    (d : String) : Event.taskStarted i d ∉ l := by
  intro hm
  have := h _ hm
  simp [quiet] at this

theorem quiet_of_mem_processStart (l : List Event) (h : ∀ e ∈ l, quiet e = true) (k : Nat)
    (p : String) (a : List String) : Event.processStart k p a ∉ l := by
  intro hm
  have := h _ hm
  simp [quiet] at this

theorem foldl_liveStep_errorEvents (task : PrivilegedTask) (proc : Option Nat)
    (error : String) (live : List Nat) :
    (errorEvents task proc error).foldl liveStep live
      = match proc with
        | some h => live.filter (fun x => x ≠ h)
        | none => live := by
  unfold errorEvents
  cases proc <;> (simp only [List.foldl_append]; split <;> simp [liveStep])

theorem foldl_liveStep_finishEvents (task : PrivilegedTask) (proc : Option Nat)
    (exitCode : Int) (output : String) (live : List Nat) :
    (finishEvents task proc exitCode output).foldl liveStep live
      = match proc with
        | some h => live.filter (fun x => x ≠ h)
        | none => live := by
  unfold finishEvents
  cases proc <;>
    (simp only [List.foldl_append]; split <;> [(split <;> split <;> simp [liveStep]); simp [liveStep]])

theorem foldl_liveStep_probeEvents (env : Host) (cache : String) (live : List Nat) :
    (probeEvents env cache).foldl liveStep live = live := by
  unfold probeEvents
  split <;> [rfl; (split <;> simp [liveStep])]

theorem foldl_liveStep_progressEvents (task : PrivilegedTask) (output : String)
    (live : List Nat) : (progressEvents task output).foldl liveStep live = live := by
  unfold progressEvents
  split
  · simp only [List.foldl_append]
    split <;> simp [liveStep]
  · rfl

/-! ## Preservation of the invariant -/

/-- A step that appends events without call records or `QProcess::start`, removes from
the queue only tasks it reports as cancelled, and touches neither the id counter, the
current task nor the process counter preserves the invariant, provided the control fields
of the new state are consistent. -/
theorem inv_shrink (s s1 : Executor) (hs : Inv s) (l : List Event)
    (hl1 : startedTasks l = []) (hl2 : submittedTasks l = [])
    (hl3 : ∀ i d, Event.taskStarted i d ∈ l → ∃ t ∈ startedTasks s.trace, t.taskId = i)
    (hl4 : ∀ k p a, Event.processStart k p a ∉ l)
    (htr : s1.trace = s.trace ++ l)
    (hq : s1.m_taskQueue.Sublist s.m_taskQueue)
    (hacc : ∀ t ∈ s.m_taskQueue,
      t ∈ s1.m_taskQueue ∨ Event.taskCancelled t.taskId ∈ s1.trace)
    (hn : s1.m_nextTaskId = s.m_nextTaskId)
    (hc : s1.m_currentTask = s.m_currentTask)
    (hcnt : s1.processCount = s.processCount)
    (hcache : s1.s_privilegeMethod = "" ∨ s1.s_privilegeMethod = "pkexec"
      ∨ s1.s_privilegeMethod = "sudo")
    (hrun : s1.m_isRunning = s1.m_currentProcess.isSome)
    (hmono : s1.m_isRunning = true → s.m_isRunning = true)
    (hlive : inFlight s1.trace = s1.m_currentProcess.toList)
    (htimer : s1.timerActive = true → s1.m_isRunning = true)
    (hwake : s1.m_isRunning = false → s1.m_taskQueue ≠ [] → 0 < s1.pendingCalls) :
    Inv s1 := by
  have e1 : startedTasks s1.trace = startedTasks s.trace := by
    rw [htr, startedTasks_append, hl1, List.append_nil]
  have e2 : submittedTasks s1.trace = submittedTasks s.trace := by
    rw [htr, submittedTasks_append, hl2, List.append_nil]
  refine
    { running := hrun, cache := hcache, live := hlive, timer := htimer, wake := hwake,
      current := ?_, fifo := ?_, next := ?_, ids := ?_, sorted := ?_, fresh := ?_,
      accounted := ?_, startedEv := ?_, launched := ?_ }
  · rw [e1, hc, hcnt]
    rcases hs.current with ⟨h1, h2, h3⟩ | h
    · left
      refine ⟨h1, ?_, h3⟩
      cases hr : s1.m_isRunning
      · rfl
      · rw [hmono hr] at h2
        exact absurd h2 (by simp)
    · exact Or.inr h
  · rw [e1, e2]
    exact ((List.Sublist.refl _).append hq).trans hs.fifo
  · rw [e2, hn]; exact hs.next
  · rw [e2]; exact hs.ids
  · rw [e2]; exact hs.sorted
  · rw [e2, hn]; exact hs.fresh
  · intro t ht
    rw [e2] at ht
    rw [e1]
    rcases hs.accounted t ht with h | h | h
    · exact Or.inl h
    · exact Or.inr (hacc t h)
    · exact Or.inr (Or.inr (by rw [htr]; exact List.mem_append_left _ h))
  · intro i d hm
    rw [htr, List.mem_append] at hm
    rw [e1]
    rcases hm with hm | hm
    · exact hs.startedEv i d hm
    · exact hl3 i d hm
  · intro k p a hm
    rw [htr, List.mem_append] at hm
    rw [e1]
    rcases hm with hm | hm
    · exact hs.launched k p a hm
    · exact absurd hm (hl4 k p a)

/-- Special case of `inv_shrink`: quiet events, queue untouched. -/
theorem inv_quiet (s s1 : Executor) (hs : Inv s) (l : List Event)
    (hl : ∀ e ∈ l, quiet e = true)
    (htr : s1.trace = s.trace ++ l)
    (hq : s1.m_taskQueue = s.m_taskQueue)
    (hn : s1.m_nextTaskId = s.m_nextTaskId)
    (hc : s1.m_currentTask = s.m_currentTask)
    (hcnt : s1.processCount = s.processCount)
    (hcache : s1.s_privilegeMethod = "" ∨ s1.s_privilegeMethod = "pkexec"
      ∨ s1.s_privilegeMethod = "sudo")
    (hrun : s1.m_isRunning = s1.m_currentProcess.isSome)
    (hmono : s1.m_isRunning = true → s.m_isRunning = true)
    (hlive : inFlight s1.trace = s1.m_currentProcess.toList)
    (htimer : s1.timerActive = true → s1.m_isRunning = true)
    (hwake : s1.m_isRunning = false → s1.m_taskQueue ≠ [] → 0 < s1.pendingCalls) :
    Inv s1 :=
  inv_shrink s s1 hs l (quiet_startedTasks l hl) (quiet_submittedTasks l hl)
    (fun i d hm => absurd hm (quiet_of_mem_taskStarted l hl i d))
    (quiet_of_mem_processStart l hl) htr (hq ▸ List.Sublist.refl _)
    (fun _ ht => Or.inl (hq ▸ ht)) hn hc hcnt hcache hrun hmono hlive htimer hwake

theorem inv_errorCurrentTask (error : String) (s : Executor) (hs : Inv s) :
    Inv (errorCurrentTask error s) := by
  rw [errorCurrentTask_eq]
  refine inv_quiet s _ hs _ (errorEvents_quiet s.m_currentTask s.m_currentProcess error)
    rfl rfl rfl rfl rfl hs.cache rfl ?_ ?_ ?_ ?_
  · simp
  · simp only [inFlight_append, foldl_liveStep_errorEvents, hs.live]
    cases s.m_currentProcess <;> simp
  · simp
  · intro _ _; simp

theorem inv_finishCurrentTask (exitCode : Int) (output : String) (s : Executor)
    (hs : Inv s) : Inv (finishCurrentTask exitCode output s) := by
  rw [finishCurrentTask_eq]
  refine inv_quiet s _ hs _
    (finishEvents_quiet s.m_currentTask s.m_currentProcess exitCode output)
    rfl rfl rfl rfl rfl hs.cache rfl ?_ ?_ ?_ ?_
  · simp
  · simp only [inFlight_append, foldl_liveStep_finishEvents, hs.live]
    cases s.m_currentProcess <;> simp
  · simp
  · intro _ _; simp

theorem resolved_valid (env : Host) (cache : String)
    (h : cache = "" ∨ cache = "pkexec" ∨ cache = "sudo") :
    resolved env cache = "" ∨ resolved env cache = "pkexec" ∨ resolved env cache = "sudo" := by
  unfold resolved
  split
  · exact h
  · split
    · exact Or.inr (Or.inl rfl)
    · split
      · exact Or.inr (Or.inr rfl)
      · exact Or.inl rfl

theorem inv_getPrivilegeMethod (env : Host) (s : Executor) (hs : Inv s) :
    Inv (getPrivilegeMethod env s).2 := by
  rw [getPrivilegeMethod_eq]
  refine inv_quiet s _ hs _ (probeEvents_quiet env s.s_privilegeMethod)
    rfl rfl rfl rfl rfl (resolved_valid env _ hs.cache) hs.running (fun h => h) ?_
    hs.timer hs.wake
  simp only [inFlight_append, foldl_liveStep_probeEvents, hs.live]

theorem onProcessReadyRead_eq (output : String) (s : Executor) :
    onProcessReadyRead output s =
      match s.m_currentProcess with
      | none => s
      | some _ => { s with trace := s.trace ++ progressEvents s.m_currentTask output } := by
  obtain ⟨q, proc, cur, run, nxt, tm, cache, pend, cnt, tr⟩ := s
  obtain ⟨c, a, d, i, r, ss, es, ps⟩ := cur
  by_cases ho : output = "" <;> cases proc <;> cases r <;> cases ps <;>
    simp [onProcessReadyRead, progressEvents, emit, ho]

theorem inv_onProcessReadyRead (output : String) (s : Executor) (hs : Inv s) :
    Inv (onProcessReadyRead output s) := by
  rw [onProcessReadyRead_eq]
  split
  · exact hs
  · refine inv_quiet s _ hs _ (progressEvents_quiet s.m_currentTask output)
      rfl rfl rfl rfl rfl hs.cache hs.running (fun h => h) ?_ hs.timer hs.wake
    simp only [inFlight_append, foldl_liveStep_progressEvents, hs.live]

theorem inv_onProcessStarted (s : Executor) (hs : Inv s) (hcnt : 0 < s.processCount) :
    Inv (onProcessStarted s) := by
  have hcur : s.m_currentTask ∈ startedTasks s.trace := by
    rcases hs.current with ⟨_, _, h3⟩ | h
    · omega
    · exact h
  refine inv_shrink s _ hs
    [Event.taskStarted s.m_currentTask.taskId s.m_currentTask.description]
    (by simp [startedTask?]) (by simp [submittedTask?]) ?_ (by simp) rfl
    (List.Sublist.refl _) (fun t ht => Or.inl ht) rfl rfl rfl hs.cache hs.running
    (fun h => h) ?_ hs.timer hs.wake
  · intro i d hm
    simp at hm
    exact ⟨s.m_currentTask, hcur, hm.1.symm⟩
  · simp [onProcessStarted, emit, liveStep, hs.live]

/-! ### Cancellation -/

theorem removeFirstWithId_none (taskId : Int) (q : List PrivilegedTask) :
    removeFirstWithId taskId q = none ↔ ∀ t ∈ q, t.taskId ≠ taskId := by
  induction q with
  | nil => simp [removeFirstWithId]
  | cons t rest ih =>
    by_cases h : t.taskId = taskId
    · simp [removeFirstWithId, h]
    · simp [removeFirstWithId, h, ih]

theorem removeFirstWithId_some (taskId : Int) (q q1 : List PrivilegedTask)
    (h : removeFirstWithId taskId q = some q1) :
    ∃ l1 t l2, q = l1 ++ t :: l2 ∧ q1 = l1 ++ l2 ∧ t.taskId = taskId
      ∧ ∀ x ∈ l1, x.taskId ≠ taskId := by
  induction q generalizing q1 with
  | nil => simp [removeFirstWithId] at h
  | cons t rest ih =>
    by_cases ht : t.taskId = taskId
    · simp [removeFirstWithId, ht] at h
      exact ⟨[], t, rest, by simp, by simp [h], ht, by simp⟩
    · simp [removeFirstWithId, ht] at h
      obtain ⟨q2, hq2, rfl⟩ := h
      obtain ⟨l1, u, l2, e1, e2, e3, e4⟩ := ih q2 hq2
      refine ⟨t :: l1, u, l2, by simp [e1], by simp [e2], e3, ?_⟩
      intro x hx
      rcases List.mem_cons.1 hx with rfl | hx
      · exact ht
      · exact e4 x hx

theorem cancelTask_eq (taskId : Int) (s : Executor) :
    cancelTask taskId s =
      if s.m_isRunning = true ∧ s.m_currentTask.taskId = taskId then
        { s with
          trace := s.trace ++ (match s.m_currentProcess with
            | some h => [Event.processKill h]
            | none => []) ++ [Event.taskCancelled taskId] }
      else
        match removeFirstWithId taskId s.m_taskQueue with
        | some q => { s with m_taskQueue := q, trace := s.trace ++ [Event.taskCancelled taskId] }
        | none => s := by
  obtain ⟨q, proc, cur, run, nxt, tm, cache, pend, cnt, tr⟩ := s
  unfold cancelTask
  by_cases h : run = true ∧ cur.taskId = taskId
  · cases proc <;> simp [emit, h]
  · have h2 : (run && decide (cur.taskId = taskId)) = false := by
      cases run <;> simp_all
    simp only [h2, h]
    simp only [Bool.false_eq_true, if_false]
    cases removeFirstWithId taskId q <;> simp [emit]

theorem inv_cancelTask (taskId : Int) (s : Executor) (hs : Inv s) :
    Inv (cancelTask taskId s) := by
  rw [cancelTask_eq]
  split
  · refine inv_quiet s _ hs _ ?_ (by simp [List.append_assoc]; rfl) rfl rfl rfl rfl hs.cache
      hs.running (fun h => h) ?_ hs.timer hs.wake
    · intro e he
      simp only [List.mem_append, List.mem_singleton] at he
      rcases he with he | he
      · split at he <;> simp at he
        subst he; rfl
      · subst he; rfl
    · simp only [List.append_assoc, inFlight_append, hs.live]
      cases s.m_currentProcess <;> simp [liveStep]
  · split
    · rename_i q hq
      obtain ⟨l1, t, l2, e1, e2, e3, _⟩ := removeFirstWithId_some taskId _ q hq
      refine inv_shrink s _ hs [Event.taskCancelled taskId] (by simp [startedTask?])
        (by simp [submittedTask?]) (by simp) (by simp) rfl ?_ ?_ rfl rfl rfl hs.cache
        hs.running (fun h => h) ?_ hs.timer ?_
      · simp only [e1, e2]
        exact (List.Sublist.refl l1).append (List.sublist_cons_self t l2)
      · intro x hx
        simp only [e1, List.mem_append, List.mem_cons] at hx
        simp only [e2, List.mem_append]
        rcases hx with hx | rfl | hx
        · exact Or.inl (Or.inl hx)
        · right; simp [e3]
        · exact Or.inl (Or.inr hx)
      · simp [liveStep, hs.live]
      · intro h1 h2
        refine hs.wake h1 ?_
        simp [e1]
    · exact hs

theorem cancelAllTasks_eq (s : Executor) :
    cancelAllTasks s = { s with m_taskQueue := [], trace := s.trace ++ cancelAllEvents s } := by
  obtain ⟨q, proc, cur, run, nxt, tm, cache, pend, cnt, tr⟩ := s
  cases run <;> cases proc <;> simp [cancelAllTasks, cancelAllEvents, emit]

theorem cancelAllEvents_quiet (s : Executor) : ∀ e ∈ cancelAllEvents s, quiet e = true := by
  intro e he
  simp only [cancelAllEvents, List.mem_append, List.mem_map] at he
  rcases he with he | ⟨t, _, rfl⟩
  · split at he <;> simp at he
    rcases he with rfl | rfl <;> rfl
  · rfl

theorem cancelEvents_quiet (taskId : Int) (s : Executor) :
    ∀ e ∈ cancelEvents taskId s, quiet e = true := by
  intro e he
  unfold cancelEvents at he
  split at he
  · simp only [List.mem_append, List.mem_singleton] at he
    rcases he with he | he
    · split at he <;> simp at he
      subst he; rfl
    · subst he; rfl
  · split at he <;> simp at he
    subst he; rfl

theorem cancelTask_trace (taskId : Int) (s : Executor) :
    (cancelTask taskId s).trace = s.trace ++ cancelEvents taskId s := by
  rw [cancelTask_eq]
  unfold cancelEvents
  split
  · simp
  · split <;> simp

theorem inv_cancelAllTasks (s : Executor) (hs : Inv s) : Inv (cancelAllTasks s) := by
  rw [cancelAllTasks_eq]
  have hl := cancelAllEvents_quiet s
  refine inv_shrink s _ hs _ (quiet_startedTasks _ hl) (quiet_submittedTasks _ hl)
    (fun i d hm => absurd hm (quiet_of_mem_taskStarted _ hl i d))
    (quiet_of_mem_processStart _ hl) rfl (List.nil_sublist _) ?_ rfl rfl rfl hs.cache
    hs.running (fun h => h) ?_ hs.timer (fun _ h => absurd rfl h)
  · intro t ht
    right
    simp only [cancelAllEvents, List.mem_append, List.mem_map]
    exact Or.inr (Or.inr ⟨t, ht, rfl⟩)
  · simp only [cancelAllEvents, inFlight_append, List.foldl_append, hs.live]
    have : ∀ (q : List PrivilegedTask) (live : List Nat),
        (q.map (fun t => Event.taskCancelled t.taskId)).foldl liveStep live = live := by
      intro q
      induction q with
      | nil => intro live; rfl
      | cons t q ih => intro live; simp [liveStep, ih]
    rw [this]
    split <;> simp [liveStep]

/-! ### Submission -/

theorem executeCommandAsync_eq (c : String) (as : List String) (d : String)
    (r : Option Nat) (ss es ps : Option String) (s : Executor) :
    executeCommandAsync c as d r ss es ps s =
      if s.m_nextTaskId = INT_MAX then none
      else some
        { s with
          m_taskQueue := s.m_taskQueue ++
            [{ command := c, args := as, description := d, taskId := s.m_nextTaskId,
               receiver := r, successSlot := ss, errorSlot := es, progressSlot := ps }]
          m_nextTaskId := s.m_nextTaskId + 1
          pendingCalls := if s.m_isRunning then s.pendingCalls else s.pendingCalls + 1
          trace := s.trace ++
            [Event.enqueueTask
              { command := c, args := as, description := d, taskId := s.m_nextTaskId,
                receiver := r, successSlot := ss, errorSlot := es, progressSlot := ps }] } := by
  obtain ⟨q, proc, cur, run, nxt, tm, cache, pend, cnt, tr⟩ := s
  unfold executeCommandAsync
  split
  · rfl
  · cases run <;> simp [enqueueTask, emit]

theorem inv_executeCommandAsync (c : String) (as : List String) (d : String)
    (r : Option Nat) (ss es ps : Option String) (s s1 : Executor) (hs : Inv s)
    (h : executeCommandAsync c as d r ss es ps s = some s1) : Inv s1 := by
  rw [executeCommandAsync_eq] at h
  split at h
  · exact absurd h (by simp)
  · simp only [Option.some.injEq] at h
    subst h
    refine
      { running := hs.running, cache := hs.cache, live := ?_, timer := hs.timer, wake := ?_,
        current := ?_, fifo := ?_, next := ?_, ids := ?_, sorted := ?_, fresh := ?_,
        accounted := ?_, startedEv := ?_, launched := ?_ }
    · simp [liveStep, hs.live]
    · intro h1 _
      simp only at h1
      simp [h1]
    · simpa [startedTask?] using hs.current
    · simp only [startedTasks_append, startedTasks_cons, startedTasks_nil, startedTask?,
        submittedTasks_append, submittedTasks_cons, submittedTasks_nil, submittedTask?,
        Option.toList, List.append_nil, ← List.append_assoc]
      exact hs.fifo.append (List.Sublist.refl _)
    · simp [submittedTask?, hs.next]
    · simp [submittedTask?, List.range_succ, hs.ids, hs.next]
    · simp only [submittedTasks_append, submittedTasks_cons, submittedTasks_nil,
        submittedTask?, Option.toList, List.append_nil]
      rw [List.pairwise_append]
      refine ⟨hs.sorted, List.pairwise_singleton _ _, ?_⟩
      intro a ha b hb
      simp only [List.mem_singleton] at hb
      subst hb
      exact hs.fresh a ha
    · intro t ht
      simp only [submittedTasks_append, submittedTasks_cons, submittedTasks_nil,
        submittedTask?, Option.toList, List.append_nil, List.mem_append,
        List.mem_singleton] at ht
      rcases ht with ht | rfl
      · have := hs.fresh t ht
        simp only
        omega
      · simp
    · intro t ht
      simp only [submittedTasks_append, submittedTasks_cons, submittedTasks_nil,
        submittedTask?, Option.toList, List.append_nil, List.mem_append,
        List.mem_singleton] at ht
      rcases ht with ht | rfl
      · rcases hs.accounted t ht with h | h | h
        · left; simpa [startedTask?] using h
        · right; left; simp [h]
        · right; right; simp [h]
      · right; left; simp
    · intro i dd hm
      simp only [List.mem_append, List.mem_singleton] at hm
      rcases hm with hm | hm
      · simpa [startedTask?] using hs.startedEv i dd hm
      · exact absurd hm (by simp)
    · intro k pp a hm
      simp only [List.mem_append, List.mem_singleton] at hm
      rcases hm with hm | hm
      · simpa [startedTask?] using hs.launched k pp a hm
      · exact absurd hm (by simp)

/-! ### Dequeue and start -/

theorem resolved_cases (env : Host) (cache m : String)
    (hv : cache = "" ∨ cache = "pkexec" ∨ cache = "sudo")
    (hm : resolved env cache = m) (hne : m ≠ "") (task : PrivilegedTask) :
    (m = "pkexec" ∧ fullArgs m task = [task.command] ++ task.args)
      ∨ (m = "sudo" ∧ fullArgs m task = ["-n", task.command] ++ task.args) := by
  rcases resolved_valid env cache hv with h | h | h
  · exact absurd (hm ▸ h) hne
  · have : m = "pkexec" := hm ▸ h
    subst this
    exact Or.inl ⟨rfl, by simp [fullArgs]⟩
  · have : m = "sudo" := hm ▸ h
    subst this
    exact Or.inr ⟨rfl, by simp [fullArgs]⟩

/-- The part of `processNextTask` that runs when the engine is idle and the queue has a
head: `startTask` on the head preserves the invariant.  The pending-call counter and the
timer flag of the state before the call are arbitrary (the caller has just changed them). -/
theorem inv_startTask_head (env : Host) (s : Executor) (hs : Inv s) (p : Nat)
    (t : PrivilegedTask) (rest : List PrivilegedTask)
    (hidle : s.m_isRunning = false) (hq : s.m_taskQueue = t :: rest) (tm : Bool) :
    Inv (startTask env t
      { s with m_taskQueue := rest, pendingCalls := p, timerActive := tm }) := by
  have hproc : s.m_currentProcess = none := by
    have := hs.running
    rw [hidle] at this
    cases hp : s.m_currentProcess
    · rfl
    · rw [hp] at this; simp at this
  have hlive : inFlight s.trace = [] := by rw [hs.live, hproc]; rfl
  have hfifo : (startedTasks s.trace ++ [t] ++ rest).Sublist (submittedTasks s.trace) := by
    have := hs.fifo
    rw [hq] at this
    simpa using this
  have hacc : ∀ x ∈ submittedTasks s.trace,
      x ∈ startedTasks s.trace ++ [t] ∨ x ∈ rest ∨ Event.taskCancelled x.taskId ∈ s.trace := by
    intro x hx
    rcases hs.accounted x hx with h | h | h
    · exact Or.inl (List.mem_append_left _ h)
    · rw [hq] at h
      rcases List.mem_cons.1 h with rfl | h
      · exact Or.inl (by simp)
      · exact Or.inr (Or.inl h)
    · exact Or.inr (Or.inr h)
  have hpq := probeEvents_quiet env s.s_privilegeMethod
  have e1 : startedTasks (probeEvents env s.s_privilegeMethod) = [] :=
    quiet_startedTasks _ hpq
  have e2 : submittedTasks (probeEvents env s.s_privilegeMethod) = [] :=
    quiet_submittedTasks _ hpq
  by_cases hm : resolved env s.s_privilegeMethod = ""
  · rw [startTask_eq_error env t
      { s with m_taskQueue := rest, pendingCalls := p, timerActive := tm } hm]
    have heq := errorEvents_quiet t none "No privilege escalation method available"
    have e3 := quiet_startedTasks _ heq
    have e4 := quiet_submittedTasks _ heq
    have hcache : s.s_privilegeMethod = "" := by
      by_contra hne
      simp [resolved, hne] at hm
    refine
      { running := by simp, cache := hs.cache, live := ?_, timer := by simp,
        wake := by intro _ _; simp, current := ?_, fifo := ?_, next := ?_, ids := ?_,
        sorted := ?_, fresh := ?_, accounted := ?_, startedEv := ?_, launched := ?_ }
    · simp only [hproc, inFlight_append, List.foldl_append, foldl_liveStep_errorEvents,
        foldl_liveStep_probeEvents, hlive]
      simp [liveStep]
    · right
      simp [e1, e3, startedTask?]
    · simpa [e1, e2, e3, e4, startedTask?, submittedTask?, hproc] using hfifo
    · simpa [e2, e4, submittedTask?, hproc] using hs.next
    · simpa [e2, e4, submittedTask?, hproc] using hs.ids
    · simpa [e2, e4, submittedTask?, hproc] using hs.sorted
    · simpa [e2, e4, submittedTask?, hproc] using hs.fresh
    · intro x hx
      simp only [submittedTasks_append, e2, e4, hproc, submittedTasks_cons,
        submittedTasks_nil, submittedTask?, Option.toList, List.append_nil] at hx
      simp only [startedTasks_append, e1, e3, hproc, startedTasks_cons, startedTasks_nil,
        startedTask?, Option.toList, List.append_nil, List.mem_append]
      rcases hacc x hx with h | h | h
      · exact Or.inl (by simpa using h)
      · exact Or.inr (Or.inl h)
      · exact Or.inr (Or.inr (Or.inl (Or.inl (Or.inl h))))
    · intro i d hmem
      simp only [List.mem_append, List.mem_singleton, hproc] at hmem
      simp only [startedTasks_append, e1, e3, hproc, startedTasks_cons, startedTasks_nil,
        startedTask?, Option.toList, List.append_nil]
      rcases hmem with ((hmem | hmem) | hmem) | hmem
      · obtain ⟨x, hx, hxi⟩ := hs.startedEv i d hmem
        exact ⟨x, List.mem_append_left _ hx, hxi⟩
      · exact absurd hmem (by simp)
      · exact absurd hmem (quiet_of_mem_taskStarted _ hpq i d)
      · exact absurd hmem (quiet_of_mem_taskStarted _ heq i d)
    · intro k pp a hmem
      simp only [List.mem_append, List.mem_singleton, hproc] at hmem
      simp only [startedTasks_append, e1, e3, hproc, startedTasks_cons, startedTasks_nil,
        startedTask?, Option.toList, List.append_nil]
      rcases hmem with ((hmem | hmem) | hmem) | hmem
      · obtain ⟨x, hx, hxi⟩ := hs.launched k pp a hmem
        exact ⟨x, List.mem_append_left _ hx, hxi⟩
      · exact absurd hmem (by simp)
      · exact absurd hmem (quiet_of_mem_processStart _ hpq k pp a)
      · exact absurd hmem (quiet_of_mem_processStart _ heq k pp a)
  · rw [startTask_eq_launch env t
      { s with m_taskQueue := rest, pendingCalls := p, timerActive := tm } hm]
    refine
      { running := by simp, cache := resolved_valid env _ hs.cache, live := ?_,
        timer := by simp, wake := by intro h; simp at h, current := ?_, fifo := ?_,
        next := ?_, ids := ?_, sorted := ?_, fresh := ?_, accounted := ?_,
        startedEv := ?_, launched := ?_ }
    · simp only [inFlight_snoc, inFlight_append, List.foldl_append,
        foldl_liveStep_probeEvents, hlive]
      simp [liveStep]
    · right
      simp [e1, startedTask?]
    · simpa [e1, e2, startedTask?, submittedTask?] using hfifo
    · simpa [e2, submittedTask?] using hs.next
    · simpa [e2, submittedTask?] using hs.ids
    · simpa [e2, submittedTask?] using hs.sorted
    · simpa [e2, submittedTask?] using hs.fresh
    · intro x hx
      simp only [submittedTasks_append, e2, submittedTasks_cons,
        submittedTasks_nil, submittedTask?, Option.toList, List.append_nil] at hx
      simp only [startedTasks_append, e1, startedTasks_cons, startedTasks_nil,
        startedTask?, Option.toList, List.append_nil, List.mem_append]
      rcases hacc x hx with h | h | h
      · exact Or.inl (by simpa using h)
      · exact Or.inr (Or.inl h)
      · exact Or.inr (Or.inr (Or.inl (Or.inl (Or.inl h))))
    · intro i d hmem
      simp only [List.mem_append, List.mem_singleton] at hmem
      simp only [startedTasks_append, e1, startedTasks_cons, startedTasks_nil,
        startedTask?, Option.toList, List.append_nil]
      rcases hmem with ((hmem | hmem) | hmem) | hmem
      · obtain ⟨x, hx, hxi⟩ := hs.startedEv i d hmem
        exact ⟨x, List.mem_append_left _ hx, hxi⟩
      · exact absurd hmem (by simp)
      · exact absurd hmem (quiet_of_mem_taskStarted _ hpq i d)
      · exact absurd hmem (by simp)
    · intro k pp a hmem
      simp only [List.mem_append, List.mem_singleton] at hmem
      simp only [startedTasks_append, e1, startedTasks_cons, startedTasks_nil,
        startedTask?, Option.toList, List.append_nil]
      rcases hmem with ((hmem | hmem) | hmem) | hmem
      · obtain ⟨x, hx, hxi⟩ := hs.launched k pp a hmem
        exact ⟨x, List.mem_append_left _ hx, hxi⟩
      · exact absurd hmem (by simp)
      · exact absurd hmem (quiet_of_mem_processStart _ hpq k pp a)
      · simp only [Event.processStart.injEq] at hmem
        obtain ⟨_, rfl, rfl⟩ := hmem
        exact ⟨t, by simp, resolved_cases env _ _ hs.cache rfl hm t⟩

theorem processNextTask_cases (env : Host) (s : Executor) :
    (processNextTask env s = s ∧ (s.m_isRunning = true ∨ s.m_taskQueue = []))
      ∨ ∃ t rest, s.m_isRunning = false ∧ s.m_taskQueue = t :: rest
          ∧ processNextTask env s = startTask env t { s with m_taskQueue := rest } := by
  unfold processNextTask
  cases hr : s.m_isRunning
  · cases hq : s.m_taskQueue with
    | nil => left; simp
    | cons t rest => right; exact ⟨t, rest, rfl, rfl, by simp⟩
  · left; simp

theorem inv_processNextTask (env : Host) (s : Executor) (hs : Inv s) (p : Nat) (tm : Bool)
    (htm : tm = true → s.timerActive = true) :
    Inv (processNextTask env { s with pendingCalls := p, timerActive := tm }) := by
  rcases processNextTask_cases env { s with pendingCalls := p, timerActive := tm } with
    ⟨heq, hcase⟩ | ⟨t, rest, hidle, hq, heq⟩
  · rw [heq]
    refine inv_quiet s _ hs [] (by simp) (by simp) rfl rfl rfl rfl hs.cache hs.running
      (fun h => h) hs.live (fun h => hs.timer (htm h)) ?_
    intro h1 h2
    rcases hcase with h | h
    · simp only at h h1
      rw [h] at h1
      exact absurd h1 (by simp)
    · exact absurd h h2
  · rw [heq]
    exact inv_startTask_head env s hs p t rest hidle hq tm

theorem inv_step (s s1 : Executor) (a : Action) (hs : Inv s) (hen : enabled s a = true)
    (h : step s a = some s1) : Inv s1 := by
  cases a with
  | executeCommandAsync c as d r ss es ps =>
    exact inv_executeCommandAsync c as d r ss es ps s s1 hs h
  | cancelTask taskId =>
    simp only [step, Option.some.injEq] at h
    subst h
    exact inv_cancelTask taskId s hs
  | cancelAllTasks =>
    simp only [step, Option.some.injEq] at h
    subst h
    exact inv_cancelAllTasks s hs
  | getPrivilegeMethod env =>
    simp only [step, Option.some.injEq] at h
    subst h
    exact inv_getPrivilegeMethod env s hs
  | processNextTask env =>
    simp only [step, Option.some.injEq] at h
    subst h
    exact inv_processNextTask env s hs _ s.timerActive (fun h => h)
  | timerTimeout env =>
    simp only [step, Option.some.injEq] at h
    subst h
    exact inv_processNextTask env s hs s.pendingCalls false (fun h => absurd h (by simp))
  | processStarted =>
    simp only [step, Option.some.injEq] at h
    subst h
    exact inv_onProcessStarted s hs (by simpa [enabled] using hen)
  | processReadyRead output =>
    simp only [step, Option.some.injEq] at h
    subst h
    exact inv_onProcessReadyRead output s hs
  | processFinished exitCode output =>
    simp only [step, onProcessFinished] at h
    split at h
    · exact absurd h (by simp)
    · simp only [Option.some.injEq] at h
      subst h
      exact inv_finishCurrentTask exitCode output s hs
  | processError errorString =>
    simp only [step, onProcessError] at h
    split at h
    · exact absurd h (by simp)
    · simp only [Option.some.injEq] at h
      subst h
      exact inv_errorCurrentTask errorString s hs

/-! ## Executions -/

theorem run_cons_some (s s2 : Executor) (a : Action) (rest : List Action)
    (h : run s (a :: rest) = some s2) :
    enabled s a = true ∧ ∃ s1, step s a = some s1 ∧ run s1 rest = some s2 := by
  unfold run at h
  split at h
  · rename_i hen
    split at h
    · rename_i s1 hs1
      exact ⟨hen, s1, hs1, h⟩
    · exact absurd h (by simp)
  · exact absurd h (by simp)

/-- Induction along an execution, with the list of steps taken so far as a parameter
of the property. -/
theorem run_induction (P : List Action → Executor → Prop)
    (hstep : ∀ done s a s1, P done s → enabled s a = true → step s a = some s1 →
      P (done ++ [a]) s1) :
    ∀ (acts done : List Action) (s0 s : Executor), P done s0 → run s0 acts = some s →
      P (done ++ acts) s := by
  intro acts
  induction acts with
  | nil =>
    intro done s0 s h0 h
    simp only [run, Option.some.injEq] at h
    subst h
    simpa using h0
  | cons a rest ih =>
    intro done s0 s h0 h
    obtain ⟨hen, s1, hs1, hrun⟩ := run_cons_some s0 s a rest h
    have := ih (done ++ [a]) s1 s (hstep done s0 a s1 h0 hen hs1) hrun
    simpa using this

theorem inv_run_from (s0 s : Executor) (acts : List Action) (h0 : Inv s0)
    (h : run s0 acts = some s) : Inv s := by
  have := run_induction (fun _ s => Inv s)
    (fun _ s a s1 hs hen hst => inv_step s s1 a hs hen hst) acts [] s0 s h0 h
  exact this

theorem inv_run (junk : PrivilegedTask) (acts : List Action) (s : Executor)
    (h : run (Executor.init junk) acts = some s) : Inv s :=
  inv_run_from _ s acts (inv_init junk) h

/-! ## Events of one step -/

theorem newEvents_append (s s1 : Executor) (l : List Event) (h : s1.trace = s.trace ++ l) :
    newEvents s s1 = l := by
  simp [newEvents, h]

theorem newEvents_self (s s1 : Executor) (h : s1.trace = s.trace) : newEvents s s1 = [] := by
  simp [newEvents, h]

theorem isLaunch_of_quiet (e : Event) (h : quiet e = true) : isLaunch e = false := by
  cases e <;> simp_all [quiet, isLaunch]

/-- A step that emits a launch event is a delivery of `processNextTask` (queued call or
timer expiry) in an idle state with a non-empty queue, and it is `startTask` on the head
of the queue. -/
theorem launch_step (s s1 : Executor) (a : Action) (h : step s a = some s1) (e : Event)
    (he : e ∈ newEvents s s1) (hl : isLaunch e = true) :
    s.m_isRunning = false ∧ ∃ env t rest s0, s.m_taskQueue = t :: rest
      ∧ s0.trace = s.trace ∧ s0.s_privilegeMethod = s.s_privilegeMethod
      ∧ s0.processCount = s.processCount ∧ s1 = startTask env t s0 := by
  have hq : ∀ l : List Event, (∀ x ∈ l, quiet x = true) → s1.trace = s.trace ++ l → False := by
    intro l hl1 htr
    rw [newEvents_append s s1 l htr] at he
    have := isLaunch_of_quiet e (hl1 e he)
    rw [hl] at this
    exact absurd this (by simp)
  have hpnt : ∀ (env : Host) (s0 : Executor), s0.trace = s.trace →
      s0.m_isRunning = s.m_isRunning → s0.m_taskQueue = s.m_taskQueue →
      s0.s_privilegeMethod = s.s_privilegeMethod → s0.processCount = s.processCount →
      s1 = processNextTask env s0 →
      s.m_isRunning = false ∧ ∃ env t rest s0, s.m_taskQueue = t :: rest
        ∧ s0.trace = s.trace ∧ s0.s_privilegeMethod = s.s_privilegeMethod
        ∧ s0.processCount = s.processCount ∧ s1 = startTask env t s0 := by
    intro env s0 h1 h2 h3 h5 h6 h4
    rcases processNextTask_cases env s0 with ⟨heq, _⟩ | ⟨t, rest, hidle, hq0, heq⟩
    · exact (hq [] (by simp) (by rw [h4, heq, h1]; simp)).elim
    · exact ⟨h2 ▸ hidle, env, t, rest, { s0 with m_taskQueue := rest }, h3 ▸ hq0, h1, h5, h6,
        by rw [h4, heq]⟩
  cases a with
  | executeCommandAsync c as d r ss es ps =>
    simp only [step, executeCommandAsync_eq] at h
    split at h
    · exact absurd h (by simp)
    · simp only [Option.some.injEq] at h
      subst h
      rw [newEvents_append s _ _ rfl] at he
      simp only [List.mem_singleton] at he
      subst he
      simp [isLaunch] at hl
  | cancelTask taskId =>
    simp only [step, Option.some.injEq] at h
    subst h
    exact (hq _ (cancelEvents_quiet taskId s) (cancelTask_trace taskId s)).elim
  | cancelAllTasks =>
    simp only [step, Option.some.injEq] at h
    subst h
    exact (hq _ (cancelAllEvents_quiet s) (by rw [cancelAllTasks_eq])).elim
  | getPrivilegeMethod env =>
    simp only [step, Option.some.injEq] at h
    subst h
    exact (hq _ (probeEvents_quiet env s.s_privilegeMethod)
      (by rw [getPrivilegeMethod_eq])).elim
  | processNextTask env =>
    simp only [step, Option.some.injEq] at h
    exact hpnt env { s with pendingCalls := s.pendingCalls - 1 } rfl rfl rfl rfl rfl h.symm
  | timerTimeout env =>
    simp only [step, Option.some.injEq] at h
    exact hpnt env { s with timerActive := false } rfl rfl rfl rfl rfl h.symm
  | processStarted =>
    simp only [step, Option.some.injEq] at h
    subst h
    rw [newEvents_append s _ _ rfl] at he
    simp only [List.mem_singleton] at he
    subst he
    simp [isLaunch] at hl
  | processReadyRead output =>
    simp only [step, Option.some.injEq, onProcessReadyRead_eq] at h
    cases hp : s.m_currentProcess with
    | none =>
      simp only [hp] at h
      exact (hq [] (by simp) (by rw [← h]; simp)).elim
    | some k =>
      simp only [hp] at h
      exact (hq _ (progressEvents_quiet s.m_currentTask output) (by rw [← h])).elim
  | processFinished exitCode output =>
    simp only [step, onProcessFinished] at h
    split at h
    · exact absurd h (by simp)
    · simp only [Option.some.injEq] at h
      subst h
      exact (hq _ (finishEvents_quiet _ _ exitCode output)
        (by rw [finishCurrentTask_eq])).elim
  | processError errorString =>
    simp only [step, onProcessError] at h
    split at h
    · exact absurd h (by simp)
    · simp only [Option.some.injEq] at h
      subst h
      exact (hq _ (errorEvents_quiet _ _ errorString) (by rw [errorCurrentTask_eq])).elim

/-! ## Order of ids -/

theorem pairwise_started_queue (s : Executor) (hs : Inv s) :
    (startedTasks s.trace ++ s.m_taskQueue).Pairwise (fun a b => a.taskId < b.taskId) :=
  hs.sorted.sublist hs.fifo

theorem started_lt_queue (s : Executor) (hs : Inv s) (a b : PrivilegedTask)
    (ha : a ∈ startedTasks s.trace) (hb : b ∈ s.m_taskQueue) : a.taskId < b.taskId :=
  (List.pairwise_append.1 (pairwise_started_queue s hs)).2.2 a ha b hb

theorem queue_sorted (s : Executor) (hs : Inv s) :
    s.m_taskQueue.Pairwise (fun a b => a.taskId < b.taskId) :=
  (List.pairwise_append.1 (pairwise_started_queue s hs)).2.1

theorem started_sorted (s : Executor) (hs : Inv s) :
    (startedTasks s.trace).Pairwise (fun a b => a.taskId < b.taskId) :=
  (List.pairwise_append.1 (pairwise_started_queue s hs)).1

theorem queue_mem_submitted (s : Executor) (hs : Inv s) (t : PrivilegedTask)
    (ht : t ∈ s.m_taskQueue) : t ∈ submittedTasks s.trace :=
  hs.fifo.subset (List.mem_append_right _ ht)

theorem started_mem_submitted (s : Executor) (hs : Inv s) (t : PrivilegedTask)
    (ht : t ∈ startedTasks s.trace) : t ∈ submittedTasks s.trace :=
  hs.fifo.subset (List.mem_append_left _ ht)

/-- In a list sorted by id, two members occur in the order of their ids. -/
theorem pair_sublist_of_sorted (l : List PrivilegedTask)
    (hl : l.Pairwise (fun a b => a.taskId < b.taskId)) (A B : PrivilegedTask)
    (hA : A ∈ l) (hB : B ∈ l) (hAB : A.taskId < B.taskId) : [A, B].Sublist l := by
  induction l with
  | nil => simp at hA
  | cons x xs ih =>
    rw [List.pairwise_cons] at hl
    rcases List.mem_cons.1 hA with rfl | hA1
    · rcases List.mem_cons.1 hB with rfl | hB1
      · omega
      · exact List.Sublist.cons₂ _ (List.singleton_sublist.2 hB1)
    · rcases List.mem_cons.1 hB with rfl | hB1
      · have := hl.1 A hA1
        omega
      · exact List.Sublist.cons _ (ih hl.2 hA1 hB1)

theorem running_current_started (s : Executor) (hs : Inv s) (h : s.m_isRunning = true) :
    s.m_currentTask ∈ startedTasks s.trace := by
  rcases hs.current with ⟨_, h2, _⟩ | h2
  · rw [h] at h2
    exact absurd h2 (by simp)
  · exact h2

theorem startTask_queue_started (env : Host) (t : PrivilegedTask) (s : Executor) :
    (startTask env t s).m_taskQueue = s.m_taskQueue
      ∧ (startTask env t s).m_currentTask = t
      ∧ startedTasks (startTask env t s).trace = startedTasks s.trace ++ [t] := by
  have e1 := quiet_startedTasks _ (probeEvents_quiet env s.s_privilegeMethod)
  by_cases hm : resolved env s.s_privilegeMethod = ""
  · rw [startTask_eq_error env t s hm]
    have e3 := quiet_startedTasks _
      (errorEvents_quiet t s.m_currentProcess "No privilege escalation method available")
    simp [e1, e3, startedTask?]
  · rw [startTask_eq_launch env t s hm]
    simp [e1, startedTask?]

theorem cancelTask_queue (taskId : Int) (s : Executor) (hs : Inv s) :
    (cancelTask taskId s).m_taskQueue
      = s.m_taskQueue.filter (fun t => decide (t.taskId ≠ taskId)) := by
  rw [cancelTask_eq]
  split
  · rename_i h
    have hcur := running_current_started s hs h.1
    symm
    rw [List.filter_eq_self]
    intro t ht
    have := started_lt_queue s hs _ t hcur ht
    simp only [decide_eq_true_eq]
    omega
  · split
    · rename_i q hq
      obtain ⟨l1, t, l2, e1, e2, e3, e4⟩ := removeFirstWithId_some taskId _ q hq
      have hsorted := queue_sorted s hs
      rw [e1, List.pairwise_append] at hsorted
      have h2 := (List.pairwise_cons.1 hsorted.2.1).1
      simp only [e1, e2, List.filter_append, List.filter_cons, e3, ne_eq, not_true_eq_false,
        decide_False, Bool.false_eq_true, if_false]
      congr 1
      · symm
        rw [List.filter_eq_self]
        intro x hx
        simpa using e4 x hx
      · symm
        rw [List.filter_eq_self]
        intro x hx
        have := h2 x hx
        simp only [decide_eq_true_eq]
        omega
    · rename_i hnone
      have := (removeFirstWithId_none taskId s.m_taskQueue).1 hnone
      symm
      rw [List.filter_eq_self]
      intro x hx
      simpa using this x hx

/-! ## Where started and queued tasks come from -/

theorem startedTasks_quiet_append (tr l : List Event) (hl : ∀ e ∈ l, quiet e = true) :
    startedTasks (tr ++ l) = startedTasks tr := by
  rw [startedTasks_append, quiet_startedTasks l hl, List.append_nil]

/-- After one step, every task that is started or queued was already started or queued
before the step, or carries the id that the counter had before the step; the counter
never decreases. -/
theorem step_pool (s s1 : Executor) (a : Action) (h : step s a = some s1) :
    s.m_nextTaskId ≤ s1.m_nextTaskId
      ∧ ∀ t ∈ startedTasks s1.trace ++ s1.m_taskQueue,
          t ∈ startedTasks s.trace ++ s.m_taskQueue ∨ t.taskId = s.m_nextTaskId := by
  have hpnt : ∀ (env : Host) (s0 : Executor), s0.trace = s.trace →
      s0.m_nextTaskId = s.m_nextTaskId → s0.m_taskQueue = s.m_taskQueue →
      s1 = processNextTask env s0 →
      s.m_nextTaskId ≤ s1.m_nextTaskId
        ∧ ∀ t ∈ startedTasks s1.trace ++ s1.m_taskQueue,
            t ∈ startedTasks s.trace ++ s.m_taskQueue ∨ t.taskId = s.m_nextTaskId := by
    intro env s0 h1 h2 h3 h4
    rcases processNextTask_cases env s0 with ⟨heq, _⟩ | ⟨t, rest, _, hq0, heq⟩
    · rw [h4, heq, h1, h2, h3]
      exact ⟨le_refl _, fun t ht => Or.inl ht⟩
    · have hst := startTask_queue_started env t { s0 with m_taskQueue := rest }
      have hn : (startTask env t { s0 with m_taskQueue := rest }).m_nextTaskId
          = s0.m_nextTaskId := by
        by_cases hm : resolved env s0.s_privilegeMethod = ""
        · rw [startTask_eq_error env t { s0 with m_taskQueue := rest } hm]
        · rw [startTask_eq_launch env t { s0 with m_taskQueue := rest } hm]
      obtain ⟨hq1, _, hs1⟩ := hst
      simp only at hq1 hs1
      subst h4
      rw [heq]
      refine ⟨by rw [hn, h2], ?_⟩
      intro x hx
      left
      rw [hq1, hs1, h1] at hx
      simp only [List.mem_append, List.mem_singleton] at hx
      rw [← h3, hq0]
      simp only [List.mem_append, List.mem_cons]
      rcases hx with (hx | hx) | hx
      · exact Or.inl hx
      · exact Or.inr (Or.inl hx)
      · exact Or.inr (Or.inr hx)
  cases a with
  | executeCommandAsync c as d r ss es ps =>
    simp only [step, executeCommandAsync_eq] at h
    split at h
    · exact absurd h (by simp)
    · simp only [Option.some.injEq] at h
      subst h
      refine ⟨by simp, ?_⟩
      intro t ht
      simp only [startedTasks_append, startedTasks_cons, startedTasks_nil, startedTask?,
        Option.toList, List.append_nil, List.mem_append, List.mem_singleton] at ht
      rcases ht with ht | ht | ht
      · exact Or.inl (List.mem_append_left _ ht)
      · exact Or.inl (List.mem_append_right _ ht)
      · right; rw [ht]
  | cancelTask taskId =>
    simp only [step, Option.some.injEq] at h
    subst h
    have htr := cancelTask_trace taskId s
    have hst := startedTasks_quiet_append s.trace _ (cancelEvents_quiet taskId s)
    rw [htr, hst]
    rw [cancelTask_eq]
    split
    · exact ⟨le_refl _, fun t ht => Or.inl ht⟩
    · split
      · rename_i q hq
        obtain ⟨l1, u, l2, e1, e2, _, _⟩ := removeFirstWithId_some taskId _ q hq
        refine ⟨le_refl _, ?_⟩
        intro t ht
        left
        simp only [e1, e2, List.mem_append, List.mem_cons] at ht ⊢
        rcases ht with ht | ht | ht
        · exact Or.inl ht
        · exact Or.inr (Or.inl ht)
        · exact Or.inr (Or.inr (Or.inr ht))
      · exact ⟨le_refl _, fun t ht => Or.inl ht⟩
  | cancelAllTasks =>
    simp only [step, Option.some.injEq] at h
    subst h
    rw [cancelAllTasks_eq]
    simp only [startedTasks_quiet_append s.trace _ (cancelAllEvents_quiet s)]
    refine ⟨le_refl _, ?_⟩
    intro t ht
    simp only [List.append_nil] at ht
    exact Or.inl (List.mem_append_left _ ht)
  | getPrivilegeMethod env =>
    simp only [step, Option.some.injEq] at h
    subst h
    rw [getPrivilegeMethod_eq]
    simp only [startedTasks_quiet_append s.trace _ (probeEvents_quiet env s.s_privilegeMethod)]
    exact ⟨le_refl _, fun t ht => Or.inl ht⟩
  | processNextTask env =>
    simp only [step, Option.some.injEq] at h
    exact hpnt env { s with pendingCalls := s.pendingCalls - 1 } rfl rfl rfl h.symm
  | timerTimeout env =>
    simp only [step, Option.some.injEq] at h
    exact hpnt env { s with timerActive := false } rfl rfl rfl h.symm
  | processStarted =>
    simp only [step, Option.some.injEq] at h
    subst h
    simp only [onProcessStarted, emit, startedTasks_append, startedTasks_cons,
      startedTasks_nil, startedTask?, Option.toList, List.append_nil]
    exact ⟨le_refl _, fun t ht => Or.inl ht⟩
  | processReadyRead output =>
    simp only [step, Option.some.injEq, onProcessReadyRead_eq] at h
    subst h
    split
    · exact ⟨le_refl _, fun t ht => Or.inl ht⟩
    · simp only [startedTasks_quiet_append s.trace _
        (progressEvents_quiet s.m_currentTask output)]
      exact ⟨le_refl _, fun t ht => Or.inl ht⟩
  | processFinished exitCode output =>
    simp only [step, onProcessFinished] at h
    split at h
    · exact absurd h (by simp)
    · simp only [Option.some.injEq] at h
      subst h
      rw [finishCurrentTask_eq]
      simp only [startedTasks_quiet_append s.trace _ (finishEvents_quiet _ _ exitCode output)]
      exact ⟨le_refl _, fun t ht => Or.inl ht⟩
  | processError errorString =>
    simp only [step, onProcessError] at h
    split at h
    · exact absurd h (by simp)
    · simp only [Option.some.injEq] at h
      subst h
      rw [errorCurrentTask_eq]
      simp only [startedTasks_quiet_append s.trace _ (errorEvents_quiet _ _ errorString)]
      exact ⟨le_refl _, fun t ht => Or.inl ht⟩

/-- An id below the counter that no started or queued task carries is never carried by a
started or queued task again. -/
theorem gone_run (taskId : Int) (s0 s : Executor) (acts : List Action) (h0 : Inv s0)
    (hlt : taskId < s0.m_nextTaskId)
    (hgone : ∀ x ∈ startedTasks s0.trace ++ s0.m_taskQueue, x.taskId ≠ taskId)
    (h : run s0 acts = some s) :
    Inv s ∧ taskId < s.m_nextTaskId
      ∧ ∀ x ∈ startedTasks s.trace ++ s.m_taskQueue, x.taskId ≠ taskId := by
  have := run_induction
    (fun _ s => Inv s ∧ taskId < s.m_nextTaskId
      ∧ ∀ x ∈ startedTasks s.trace ++ s.m_taskQueue, x.taskId ≠ taskId)
    (fun _ s a s1 hP hen hst => by
      obtain ⟨hinv, hl, hg⟩ := hP
      obtain ⟨hle, hpool⟩ := step_pool s s1 a hst
      refine ⟨inv_step s s1 a hinv hen hst, lt_of_lt_of_le hl hle, ?_⟩
      intro x hx
      rcases hpool x hx with hx1 | hx1
      · exact hg x hx1
      · omega)
    acts [] s0 s ⟨h0, hlt, hgone⟩ h
  exact this

/-! ## The resolver cache and the submission log along a step -/

theorem resolved_of_ne (env : Host) (cache : String) (h : cache ≠ "") :
    resolved env cache = cache := by
  simp [resolved, h]

theorem probeEvents_of_ne (env : Host) (cache : String) (h : cache ≠ "") :
    probeEvents env cache = [] := by
  simp [probeEvents, h]

theorem startTask_cache (env : Host) (t : PrivilegedTask) (s : Executor) :
    (startTask env t s).s_privilegeMethod = resolved env s.s_privilegeMethod := by
  by_cases hm : resolved env s.s_privilegeMethod = ""
  · rw [startTask_eq_error env t s hm]
    have hc : s.s_privilegeMethod = "" := by
      by_contra hne
      simp [resolved, hne] at hm
    simp only
    rw [hm, hc]
  · rw [startTask_eq_launch env t s hm]

theorem startTask_submitted (env : Host) (t : PrivilegedTask) (s : Executor) :
    submittedTasks (startTask env t s).trace = submittedTasks s.trace := by
  have e1 := quiet_submittedTasks _ (probeEvents_quiet env s.s_privilegeMethod)
  by_cases hm : resolved env s.s_privilegeMethod = ""
  · rw [startTask_eq_error env t s hm]
    have e3 := quiet_submittedTasks _
      (errorEvents_quiet t s.m_currentProcess "No privilege escalation method available")
    simp [e1, e3, submittedTask?]
  · rw [startTask_eq_launch env t s hm]
    simp [e1, submittedTask?]

/-- Once the cache holds a method, no step changes it. -/
theorem step_cache (s s1 : Executor) (a : Action) (h : step s a = some s1)
    (hc : s.s_privilegeMethod ≠ "") : s1.s_privilegeMethod = s.s_privilegeMethod := by
  have hpnt : ∀ (env : Host) (s0 : Executor), s0.s_privilegeMethod = s.s_privilegeMethod →
      s1 = processNextTask env s0 → s1.s_privilegeMethod = s.s_privilegeMethod := by
    intro env s0 h1 h4
    rcases processNextTask_cases env s0 with ⟨heq, _⟩ | ⟨t, rest, _, _, heq⟩
    · rw [h4, heq, h1]
    · rw [h4, heq, startTask_cache]
      simp only
      rw [h1, resolved_of_ne env _ hc]
  cases a with
  | executeCommandAsync c as d r ss es ps =>
    simp only [step, executeCommandAsync_eq] at h
    split at h
    · exact absurd h (by simp)
    · simp only [Option.some.injEq] at h
      subst h
      rfl
  | cancelTask taskId =>
    simp only [step, Option.some.injEq] at h
    subst h
    rw [cancelTask_eq]
    split
    · rfl
    · split <;> rfl
  | cancelAllTasks =>
    simp only [step, Option.some.injEq] at h
    subst h
    rw [cancelAllTasks_eq]
  | getPrivilegeMethod env =>
    simp only [step, Option.some.injEq] at h
    subst h
    rw [getPrivilegeMethod_eq]
    exact resolved_of_ne env _ hc
  | processNextTask env =>
    simp only [step, Option.some.injEq] at h
    exact hpnt env { s with pendingCalls := s.pendingCalls - 1 } rfl h.symm
  | timerTimeout env =>
    simp only [step, Option.some.injEq] at h
    exact hpnt env { s with timerActive := false } rfl h.symm
  | processStarted =>
    simp only [step, Option.some.injEq] at h
    subst h
    rfl
  | processReadyRead output =>
    simp only [step, Option.some.injEq, onProcessReadyRead_eq] at h
    subst h
    split <;> rfl
  | processFinished exitCode output =>
    simp only [step, onProcessFinished] at h
    split at h
    · exact absurd h (by simp)
    · simp only [Option.some.injEq] at h
      subst h
      rw [finishCurrentTask_eq]
  | processError errorString =>
    simp only [step, onProcessError] at h
    split at h
    · exact absurd h (by simp)
    · simp only [Option.some.injEq] at h
      subst h
      rw [errorCurrentTask_eq]

theorem run_cache (s0 s : Executor) (acts : List Action) (hc : s0.s_privilegeMethod ≠ "")
    (h : run s0 acts = some s) : s.s_privilegeMethod = s0.s_privilegeMethod := by
  have := run_induction (fun _ s => s.s_privilegeMethod = s0.s_privilegeMethod)
    (fun _ s a s1 hP _ hst => by
      simp only at hP ⊢
      have hne : s.s_privilegeMethod ≠ "" := by rw [hP]; exact hc
      rw [step_cache s s1 a hst hne, hP])
    acts [] s0 s rfl h
  exact this

/-- A step adds a descriptor to the submission log only if it is the
`executeCommandAsync` step with the fields of that descriptor. -/
theorem step_submitted (s s1 : Executor) (a : Action) (h : step s a = some s1) :
    ∀ t ∈ submittedTasks s1.trace, t ∈ submittedTasks s.trace
      ∨ a = Action.executeCommandAsync t.command t.args t.description t.receiver
          t.successSlot t.errorSlot t.progressSlot := by
  have hq : ∀ l : List Event, (∀ x ∈ l, quiet x = true) → s1.trace = s.trace ++ l →
      ∀ t ∈ submittedTasks s1.trace, t ∈ submittedTasks s.trace
        ∨ a = Action.executeCommandAsync t.command t.args t.description t.receiver
            t.successSlot t.errorSlot t.progressSlot := by
    intro l hl htr t ht
    rw [htr, submittedTasks_append, quiet_submittedTasks l hl, List.append_nil] at ht
    exact Or.inl ht
  have hpnt : ∀ (env : Host) (s0 : Executor), s0.trace = s.trace →
      s1 = processNextTask env s0 →
      ∀ t ∈ submittedTasks s1.trace, t ∈ submittedTasks s.trace
        ∨ a = Action.executeCommandAsync t.command t.args t.description t.receiver
            t.successSlot t.errorSlot t.progressSlot := by
    intro env s0 h1 h4 t ht
    rcases processNextTask_cases env s0 with ⟨heq, _⟩ | ⟨u, rest, _, _, heq⟩
    · rw [h4, heq, h1] at ht
      exact Or.inl ht
    · rw [h4, heq, startTask_submitted] at ht
      simp only at ht
      rw [h1] at ht
      exact Or.inl ht
  cases a with
  | executeCommandAsync c as d r ss es ps =>
    simp only [step, executeCommandAsync_eq] at h
    split at h
    · exact absurd h (by simp)
    · simp only [Option.some.injEq] at h
      subst h
      intro t ht
      simp only [submittedTasks_append, submittedTasks_cons, submittedTasks_nil,
        submittedTask?, Option.toList, List.append_nil, List.mem_append,
        List.mem_singleton] at ht
      rcases ht with ht | rfl
      · exact Or.inl ht
      · exact Or.inr rfl
  | cancelTask taskId =>
    simp only [step, Option.some.injEq] at h
    subst h
    exact hq _ (cancelEvents_quiet taskId s) (cancelTask_trace taskId s)
  | cancelAllTasks =>
    simp only [step, Option.some.injEq] at h
    subst h
    exact hq _ (cancelAllEvents_quiet s) (by rw [cancelAllTasks_eq])
  | getPrivilegeMethod env =>
    simp only [step, Option.some.injEq] at h
    subst h
    exact hq _ (probeEvents_quiet env s.s_privilegeMethod) (by rw [getPrivilegeMethod_eq])
  | processNextTask env =>
    simp only [step, Option.some.injEq] at h
    exact hpnt env { s with pendingCalls := s.pendingCalls - 1 } rfl h.symm
  | timerTimeout env =>
    simp only [step, Option.some.injEq] at h
    exact hpnt env { s with timerActive := false } rfl h.symm
  | processStarted =>
    simp only [step, Option.some.injEq] at h
    subst h
    intro t ht
    simp only [onProcessStarted, emit, submittedTasks_append, submittedTasks_cons,
      submittedTasks_nil, submittedTask?, Option.toList, List.append_nil] at ht
    exact Or.inl ht
  | processReadyRead output =>
    simp only [step, Option.some.injEq, onProcessReadyRead_eq] at h
    cases hp : s.m_currentProcess with
    | none =>
      simp only [hp] at h
      exact hq [] (by simp) (by rw [← h]; simp)
    | some k =>
      simp only [hp] at h
      exact hq _ (progressEvents_quiet s.m_currentTask output) (by rw [← h])
  | processFinished exitCode output =>
    simp only [step, onProcessFinished] at h
    split at h
    · exact absurd h (by simp)
    · simp only [Option.some.injEq] at h
      subst h
      exact hq _ (finishEvents_quiet _ _ exitCode output) (by rw [finishCurrentTask_eq])
  | processError errorString =>
    simp only [step, onProcessError] at h
    split at h
    · exact absurd h (by simp)
    · simp only [Option.some.injEq] at h
      subst h
      exact hq _ (errorEvents_quiet _ _ errorString) (by rw [errorCurrentTask_eq])

theorem origin_run (junk : PrivilegedTask) (acts : List Action) (s : Executor)
    (h : run (Executor.init junk) acts = some s) : Origin acts s := by
  have := run_induction (fun done s => Origin done s)
    (fun done s a s1 hP _ hst => by
      intro t ht
      rcases step_submitted s s1 a hst t ht with h1 | h1
      · exact List.mem_append_left _ (hP t h1)
      · rw [← h1]
        simp)
    acts [] (Executor.init junk) s (by intro t ht; simp [Executor.init] at ht) h
  simpa using this

/-! ## Repeated resolution -/

theorem resolved_eq_empty (env : Host) (cache : String) (h : resolved env cache = "") :
    cache = "" ∧ env.whichPkexec ≠ 0 ∧ env.whichSudo ≠ 0 := by
  unfold resolved at h
  split at h
  · rename_i hne
    exact absurd h hne
  · rename_i hc
    split at h
    · exact absurd h (by decide)
    · split at h
      · exact absurd h (by decide)
      · rename_i hp hs
        exact ⟨by simpa using hc, hp, hs⟩

theorem probeCount_append (name : String) (a b : List Event) :
    probeCount name (a ++ b) = probeCount name a + probeCount name b := by
  simp [probeCount]

/-- With a method in the cache, repeated calls return it and leave the state alone. -/
theorem resolveN_cached (env : Host) (n : Nat) (s : Executor)
    (hc : s.s_privilegeMethod ≠ "") :
    resolveN env n s = (List.replicate n s.s_privilegeMethod, s) := by
  induction n with
  | zero => rfl
  | succ n ih =>
    have h1 : getPrivilegeMethod env s = (s.s_privilegeMethod, s) := by
      simp [getPrivilegeMethod, hc]
    simp only [resolveN, h1, ih, List.replicate_succ]

/-- Without a helper on the host, every call returns the empty string and runs both
probes. -/
theorem resolveN_none (env : Host) (n : Nat) (s : Executor) (hc : s.s_privilegeMethod = "")
    (hp : env.whichPkexec ≠ 0) (hs : env.whichSudo ≠ 0) :
    (resolveN env n s).1 = List.replicate n ""
      ∧ probeCount "pkexec" (resolveN env n s).2.trace = probeCount "pkexec" s.trace + n
      ∧ probeCount "sudo" (resolveN env n s).2.trace = probeCount "sudo" s.trace + n := by
  induction n generalizing s with
  | zero => exact ⟨rfl, rfl, rfl⟩
  | succ n ih =>
    have h1 : getPrivilegeMethod env s
        = ("", { s with trace := s.trace ++
            [Event.runCommand "which" ["pkexec"], Event.runCommand "which" ["sudo"]] }) := by
      rw [getPrivilegeMethod_eq]
      obtain ⟨q, proc, cur, run, nxt, tm, cache, pend, cnt, tr⟩ := s
      simp only at hc
      subst hc
      simp [resolved, probeEvents, hp, hs]
    have ih1 := ih { s with trace := s.trace ++
      [Event.runCommand "which" ["pkexec"], Event.runCommand "which" ["sudo"]] } hc
    simp only [resolveN, h1, List.replicate_succ]
    refine ⟨by rw [ih1.1], ?_, ?_⟩
    · rw [ih1.2.1, probeCount_append]
      have : probeCount "pkexec"
          [Event.runCommand "which" ["pkexec"], Event.runCommand "which" ["sudo"]] = 1 := by
        decide
      rw [this]
      omega
    · rw [ih1.2.2, probeCount_append]
      have : probeCount "sudo"
          [Event.runCommand "which" ["pkexec"], Event.runCommand "which" ["sudo"]] = 1 := by
        decide
      rw [this]
      omega

theorem probeCount_probeEvents_le (name : String) (env : Host) (cache : String) :
    probeCount name (probeEvents env cache) ≤ 1 := by
  unfold probeEvents probeCount
  split
  · simp
  · split
    · exact List.count_le_length _ _
    · by_cases h1 : name = "pkexec"
      · subst h1
        decide
      · have hne : (Event.runCommand "which" ["pkexec"] == Event.runCommand "which" [name])
            = false := by
          simp
          exact fun h => h1 h.symm
        rw [List.count_cons, hne]
        exact List.count_le_length _ _

/-! ## Claims -/

/-- C1 (serialization invariant).  In every state reachable from a freshly constructed
executor by any sequence of enabled steps, at most one subprocess is in flight (started
and not yet released), a subprocess is in flight only while `m_isRunning` is set, and a
step emits a launch event (the call of `startTask` or of `QProcess::start`) only from a
state in which `m_isRunning` is false and no subprocess is in flight. -/
theorem serialization_invariant (junk : PrivilegedTask) (acts : List Action) (s : Executor)
    (h : run (Executor.init junk) acts = some s) :
    (inFlight s.trace).length ≤ 1
      ∧ (inFlight s.trace ≠ [] → s.m_isRunning = true)
      ∧ ∀ a s1 e, step s a = some s1 → e ∈ newEvents s s1 → isLaunch e = true →
          s.m_isRunning = false ∧ inFlight s.trace = [] := by
  have hs := inv_run junk acts s h
  have hidle : s.m_isRunning = false → inFlight s.trace = [] := by
    intro hr
    have := hs.running
    rw [hr] at this
    rw [hs.live]
    cases hp : s.m_currentProcess
    · rfl
    · rw [hp] at this; simp at this
  refine ⟨?_, ?_, ?_⟩
  · rw [hs.live]
    cases s.m_currentProcess <;> simp
  · intro hne
    cases hr : s.m_isRunning
    · exact absurd (hidle hr) hne
    · rfl
  · intro a s1 e hst he hl
    have := (launch_step s s1 a hst e he hl).1
    exact ⟨this, hidle this⟩

/-- Witness for C1: after a submission, the delivery of the queued call on a host with
pkexec, and the start notification, at most one subprocess is in flight. -/
theorem serialization_invariant_witness :
    run (Executor.init junk0) runStarted = some (stateAfter runStarted)
      ∧ (inFlight (stateAfter runStarted).trace).length ≤ 1 :=
  ⟨by decide, (serialization_invariant junk0 runStarted (stateAfter runStarted) (by decide)).1⟩

/-- C2 (FIFO).  In every reachable state: if task `A` was submitted before task `B`,
no `taskCancelled` was emitted for `A`, and `B` has been handed to `startTask`, then `A`
was handed to `startTask` before `B`.  Moreover `enqueueTask` appends at the tail,
`processNextTask` in an idle state takes the head of the queue and starts it, and
`cancelTask` removes exactly the entries with the given id, keeping the order of the
rest. -/
theorem fifo_order (junk : PrivilegedTask) (acts : List Action) (s : Executor)
    (h : run (Executor.init junk) acts = some s) :
    (∀ A B, [A, B].Sublist (submittedTasks s.trace) →
        Event.taskCancelled A.taskId ∉ s.trace → B ∈ startedTasks s.trace →
        [A, B].Sublist (startedTasks s.trace))
      ∧ (∀ task, (enqueueTask task s).m_taskQueue = s.m_taskQueue ++ [task])
      ∧ (∀ env t rest, s.m_isRunning = false → s.m_taskQueue = t :: rest →
          (processNextTask env s).m_taskQueue = rest
            ∧ (processNextTask env s).m_currentTask = t
            ∧ startedTasks (processNextTask env s).trace = startedTasks s.trace ++ [t])
      ∧ (∀ taskId, (cancelTask taskId s).m_taskQueue
          = s.m_taskQueue.filter (fun t => decide (t.taskId ≠ taskId))) := by
  have hs := inv_run junk acts s h
  refine ⟨?_, ?_, ?_, ?_⟩
  · intro A B hAB hnc hB
    have hlt : A.taskId < B.taskId := by
      have := hs.sorted.sublist hAB
      simpa using this
    have hA : A ∈ submittedTasks s.trace := hAB.subset (by simp)
    rcases hs.accounted A hA with hA1 | hA1 | hA1
    · exact pair_sublist_of_sorted _ (started_sorted s hs) A B hA1 hB hlt
    · have := started_lt_queue s hs B A hB hA1
      omega
    · exact absurd hA1 hnc
  · intro task
    unfold enqueueTask
    simp only [emit]
    split <;> rfl
  · intro env t rest hidle hq
    have : processNextTask env s = startTask env t { s with m_taskQueue := rest } := by
      simp [processNextTask, hidle, hq]
    rw [this]
    exact startTask_queue_started env t _
  · intro taskId
    exact cancelTask_queue taskId s hs

/-- Witness for C2: two submissions, the first started and finished, the second
started; the two tasks were started in submission order. -/
theorem fifo_order_witness :
    run (Executor.init junk0) runTwo = some (stateAfter runTwo)
      ∧ [taskVim, taskSshd].Sublist (startedTasks (stateAfter runTwo).trace) :=
  ⟨by decide,
    (fifo_order junk0 runTwo (stateAfter runTwo) (by decide)).1 taskVim taskSshd
      (by decide) (by decide) (by decide)⟩

/-- C3 (exactly one terminal event), evaluated at the failing run: task 1 is started, it
is cancelled while running (`cancelTask` kills the subprocess and emits `taskCancelled`
but leaves `m_isRunning` and `m_currentProcess` set), and the killed subprocess reports
its error.  Two terminal signals are emitted for id 1; the finished notification that Qt
sends next is enabled and dereferences the null `m_currentProcess`. -/
theorem cancel_running_two_terminals :
    (run (Executor.init junk0) runCancelRunning).map (fun s => terminalEvents 1 s.trace)
        = some [Event.taskCancelled 1, Event.taskError 1 "Process crashed"]
      ∧ enabled (stateAfter runCancelRunning) (Action.processFinished 9 "") = true
      ∧ step (stateAfter runCancelRunning) (Action.processFinished 9 "") = none := by
  decide

/-- C4 (timeout), evaluated at the failing run: task 1 is running with the timer armed
and the timer expires.  The expiry runs `processNextTask`, which returns at once because
`m_isRunning` is set: the state is unchanged except for the timer flag, task 1 is still
the running task, no `kill` and no terminal signal has happened. -/
theorem timeout_is_ignored :
    (stateAfter runStarted).timerActive = true
      ∧ run (Executor.init junk0) runTimeout
        = some { stateAfter runStarted with timerActive := false }
      ∧ isTaskRunning 1 (stateAfter runTimeout) = true
      ∧ (stateAfter runTimeout).m_currentProcess = some 0
      ∧ Event.processKill 0 ∉ (stateAfter runTimeout).trace
      ∧ terminalEvents 1 (stateAfter runTimeout).trace = [] := by
  decide

/-- C5 (cancellation of a queued task).  In every reachable state, if `cancelTask` is
called with the id of a task `t` that is pending in the queue, then the call removes
exactly the entries with that id (none is left), the call emits exactly one event,
`taskCancelled` for that id, the task had not been handed to `startTask` before, and in
every continuation of the execution no task with that id is ever handed to `startTask`
(the call that precedes every `QProcess::start`), no `taskStarted` signal carries the id,
and the id never appears in the queue again. -/
theorem cancel_queued (junk : PrivilegedTask) (acts : List Action) (s : Executor)
    (h : run (Executor.init junk) acts = some s) (t : PrivilegedTask)
    (ht : t ∈ s.m_taskQueue) :
    (cancelTask t.taskId s).m_taskQueue
        = s.m_taskQueue.filter (fun q => decide (q.taskId ≠ t.taskId))
      ∧ (∀ q ∈ (cancelTask t.taskId s).m_taskQueue, q.taskId ≠ t.taskId)
      ∧ newEvents s (cancelTask t.taskId s) = [Event.taskCancelled t.taskId]
      ∧ (∀ x ∈ startedTasks s.trace, x.taskId ≠ t.taskId)
      ∧ ∀ more s2, run (cancelTask t.taskId s) more = some s2 →
          (∀ x ∈ startedTasks s2.trace, x.taskId ≠ t.taskId)
            ∧ (∀ d, Event.taskStarted t.taskId d ∉ s2.trace)
            ∧ (∀ q ∈ s2.m_taskQueue, q.taskId ≠ t.taskId) := by
  have hs := inv_run junk acts s h
  have hq := cancelTask_queue t.taskId s hs
  have hstarted : ∀ x ∈ startedTasks s.trace, x.taskId ≠ t.taskId := by
    intro x hx
    have := started_lt_queue s hs x t hx ht
    omega
  have hleft : ∀ q ∈ (cancelTask t.taskId s).m_taskQueue, q.taskId ≠ t.taskId := by
    intro q hq1
    rw [hq, List.mem_filter] at hq1
    simpa using hq1.2
  have hnot : ¬(s.m_isRunning = true ∧ s.m_currentTask.taskId = t.taskId) := by
    intro hc
    exact hstarted _ (running_current_started s hs hc.1) hc.2
  have hne : removeFirstWithId t.taskId s.m_taskQueue ≠ none := by
    intro hn
    exact (removeFirstWithId_none t.taskId s.m_taskQueue).1 hn t ht rfl
  have htr : (cancelTask t.taskId s).trace = s.trace ++ [Event.taskCancelled t.taskId] := by
    rw [cancelTask_trace, cancelEvents, if_neg hnot]
    cases hr : removeFirstWithId t.taskId s.m_taskQueue
    · exact absurd hr hne
    · rfl
  refine ⟨hq, hleft, newEvents_append s _ _ htr, hstarted, ?_⟩
  intro more s2 hrun
  have hlt : t.taskId < (cancelTask t.taskId s).m_nextTaskId := by
    have h1 := hs.fresh t (queue_mem_submitted s hs t ht)
    have h2 : (cancelTask t.taskId s).m_nextTaskId = s.m_nextTaskId := by
      rw [cancelTask_eq]
      split
      · rfl
      · split <;> rfl
    rw [h2]
    exact h1
  have hgone : ∀ x ∈ startedTasks (cancelTask t.taskId s).trace
      ++ (cancelTask t.taskId s).m_taskQueue, x.taskId ≠ t.taskId := by
    intro x hx
    rw [htr] at hx
    simp only [startedTasks_append, startedTasks_cons, startedTasks_nil, startedTask?,
      Option.toList, List.append_nil, List.mem_append] at hx
    rcases hx with hx | hx
    · exact hstarted x hx
    · exact hleft x hx
  obtain ⟨hinv2, _, hg2⟩ :=
    gone_run t.taskId _ s2 more (inv_cancelTask t.taskId s hs) hlt hgone hrun
  refine ⟨fun x hx => hg2 x (List.mem_append_left _ hx), ?_,
    fun q hq2 => hg2 q (List.mem_append_right _ hq2)⟩
  intro d hd
  obtain ⟨x, hx, hxi⟩ := hinv2.startedEv _ d hd
  exact hg2 x (List.mem_append_left _ hx) hxi

/-- Witness for C5: with task 1 running and task 2 queued, cancelling id 2 emits exactly
`taskCancelled 2`. -/
theorem cancel_queued_witness :
    run (Executor.init junk0) runQueued = some (stateAfter runQueued)
      ∧ taskSshd ∈ (stateAfter runQueued).m_taskQueue
      ∧ newEvents (stateAfter runQueued) (cancelTask taskSshd.taskId (stateAfter runQueued))
        = [Event.taskCancelled taskSshd.taskId] :=
  ⟨by decide, by decide,
    (cancel_queued junk0 runQueued (stateAfter runQueued) (by decide) taskSshd
      (by decide)).2.2.1⟩

/-- Counterexample to C6 as stated.  (1) On first use without any helper the error text
is "No privilege escalation method available", with a capital N; the text of the claim is
not emitted.  (2) When pkexec was resolved earlier and both helpers have disappeared
since, the cached method is used without probing: dequeuing task 2 creates a subprocess,
emits no error, and leaves the engine running. -/
theorem no_method_counterexample :
    newEvents (stateAfter [submitVim]) (stateAfter runNoMethod)
        = [Event.startTask taskVim, Event.runCommand "which" ["pkexec"],
            Event.runCommand "which" ["sudo"],
            Event.taskError 1 "No privilege escalation method available"]
      ∧ Event.taskError 1 "no privilege escalation method available"
          ∉ (stateAfter runNoMethod).trace
      ∧ run (Executor.init junk0) runHelperRemoved = some (stateAfter runHelperRemoved)
      ∧ newEvents (stateAfter (runHelperRemoved.take 6)) (stateAfter runHelperRemoved)
        = [Event.startTask taskSshd,
            Event.processStart 1 "pkexec" ["systemctl", "restart", "sshd"]]
      ∧ (stateAfter runHelperRemoved).m_isRunning = true
      ∧ (stateAfter runHelperRemoved).m_currentProcess = some 1 := by
  decide

/-- C6 as amended.  In every reachable state, when a queued `processNextTask` call is
delivered while the engine is idle, the queue has head `t`, the resolver cache is empty
and neither `which pkexec` nor `which sudo` succeeds, the step exists and emits exactly:
the call record of `startTask t`, the two probes, the call of the receiver's error slot
(if the task has a receiver and an error slot), and one `taskError` for `t` with the text
"No privilege escalation method available".  No `QProcess` is created, no `taskStarted`
is emitted, and the step ends idle with a null subprocess handle and the timer stopped. -/
theorem no_method_error (junk : PrivilegedTask) (acts : List Action) (s : Executor)
    (h : run (Executor.init junk) acts = some s) (env : Host) (t : PrivilegedTask)
    (rest : List PrivilegedTask) (hidle : s.m_isRunning = false)
    (hq : s.m_taskQueue = t :: rest) (hcache : s.s_privilegeMethod = "")
    (hpk : env.whichPkexec ≠ 0) (hsu : env.whichSudo ≠ 0) :
    ∃ s1, step s (Action.processNextTask env) = some s1
      ∧ newEvents s s1
        = [Event.startTask t, Event.runCommand "which" ["pkexec"],
            Event.runCommand "which" ["sudo"]]
          ++ (match t.receiver, t.errorSlot with
            | some r, some slot =>
              [Event.invokeMethod r slot "No privilege escalation method available"]
            | _, _ => [])
          ++ [Event.taskError t.taskId "No privilege escalation method available"]
      ∧ s1.processCount = s.processCount
      ∧ s1.m_isRunning = false
      ∧ s1.m_currentProcess = none
      ∧ s1.timerActive = false
      ∧ s1.m_taskQueue = rest := by
  have hs := inv_run junk acts s h
  have hproc : s.m_currentProcess = none := by
    have := hs.running
    rw [hidle] at this
    cases hp : s.m_currentProcess
    · rfl
    · rw [hp] at this; simp at this
  have hm : resolved env s.s_privilegeMethod = "" := by
    simp [resolved, hcache, hpk, hsu]
  have hstep : step s (Action.processNextTask env)
      = some (startTask env t
          { s with m_taskQueue := rest, pendingCalls := s.pendingCalls - 1 }) := by
    simp [step, processNextTask, hidle, hq]
  refine ⟨_, hstep, ?_, ?_, ?_, ?_, ?_, ?_⟩
  · apply newEvents_append
    rw [startTask_eq_error env t
      { s with m_taskQueue := rest, pendingCalls := s.pendingCalls - 1 } hm]
    simp [probeEvents, errorEvents, hcache, hpk, hproc]
  all_goals
    rw [startTask_eq_error env t
      { s with m_taskQueue := rest, pendingCalls := s.pendingCalls - 1 } hm]

/-- Witness for C6 as amended: the first submission on a host without helpers. -/
theorem no_method_error_witness :
    run (Executor.init junk0) [submitVim] = some (stateAfter [submitVim])
      ∧ ∃ s1, step (stateAfter [submitVim]) (Action.processNextTask hostNone) = some s1
        ∧ newEvents (stateAfter [submitVim]) s1
          = [Event.startTask taskVim, Event.runCommand "which" ["pkexec"],
              Event.runCommand "which" ["sudo"]]
            ++ (match taskVim.receiver, taskVim.errorSlot with
              | some r, some slot =>
                [Event.invokeMethod r slot "No privilege escalation method available"]
              | _, _ => [])
            ++ [Event.taskError taskVim.taskId "No privilege escalation method available"]
        ∧ s1.processCount = (stateAfter [submitVim]).processCount
        ∧ s1.m_isRunning = false
        ∧ s1.m_currentProcess = none
        ∧ s1.timerActive = false
        ∧ s1.m_taskQueue = [] :=
  ⟨by decide,
    no_method_error junk0 [submitVim] (stateAfter [submitVim]) (by decide) hostNone taskVim []
      (by decide) (by decide) (by decide) (by decide) (by decide)⟩

/-- C7 (resolver priority).  Starting from an empty cache, `getPrivilegeMethod` returns
"pkexec" whenever `which pkexec` succeeds, and then runs that probe only; returns "sudo"
when `which pkexec` fails and `which sudo` succeeds, after running both probes in that
order; returns the empty string exactly when both probes fail; and in every case the
static holds the returned value afterwards. -/
theorem resolver_priority (env : Host) (s : Executor) (hc : s.s_privilegeMethod = "") :
    (env.whichPkexec = 0 →
        (getPrivilegeMethod env s).1 = "pkexec"
          ∧ (getPrivilegeMethod env s).2.trace
            = s.trace ++ [Event.runCommand "which" ["pkexec"]])
      ∧ (env.whichPkexec ≠ 0 → env.whichSudo = 0 →
        (getPrivilegeMethod env s).1 = "sudo"
          ∧ (getPrivilegeMethod env s).2.trace
            = s.trace ++ [Event.runCommand "which" ["pkexec"],
                Event.runCommand "which" ["sudo"]])
      ∧ ((getPrivilegeMethod env s).1 = "" ↔ env.whichPkexec ≠ 0 ∧ env.whichSudo ≠ 0)
      ∧ (getPrivilegeMethod env s).2.s_privilegeMethod = (getPrivilegeMethod env s).1 := by
  rw [getPrivilegeMethod_eq]
  refine ⟨?_, ?_, ?_, rfl⟩
  · intro hp
    simp [resolved, probeEvents, hc, hp]
  · intro hp hs
    simp [resolved, probeEvents, hc, hp, hs]
  · simp only [resolved, hc]
    by_cases hp : env.whichPkexec = 0
    · simp [hp]
    · by_cases hs : env.whichSudo = 0 <;> simp [hp, hs]

/-- Witness for C7: on a fresh executor and a host with sudo only, the resolver returns
"sudo". -/
theorem resolver_priority_witness :
    (Executor.init junk0).s_privilegeMethod = ""
      ∧ (getPrivilegeMethod hostSudo (Executor.init junk0)).1 = "sudo" :=
  ⟨rfl, ((resolver_priority hostSudo (Executor.init junk0) rfl).2.1 (by decide)
    (by decide)).1⟩

/-- Counterexample to C8 as stated: on a host without helpers two consecutive calls both
return the empty string and run `which pkexec` twice and `which sudo` twice. -/
theorem memoization_counterexample :
    (resolveN hostNone 2 (Executor.init junk0)).1 = ["", ""]
      ∧ probeCount "pkexec" (resolveN hostNone 2 (Executor.init junk0)).2.trace = 2
      ∧ probeCount "sudo" (resolveN hostNone 2 (Executor.init junk0)).2.trace = 2 := by
  decide

/-- C8 as amended.  For every state, every fixed host and every `n`, `n` consecutive
calls of `getPrivilegeMethod` all return the value of the first call.  When that value is
a method ("pkexec" or "sudo"), each probe runs at most once over all `n` calls.  When it
is the empty string (neither helper present) nothing is cached and every one of the `n`
calls runs both probes. -/
theorem resolver_memoization (env : Host) (s : Executor) (n : Nat) :
    (resolveN env n s).1 = List.replicate n (getPrivilegeMethod env s).1
      ∧ ((getPrivilegeMethod env s).1 ≠ "" →
          probeCount "pkexec" (resolveN env n s).2.trace ≤ probeCount "pkexec" s.trace + 1
            ∧ probeCount "sudo" (resolveN env n s).2.trace ≤ probeCount "sudo" s.trace + 1)
      ∧ ((getPrivilegeMethod env s).1 = "" →
          probeCount "pkexec" (resolveN env n s).2.trace = probeCount "pkexec" s.trace + n
            ∧ probeCount "sudo" (resolveN env n s).2.trace = probeCount "sudo" s.trace + n) := by
  by_cases hm : resolved env s.s_privilegeMethod = ""
  · obtain ⟨hc, hp, hs⟩ := resolved_eq_empty env _ hm
    obtain ⟨h1, h2, h3⟩ := resolveN_none env n s hc hp hs
    rw [getPrivilegeMethod_eq]
    simp only [hm]
    exact ⟨h1, fun h => absurd rfl h, fun _ => ⟨h2, h3⟩⟩
  · rw [getPrivilegeMethod_eq]
    simp only
    cases n with
    | zero =>
      exact ⟨rfl, fun _ => ⟨Nat.le_succ _, Nat.le_succ _⟩, fun h => absurd h hm⟩
    | succ n =>
      have hr : resolveN env (n + 1) s
          = (List.replicate (n + 1) (resolved env s.s_privilegeMethod),
              { s with
                s_privilegeMethod := resolved env s.s_privilegeMethod
                trace := s.trace ++ probeEvents env s.s_privilegeMethod }) := by
        simp only [resolveN, getPrivilegeMethod_eq]
        rw [resolveN_cached env n _ hm]
        simp [List.replicate_succ]
      rw [hr]
      refine ⟨rfl, fun _ => ⟨?_, ?_⟩, fun h => absurd h hm⟩
      · simp only [probeCount_append]
        have := probeCount_probeEvents_le "pkexec" env s.s_privilegeMethod
        omega
      · simp only [probeCount_append]
        have := probeCount_probeEvents_le "sudo" env s.s_privilegeMethod
        omega

/-- Witness for C8 as amended: three calls on a host with sudo only run `which pkexec`
at most once. -/
theorem resolver_memoization_witness :
    (getPrivilegeMethod hostSudo (Executor.init junk0)).1 ≠ ""
      ∧ probeCount "pkexec" (resolveN hostSudo 3 (Executor.init junk0)).2.trace
        ≤ probeCount "pkexec" (Executor.init junk0).trace + 1 :=
  ⟨by decide,
    ((resolver_memoization hostSudo (Executor.init junk0) 3).2.1 (by decide)).1⟩

/-- C9 (resolver stability).  Once `getPrivilegeMethod` has returned a method (a
non-empty value), then after any further execution, a call of `getPrivilegeMethod` on
any host returns that same value and leaves the state, the trace included, unchanged: no
probe is run, whatever the probes would answer then. -/
theorem resolver_stability (env : Host) (s : Executor)
    (hv : (getPrivilegeMethod env s).1 ≠ "") (acts : List Action) (s1 : Executor)
    (hrun : run (getPrivilegeMethod env s).2 acts = some s1) (env1 : Host) :
    getPrivilegeMethod env1 s1 = ((getPrivilegeMethod env s).1, s1) := by
  have h0 : (getPrivilegeMethod env s).2.s_privilegeMethod = (getPrivilegeMethod env s).1 := by
    rw [getPrivilegeMethod_eq]
  have h1 := run_cache _ s1 acts (by rw [h0]; exact hv) hrun
  rw [h0] at h1
  have hne : s1.s_privilegeMethod ≠ "" := by rw [h1]; exact hv
  have h2 : getPrivilegeMethod env1 s1 = (s1.s_privilegeMethod, s1) := by
    unfold getPrivilegeMethod
    rw [if_pos hne]
  rw [h2, h1]

/-- Witness for C9: pkexec is resolved on a host with both helpers; after a task has
been started and has reported its start, a call on a host without helpers still returns
"pkexec". -/
theorem resolver_stability_witness :
    (getPrivilegeMethod hostBoth (Executor.init junk0)).1 ≠ ""
      ∧ run (getPrivilegeMethod hostBoth (Executor.init junk0)).2 runStarted
        = some (stateFrom (getPrivilegeMethod hostBoth (Executor.init junk0)).2 runStarted)
      ∧ getPrivilegeMethod hostNone
          (stateFrom (getPrivilegeMethod hostBoth (Executor.init junk0)).2 runStarted)
        = ((getPrivilegeMethod hostBoth (Executor.init junk0)).1,
            stateFrom (getPrivilegeMethod hostBoth (Executor.init junk0)).2 runStarted) :=
  ⟨by decide, by decide,
    resolver_stability hostBoth (Executor.init junk0) (by decide) runStarted
      (stateFrom (getPrivilegeMethod hostBoth (Executor.init junk0)).2 runStarted)
      (by decide) hostNone⟩

/-- C10 (helper command line).  In every reachable state, every `QProcess::start` in the
trace ran "pkexec" with arguments `[c] ++ as` or "sudo" with arguments `["-n", c] ++ as`,
where `c` and `as` are the command and argument list of a started task that one of the
`executeCommandAsync` steps of the run submitted with exactly those values.  And when a
step calls `QProcess::start`, the task is the head `t` of the queue, it becomes the
current task, the program is the method now held by the resolver, and the arguments are
built from `t.command` and `t.args` in that way. -/
theorem helper_command_line (junk : PrivilegedTask) (acts : List Action) (s : Executor)
    (h : run (Executor.init junk) acts = some s) :
    (∀ k p x, Event.processStart k p x ∈ s.trace →
        ∃ t ∈ startedTasks s.trace,
          Action.executeCommandAsync t.command t.args t.description t.receiver
              t.successSlot t.errorSlot t.progressSlot ∈ acts
            ∧ ((p = "pkexec" ∧ x = [t.command] ++ t.args)
              ∨ (p = "sudo" ∧ x = ["-n", t.command] ++ t.args)))
      ∧ ∀ a s1 k p x, step s a = some s1 → Event.processStart k p x ∈ newEvents s s1 →
          ∃ t rest, s.m_taskQueue = t :: rest
            ∧ s1.m_currentTask = t
            ∧ s1.m_currentProcess = some k
            ∧ p = s1.s_privilegeMethod
            ∧ Action.executeCommandAsync t.command t.args t.description t.receiver
                t.successSlot t.errorSlot t.progressSlot ∈ acts
            ∧ ((p = "pkexec" ∧ x = [t.command] ++ t.args)
              ∨ (p = "sudo" ∧ x = ["-n", t.command] ++ t.args)) := by
  have hs := inv_run junk acts s h
  have ho := origin_run junk acts s h
  refine ⟨?_, ?_⟩
  · intro k p x hm
    obtain ⟨t, ht, hcase⟩ := hs.launched k p x hm
    exact ⟨t, ht, ho t (started_mem_submitted s hs t ht), hcase⟩
  · intro a s1 k p x hst hm
    obtain ⟨_, env, t, rest, s0, hq, h1, h2, h3, h4⟩ :=
      launch_step s s1 a hst _ hm (by simp [isLaunch])
    have horigin := ho t (queue_mem_submitted s hs t (by rw [hq]; simp))
    by_cases hres : resolved env s0.s_privilegeMethod = ""
    · rw [h4, startTask_eq_error env t s0 hres] at hm
      rw [newEvents_append s _
        ([Event.startTask t] ++ probeEvents env s0.s_privilegeMethod
          ++ errorEvents t s0.m_currentProcess "No privilege escalation method available")
        (by simp [h1])] at hm
      simp only [List.mem_append, List.mem_singleton] at hm
      rcases hm with (hm | hm) | hm
      · exact absurd hm (by simp)
      · exact absurd hm (quiet_of_mem_processStart _ (probeEvents_quiet _ _) k p x)
      · exact absurd hm (quiet_of_mem_processStart _ (errorEvents_quiet _ _ _) k p x)
    · have heq := startTask_eq_launch env t s0 hres
      rw [h4, heq] at hm
      rw [newEvents_append s _
        ([Event.startTask t] ++ probeEvents env s0.s_privilegeMethod
          ++ [Event.processStart s0.processCount (resolved env s0.s_privilegeMethod)
                (fullArgs (resolved env s0.s_privilegeMethod) t)])
        (by simp [h1])] at hm
      simp only [List.mem_append, List.mem_singleton] at hm
      rcases hm with (hm | hm) | hm
      · exact absurd hm (by simp)
      · exact absurd hm (quiet_of_mem_processStart _ (probeEvents_quiet _ _) k p x)
      · simp only [Event.processStart.injEq] at hm
        obtain ⟨hk, hp, hx⟩ := hm
        have hcases := resolved_cases env s0.s_privilegeMethod p (h2 ▸ hs.cache) hp.symm
          (hp ▸ hres) t
        refine ⟨t, rest, hq, ?_, ?_, ?_, horigin, ?_⟩
        · rw [h4, heq]
        · rw [h4, heq, hk]
        · rw [h4, heq, hp]
        · rw [hx, ← hp]
          rcases hcases with ⟨c1, c2⟩ | ⟨c1, c2⟩
          · exact Or.inl ⟨c1, c2⟩
          · exact Or.inr ⟨c1, c2⟩

/-- Witness for C10: the subprocess of the run `runStarted` is `pkexec dnf install -y
vim`, the command and arguments of the submission. -/
theorem helper_command_line_witness :
    run (Executor.init junk0) runStarted = some (stateAfter runStarted)
      ∧ Event.processStart 0 "pkexec" ["dnf", "install", "-y", "vim"]
          ∈ (stateAfter runStarted).trace
      ∧ ∃ t ∈ startedTasks (stateAfter runStarted).trace,
          Action.executeCommandAsync t.command t.args t.description t.receiver
              t.successSlot t.errorSlot t.progressSlot ∈ runStarted
            ∧ (("pkexec" = "pkexec" ∧ ["dnf", "install", "-y", "vim"] = [t.command] ++ t.args)
              ∨ ("pkexec" = "sudo"
                ∧ ["dnf", "install", "-y", "vim"] = ["-n", t.command] ++ t.args)) :=
  ⟨by decide, by decide,
    (helper_command_line junk0 runStarted (stateAfter runStarted) (by decide)).1 0 "pkexec"
      ["dnf", "install", "-y", "vim"] (by decide)⟩

/-! ## The id counter along a step -/

theorem startTask_nextTaskId (env : Host) (t : PrivilegedTask) (s : Executor) :
    (startTask env t s).m_nextTaskId = s.m_nextTaskId := by
  by_cases hm : resolved env s.s_privilegeMethod = ""
  · rw [startTask_eq_error env t s hm]
  · rw [startTask_eq_launch env t s hm]

/-- Only `executeCommandAsync` changes the id counter. -/
theorem step_nextTaskId (s s1 : Executor) (a : Action) (h : step s a = some s1)
    (ha : ∀ c as d r ss es ps, a ≠ Action.executeCommandAsync c as d r ss es ps) :
    s1.m_nextTaskId = s.m_nextTaskId := by
  have hpnt : ∀ (env : Host) (s0 : Executor), s0.m_nextTaskId = s.m_nextTaskId →
      s1 = processNextTask env s0 → s1.m_nextTaskId = s.m_nextTaskId := by
    intro env s0 h1 h4
    rcases processNextTask_cases env s0 with ⟨heq, _⟩ | ⟨t, rest, _, _, heq⟩
    · rw [h4, heq, h1]
    · rw [h4, heq, startTask_nextTaskId]
      exact h1
  cases a with
  | executeCommandAsync c as d r ss es ps => exact absurd rfl (ha c as d r ss es ps)
  | cancelTask taskId =>
    simp only [step, Option.some.injEq] at h
    subst h
    rw [cancelTask_eq]
    split
    · rfl
    · split <;> rfl
  | cancelAllTasks =>
    simp only [step, Option.some.injEq] at h
    subst h
    rw [cancelAllTasks_eq]
  | getPrivilegeMethod env =>
    simp only [step, Option.some.injEq] at h
    subst h
    rw [getPrivilegeMethod_eq]
  | processNextTask env =>
    simp only [step, Option.some.injEq] at h
    exact hpnt env { s with pendingCalls := s.pendingCalls - 1 } rfl h.symm
  | timerTimeout env =>
    simp only [step, Option.some.injEq] at h
    exact hpnt env { s with timerActive := false } rfl h.symm
  | processStarted =>
    simp only [step, Option.some.injEq] at h
    subst h
    rfl
  | processReadyRead output =>
    simp only [step, Option.some.injEq, onProcessReadyRead_eq] at h
    subst h
    split <;> rfl
  | processFinished exitCode output =>
    simp only [step, onProcessFinished] at h
    split at h
    · exact absurd h (by simp)
    · simp only [Option.some.injEq] at h
      subst h
      rw [finishCurrentTask_eq]
  | processError errorString =>
    simp only [step, onProcessError] at h
    split at h
    · exact absurd h (by simp)
    · simp only [Option.some.injEq] at h
      subst h
      rw [errorCurrentTask_eq]

theorem idle_process_none (s : Executor) (hs : Inv s) (h : s.m_isRunning = false) :
    s.m_currentProcess = none := by
  have := hs.running
  rw [h] at this
  cases hp : s.m_currentProcess
  · rfl
  · rw [hp] at this; simp at this

theorem running_process_some (s : Executor) (hs : Inv s) (h : s.m_isRunning = true) :
    ∃ k, s.m_currentProcess = some k := by
  have := hs.running
  rw [h] at this
  cases hp : s.m_currentProcess with
  | none => rw [hp] at this; simp at this
  | some k => exact ⟨k, rfl⟩

theorem step_executeCommandAsync (s : Executor) (hn : s.m_nextTaskId ≠ INT_MAX)
    (c : String) (as : List String) (d : String) (r : Option Nat)
    (ss es ps : Option String) :
    step s (Action.executeCommandAsync c as d r ss es ps) = some
      { s with
        m_taskQueue := s.m_taskQueue ++
          [{ command := c, args := as, description := d, taskId := s.m_nextTaskId,
             receiver := r, successSlot := ss, errorSlot := es, progressSlot := ps }]
        m_nextTaskId := s.m_nextTaskId + 1
        pendingCalls := if s.m_isRunning then s.pendingCalls else s.pendingCalls + 1
        trace := s.trace ++
          [Event.enqueueTask
            { command := c, args := as, description := d, taskId := s.m_nextTaskId,
              receiver := r, successSlot := ss, errorSlot := es, progressSlot := ps }] } := by
  simp only [step, executeCommandAsync_eq, if_neg hn]

/-- After the cancellation of a queued task, its id is carried by no started and no
queued task in any continuation, and the invariant holds there. -/
theorem cancelled_queued_gone (s : Executor) (hs : Inv s) (t : PrivilegedTask)
    (ht : t ∈ s.m_taskQueue) (more : List Action) (s2 : Executor)
    (hrun : run (cancelTask t.taskId s) more = some s2) :
    Inv s2 ∧ ∀ x ∈ startedTasks s2.trace ++ s2.m_taskQueue, x.taskId ≠ t.taskId := by
  have hstarted : ∀ x ∈ startedTasks s.trace, x.taskId ≠ t.taskId := by
    intro x hx
    have := started_lt_queue s hs x t hx ht
    omega
  have hleft : ∀ q ∈ (cancelTask t.taskId s).m_taskQueue, q.taskId ≠ t.taskId := by
    intro q hq1
    rw [cancelTask_queue t.taskId s hs, List.mem_filter] at hq1
    simpa using hq1.2
  have hlt : t.taskId < (cancelTask t.taskId s).m_nextTaskId := by
    have h1 := hs.fresh t (queue_mem_submitted s hs t ht)
    have h2 : (cancelTask t.taskId s).m_nextTaskId = s.m_nextTaskId := by
      rw [cancelTask_eq]
      split
      · rfl
      · split <;> rfl
    rw [h2]
    exact h1
  have hgone : ∀ x ∈ startedTasks (cancelTask t.taskId s).trace
      ++ (cancelTask t.taskId s).m_taskQueue, x.taskId ≠ t.taskId := by
    intro x hx
    rw [cancelTask_trace,
      startedTasks_quiet_append s.trace _ (cancelEvents_quiet t.taskId s)] at hx
    rcases List.mem_append.1 hx with hx | hx
    · exact hstarted x hx
    · exact hleft x hx
  obtain ⟨hinv2, _, hg2⟩ :=
    gone_run t.taskId _ s2 more (inv_cancelTask t.taskId s hs) hlt hgone hrun
  exact ⟨hinv2, hg2⟩

/-- In a reachable state only a started task is reported as running. -/
theorem isTaskRunning_started (s : Executor) (hs : Inv s) (taskId : Int)
    (h : isTaskRunning taskId s = true) : ∃ t ∈ startedTasks s.trace, t.taskId = taskId := by
  unfold isTaskRunning at h
  simp only [Bool.and_eq_true, decide_eq_true_eq] at h
  exact ⟨s.m_currentTask, running_current_started s hs h.1, h.2⟩

/-! ## Claims C11 to C20 -/

/-- Counterexample to C11 as stated: task 1 is running and its subprocess exits with code
1.  The only terminal signal for id 1 is `taskFinished` with exit code 1 and the captured
output; no `taskError` is emitted. -/
theorem nonzero_exit_counterexample :
    run (Executor.init junk0) runExitOne = some (stateAfter runExitOne)
      ∧ terminalEvents 1 (stateAfter runExitOne).trace
        = [Event.taskFinished 1 1 "Error: Unable to find a match: vimm"] := by
  decide

/-- C11 as amended.  Whenever the finished notification arrives while a subprocess handle
is held, whatever the exit code, the step emits exactly one terminal signal for the
current task, `taskFinished` with the exit code and the captured output, and no
`taskError`.  Only the direct delivery depends on the exit code: the success slot of the
receiver is invoked for exit code 0 and its error slot otherwise, each with the captured
output and only if the receiver and that slot are set.  The handle is then released. -/
theorem exit_reported_as_finished (s : Executor) (k : Nat) (hp : s.m_currentProcess = some k)
    (exitCode : Int) (output : String) :
    ∃ s1, step s (Action.processFinished exitCode output) = some s1
      ∧ newEvents s s1
        = (match s.m_currentTask.receiver with
            | some r =>
              if exitCode = 0 then
                match s.m_currentTask.successSlot with
                | some slot => [Event.invokeMethod r slot output]
                | none => []
              else
                match s.m_currentTask.errorSlot with
                | some slot => [Event.invokeMethod r slot output]
                | none => []
            | none => [])
          ++ [Event.taskFinished s.m_currentTask.taskId exitCode output, Event.deleteLater k]
      ∧ terminalEvents s.m_currentTask.taskId (newEvents s s1)
        = [Event.taskFinished s.m_currentTask.taskId exitCode output]
      ∧ ∀ i m, Event.taskError i m ∉ newEvents s s1 := by
  have hstep : step s (Action.processFinished exitCode output)
      = some (finishCurrentTask exitCode output s) := by
    simp [step, onProcessFinished, hp]
  have htr : (finishCurrentTask exitCode output s).trace
      = s.trace ++ finishEvents s.m_currentTask s.m_currentProcess exitCode output := by
    rw [finishCurrentTask_eq]
  have hnew := newEvents_append s _ _ htr
  refine ⟨_, hstep, ?_, ?_, ?_⟩
  · rw [hnew, hp]
    simp [finishEvents]
  · rw [hnew, hp]
    unfold finishEvents terminalEvents
    simp only [List.filter_append]
    split
    · split <;> split <;> simp [isTerminalFor]
    · simp [isTerminalFor]
  · intro i m hm
    rw [hnew] at hm
    unfold finishEvents at hm
    simp only [List.mem_append] at hm
    rcases hm with (hm | hm) | hm
    · split at hm
      · split at hm <;> split at hm <;> simp at hm
      · simp at hm
    · simp at hm
    · split at hm <;> simp at hm

/-- Witness for C11 as amended: exit code 1 of the subprocess of task 1. -/
theorem exit_reported_as_finished_witness :
    (stateAfter runStarted).m_currentProcess = some 0
      ∧ ∃ s1, step (stateAfter runStarted) (Action.processFinished 1 "failed") = some s1
        ∧ terminalEvents (stateAfter runStarted).m_currentTask.taskId
            (newEvents (stateAfter runStarted) s1)
          = [Event.taskFinished (stateAfter runStarted).m_currentTask.taskId 1 "failed"] :=
  ⟨by decide,
    match exit_reported_as_finished (stateAfter runStarted) 0 (by decide) 1 "failed" with
    | ⟨s1, h1, _, h3, _⟩ => ⟨s1, h1, h3⟩⟩

/-- C12 (task ids).  In every reachable state the ids of the submitted tasks, in
submission order, are 1, 2, ..., n, and the counter is n + 1: the k-th submission got id
k.  Hence the ids are strictly increasing and pairwise distinct over all tasks ever
submitted (completed and cancelled ones included).  While fewer than 2^31 - 2 tasks have
been submitted, the next `executeCommandAsync` has a result and logs a descriptor with id
n + 1.  Every step other than `executeCommandAsync` leaves the counter unchanged. -/
theorem task_ids (junk : PrivilegedTask) (acts : List Action) (s : Executor)
    (h : run (Executor.init junk) acts = some s) :
    (submittedTasks s.trace).map (fun t => t.taskId)
        = (List.range (submittedTasks s.trace).length).map (fun k => (k : Int) + 1)
      ∧ s.m_nextTaskId = (submittedTasks s.trace).length + 1
      ∧ (submittedTasks s.trace).Pairwise (fun a b => a.taskId < b.taskId)
      ∧ ((submittedTasks s.trace).map (fun t => t.taskId)).Nodup
      ∧ (∀ c as d r ss es ps, ((submittedTasks s.trace).length : Int) + 1 < 2 ^ 31 - 1 →
          ∃ s1, step s (Action.executeCommandAsync c as d r ss es ps) = some s1
            ∧ submittedTasks s1.trace = submittedTasks s.trace ++
              [{ command := c, args := as, description := d,
                 taskId := ((submittedTasks s.trace).length : Int) + 1,
                 receiver := r, successSlot := ss, errorSlot := es, progressSlot := ps }])
      ∧ ∀ a s1, step s a = some s1 →
          (∀ c as d r ss es ps, a ≠ Action.executeCommandAsync c as d r ss es ps) →
          s1.m_nextTaskId = s.m_nextTaskId := by
  have hs := inv_run junk acts s h
  refine ⟨hs.ids, hs.next, hs.sorted, ?_, ?_, ?_⟩
  · have hp : ((submittedTasks s.trace).map (fun t => t.taskId)).Pairwise (fun a b => a < b) := by
      rw [List.pairwise_map]
      exact hs.sorted
    exact hp.imp (fun hab => ne_of_lt hab)
  · intro c as d r ss es ps hlt
    have hne : s.m_nextTaskId ≠ INT_MAX := by
      rw [hs.next]
      unfold INT_MAX
      omega
    refine ⟨_, step_executeCommandAsync s hne c as d r ss es ps, ?_⟩
    simp [submittedTask?, hs.next]
  · intro a s1 hst ha
    exact step_nextTaskId s s1 a hst ha

/-- Witness for C12: after the two submissions of `runQueued` the ids are 1 and 2 and
the counter is 3. -/
theorem task_ids_witness :
    run (Executor.init junk0) runQueued = some (stateAfter runQueued)
      ∧ (submittedTasks (stateAfter runQueued).trace).map (fun t => t.taskId)
        = (List.range (submittedTasks (stateAfter runQueued).trace).length).map
            (fun k => (k : Int) + 1)
      ∧ (stateAfter runQueued).m_nextTaskId
        = (submittedTasks (stateAfter runQueued).trace).length + 1 :=
  ⟨by decide, (task_ids junk0 runQueued (stateAfter runQueued) (by decide)).1,
    (task_ids junk0 runQueued (stateAfter runQueued) (by decide)).2.1⟩

/-- C13 (submission appends).  In every reachable state (idle or running, any queue
length) in which the id counter has not reached `INT_MAX`, `executeCommandAsync` has a
result: the queue is the old queue followed by exactly one descriptor whose command,
arguments, description, receiver and slots are the arguments of the call and whose id is
the old counter value; that id differs from the id of every task submitted before; the
current task, the running flag and the subprocess handle are unchanged; the counter is
incremented.  The length of the queue plays no role. -/
theorem submission_appends (junk : PrivilegedTask) (acts : List Action) (s : Executor)
    (h : run (Executor.init junk) acts = some s) (hn : s.m_nextTaskId ≠ INT_MAX)
    (c : String) (as : List String) (d : String) (r : Option Nat)
    (ss es ps : Option String) :
    ∃ s1, step s (Action.executeCommandAsync c as d r ss es ps) = some s1
      ∧ s1.m_taskQueue = s.m_taskQueue ++
          [{ command := c, args := as, description := d, taskId := s.m_nextTaskId,
             receiver := r, successSlot := ss, errorSlot := es, progressSlot := ps }]
      ∧ (∀ t ∈ submittedTasks s.trace, t.taskId ≠ s.m_nextTaskId)
      ∧ s1.m_currentTask = s.m_currentTask
      ∧ s1.m_isRunning = s.m_isRunning
      ∧ s1.m_currentProcess = s.m_currentProcess
      ∧ s1.m_nextTaskId = s.m_nextTaskId + 1
      ∧ newEvents s s1
        = [Event.enqueueTask
            { command := c, args := as, description := d, taskId := s.m_nextTaskId,
              receiver := r, successSlot := ss, errorSlot := es, progressSlot := ps }] := by
  have hs := inv_run junk acts s h
  refine ⟨_, step_executeCommandAsync s hn c as d r ss es ps, rfl, ?_, rfl, rfl, rfl,
    rfl, newEvents_append s _ _ rfl⟩
  intro t ht
  have := hs.fresh t ht
  omega

/-- Witness for C13: a third submission while task 1 runs and task 2 is queued. -/
theorem submission_appends_witness :
    run (Executor.init junk0) runQueued = some (stateAfter runQueued)
      ∧ (stateAfter runQueued).m_nextTaskId ≠ INT_MAX
      ∧ ∃ s1, step (stateAfter runQueued)
            (Action.executeCommandAsync "rm" ["/etc/motd"] "Deleting system file: /etc/motd"
              none none none none) = some s1
          ∧ s1.m_taskQueue = (stateAfter runQueued).m_taskQueue ++
              [{ command := "rm", args := ["/etc/motd"],
                 description := "Deleting system file: /etc/motd",
                 taskId := (stateAfter runQueued).m_nextTaskId,
                 receiver := none, successSlot := none, errorSlot := none,
                 progressSlot := none }] :=
  ⟨by decide, by decide,
    match submission_appends junk0 runQueued (stateAfter runQueued) (by decide) (by decide)
      "rm" ["/etc/motd"] "Deleting system file: /etc/motd" none none none none with
    | ⟨s1, h1, h2, _⟩ => ⟨s1, h1, h2⟩⟩

/-- Counterexample to C14 as stated: the first and the second submission are assigned
the ids 1 and 2, but `executeCommandAsync` hands the same value back to its caller both
times (it is `void`), so no caller can obtain the assigned id from the returned value. -/
theorem submit_result_counterexample :
    (stateAfter [submitVim]).m_taskQueue.map (fun t => t.taskId) = [1]
      ∧ (stateAfter [submitVim, submitVim]).m_taskQueue.map (fun t => t.taskId) = [1, 2]
      ∧ ¬ ∃ f : Unit → Int,
          f (executeCommandAsyncResult "dnf" ["install", "-y", "vim"]
              "Installing packages: vim" none none none none (Executor.init junk0)) = 1
            ∧ f (executeCommandAsyncResult "dnf" ["install", "-y", "vim"]
              "Installing packages: vim" none none none none (stateAfter [submitVim])) = 2 := by
  refine ⟨by decide, by decide, ?_⟩
  rintro ⟨f, h1, h2⟩
  have h3 : (1 : Int) = 2 := h1.symm.trans h2
  exact absurd h3 (by decide)

/-- C15 (cancel of the running task).  In every reachable state in which a task is
running, `cancelTask` with the id of that task finds a subprocess handle, calls `kill`
on it and emits `taskCancelled` for the id once: these two events are all the call
emits, and nothing else in the state changes; in particular the pending queue is the
same list as before. -/
theorem cancel_running (junk : PrivilegedTask) (acts : List Action) (s : Executor)
    (h : run (Executor.init junk) acts = some s) (taskId : Int)
    (hr : s.m_isRunning = true) (hid : s.m_currentTask.taskId = taskId) :
    ∃ k, s.m_currentProcess = some k
      ∧ cancelTask taskId s
        = { s with trace := s.trace ++ [Event.processKill k, Event.taskCancelled taskId] }
      ∧ newEvents s (cancelTask taskId s) = [Event.processKill k, Event.taskCancelled taskId]
      ∧ (cancelTask taskId s).m_taskQueue = s.m_taskQueue := by
  have hs := inv_run junk acts s h
  obtain ⟨k, hk⟩ := running_process_some s hs hr
  have heq : cancelTask taskId s
      = { s with trace := s.trace ++ [Event.processKill k, Event.taskCancelled taskId] } := by
    rw [cancelTask_eq, if_pos ⟨hr, hid⟩, hk]
    simp
  refine ⟨k, hk, heq, ?_, ?_⟩
  · exact newEvents_append s _ _ (by rw [heq])
  · rw [heq]

/-- Witness for C15: task 1 is running with task 2 queued; cancelling id 1 kills handle
0 and emits `taskCancelled 1`. -/
theorem cancel_running_witness :
    run (Executor.init junk0) runQueued = some (stateAfter runQueued)
      ∧ (stateAfter runQueued).m_isRunning = true
      ∧ (stateAfter runQueued).m_currentTask.taskId = 1
      ∧ ∃ k, (stateAfter runQueued).m_currentProcess = some k
          ∧ newEvents (stateAfter runQueued) (cancelTask 1 (stateAfter runQueued))
            = [Event.processKill k, Event.taskCancelled 1]
          ∧ (cancelTask 1 (stateAfter runQueued)).m_taskQueue
            = (stateAfter runQueued).m_taskQueue :=
  ⟨by decide, by decide, by decide,
    match cancel_running junk0 runQueued (stateAfter runQueued) (by decide) 1 (by decide)
      (by decide) with
    | ⟨k, h1, _, h3, h4⟩ => ⟨k, h1, h3, h4⟩⟩

/-- Counterexample to C16 as stated: with task 1 running and task 2 queued, cancelling
the unknown id 99 is a no-op and cancelling the queued id 2 is not, yet `cancelTask`
hands the same value back to its caller in both cases (it is `void`): it does not report
whether a task was found. -/
theorem cancel_result_counterexample :
    cancelTask 99 (stateAfter runQueued) = stateAfter runQueued
      ∧ cancelTask 2 (stateAfter runQueued) ≠ stateAfter runQueued
      ∧ ¬ ∃ f : Unit → Bool,
          f (cancelTaskResult 99 (stateAfter runQueued)) = false
            ∧ f (cancelTaskResult 2 (stateAfter runQueued)) = true := by
  refine ⟨by decide, by decide, ?_⟩
  rintro ⟨f, h1, h2⟩
  have h3 : false = true := h1.symm.trans h2
  exact absurd h3 (by decide)

/-- C16 as amended.  In every state, for every id that is neither the id of the running
task nor the id of a queued task, `cancelTask` returns nothing (the unit value) and
leaves the whole state unchanged: no event is emitted, no subprocess is killed, the
queue, the current task, the running flag and the id counter are as before.  The
hypothesis covers the id of the last finished task, which `m_currentTask` still holds
while `m_isRunning` is false. -/
theorem cancel_unknown (s : Executor) (taskId : Int)
    (hcur : ¬(s.m_isRunning = true ∧ s.m_currentTask.taskId = taskId))
    (hq : ∀ t ∈ s.m_taskQueue, t.taskId ≠ taskId) :
    cancelTask taskId s = s ∧ newEvents s (cancelTask taskId s) = []
      ∧ cancelTaskResult taskId s = () := by
  have heq : cancelTask taskId s = s := by
    rw [cancelTask_eq, if_neg hcur, (removeFirstWithId_none taskId s.m_taskQueue).2 hq]
  refine ⟨heq, ?_, rfl⟩
  rw [heq]
  exact newEvents_self s s rfl

/-- Witness for C16 as amended: task 1 has finished, `m_currentTask` still holds it, and
`cancelTask 1` changes nothing. -/
theorem cancel_unknown_witness :
    (stateAfter runFinished).m_currentTask.taskId = 1
      ∧ ¬((stateAfter runFinished).m_isRunning = true
          ∧ (stateAfter runFinished).m_currentTask.taskId = 1)
      ∧ cancelTask 1 (stateAfter runFinished) = stateAfter runFinished :=
  ⟨by decide, by decide,
    (cancel_unknown (stateAfter runFinished) 1 (by decide) (by decide)).1⟩

/-- C17 (cancelAll).  In every reachable state `cancelAllTasks` leaves the pending queue
empty.  If a task is running, the call kills its subprocess and emits `taskCancelled`
for it, then one `taskCancelled` per pending task in queue order; if the engine is idle
it emits just the latter.  These are all the events of the call.  In every continuation
of the execution no drained task is handed to `startTask`, no `taskStarted` signal
carries its id, and its id never appears in the queue again. -/
theorem cancel_all (junk : PrivilegedTask) (acts : List Action) (s : Executor)
    (h : run (Executor.init junk) acts = some s) :
    (cancelAllTasks s).m_taskQueue = []
      ∧ (s.m_isRunning = true → ∃ k, s.m_currentProcess = some k
          ∧ newEvents s (cancelAllTasks s)
            = [Event.processKill k, Event.taskCancelled s.m_currentTask.taskId]
              ++ s.m_taskQueue.map (fun t => Event.taskCancelled t.taskId))
      ∧ (s.m_isRunning = false →
          newEvents s (cancelAllTasks s)
            = s.m_taskQueue.map (fun t => Event.taskCancelled t.taskId))
      ∧ ∀ more s2, run (cancelAllTasks s) more = some s2 → ∀ t ∈ s.m_taskQueue,
          (∀ x ∈ startedTasks s2.trace, x.taskId ≠ t.taskId)
            ∧ (∀ d, Event.taskStarted t.taskId d ∉ s2.trace)
            ∧ (∀ q ∈ s2.m_taskQueue, q.taskId ≠ t.taskId) := by
  have hs := inv_run junk acts s h
  have hnew : newEvents s (cancelAllTasks s) = cancelAllEvents s :=
    newEvents_append s _ _ (by rw [cancelAllTasks_eq])
  refine ⟨by rw [cancelAllTasks_eq], ?_, ?_, ?_⟩
  · intro hr
    obtain ⟨k, hk⟩ := running_process_some s hs hr
    refine ⟨k, hk, ?_⟩
    rw [hnew, cancelAllEvents, hr, hk]
  · intro hr
    rw [hnew, cancelAllEvents, hr]
    simp
  · intro more s2 hrun t ht
    have hlt : t.taskId < (cancelAllTasks s).m_nextTaskId := by
      rw [cancelAllTasks_eq]
      exact hs.fresh t (queue_mem_submitted s hs t ht)
    have hgone : ∀ x ∈ startedTasks (cancelAllTasks s).trace
        ++ (cancelAllTasks s).m_taskQueue, x.taskId ≠ t.taskId := by
      intro x hx
      rw [cancelAllTasks_eq] at hx
      simp only [startedTasks_quiet_append s.trace _ (cancelAllEvents_quiet s),
        List.append_nil] at hx
      have := started_lt_queue s hs x t hx ht
      omega
    obtain ⟨hinv2, _, hg2⟩ :=
      gone_run t.taskId _ s2 more (inv_cancelAllTasks s hs) hlt hgone hrun
    refine ⟨fun x hx => hg2 x (List.mem_append_left _ hx), ?_,
      fun q hq2 => hg2 q (List.mem_append_right _ hq2)⟩
    intro d hd
    obtain ⟨x, hx, hxi⟩ := hinv2.startedEv _ d hd
    exact hg2 x (List.mem_append_left _ hx) hxi

/-- Witness for C17: with task 1 running and task 2 queued, `cancelAllTasks` empties the
queue. -/
theorem cancel_all_witness :
    run (Executor.init junk0) runQueued = some (stateAfter runQueued)
      ∧ (cancelAllTasks (stateAfter runQueued)).m_taskQueue = [] :=
  ⟨by decide, (cancel_all junk0 runQueued (stateAfter runQueued) (by decide)).1⟩

/-- C18 (queue/running disjointness).  In every reachable state: if a task is running,
its id is the id of no pending task; `isTaskRunning` is false for the id of every pending
task; `isTaskRunning` is true only for the id of a task that was handed to `startTask`;
and after a pending task has been cancelled, `isTaskRunning` is false for its id in every
continuation of the execution. -/
theorem queue_running_disjoint (junk : PrivilegedTask) (acts : List Action) (s : Executor)
    (h : run (Executor.init junk) acts = some s) :
    (s.m_isRunning = true → ∀ t ∈ s.m_taskQueue, t.taskId ≠ s.m_currentTask.taskId)
      ∧ (∀ t ∈ s.m_taskQueue, isTaskRunning t.taskId s = false)
      ∧ (∀ taskId, isTaskRunning taskId s = true →
          ∃ t ∈ startedTasks s.trace, t.taskId = taskId)
      ∧ ∀ t ∈ s.m_taskQueue, ∀ more s2, run (cancelTask t.taskId s) more = some s2 →
          isTaskRunning t.taskId s2 = false := by
  have hs := inv_run junk acts s h
  have hdis : s.m_isRunning = true → ∀ t ∈ s.m_taskQueue,
      t.taskId ≠ s.m_currentTask.taskId := by
    intro hr t ht
    have := started_lt_queue s hs _ t (running_current_started s hs hr) ht
    omega
  refine ⟨hdis, ?_, isTaskRunning_started s hs, ?_⟩
  · intro t ht
    cases hrun : isTaskRunning t.taskId s
    · rfl
    · unfold isTaskRunning at hrun
      simp only [Bool.and_eq_true, decide_eq_true_eq] at hrun
      exact absurd hrun.2.symm (hdis hrun.1 t ht)
  · intro t ht more s2 hrun
    obtain ⟨hinv2, hg2⟩ := cancelled_queued_gone s hs t ht more s2 hrun
    cases hr : isTaskRunning t.taskId s2
    · rfl
    · obtain ⟨x, hx, hxi⟩ := isTaskRunning_started s2 hinv2 t.taskId hr
      exact absurd hxi (hg2 x (List.mem_append_left _ hx))

/-- Witness for C18: with task 1 running and task 2 queued, `isTaskRunning 2` is
false. -/
theorem queue_running_disjoint_witness :
    run (Executor.init junk0) runQueued = some (stateAfter runQueued)
      ∧ taskSshd ∈ (stateAfter runQueued).m_taskQueue
      ∧ isTaskRunning taskSshd.taskId (stateAfter runQueued) = false :=
  ⟨by decide, by decide,
    (queue_running_disjoint junk0 runQueued (stateAfter runQueued) (by decide)).2.1
      taskSshd (by decide)⟩

/-- C19 (event order), evaluated at the failing run: task 1 is running, `cancelTask 1`
emits `taskCancelled 1` and kills the subprocess but keeps `m_currentProcess`, then
output of the subprocess becomes readable.  `onProcessReadyRead` passes its null check
and emits `taskProgress 1` after the terminal signal. -/
theorem progress_after_cancel :
    run (Executor.init junk0) runCancelThenOutput = some (stateAfter runCancelThenOutput)
      ∧ taskSignals 1 (stateAfter runCancelThenOutput).trace
        = [Event.taskCancelled 1, Event.taskProgress 1 "Downloading Packages:"] := by
  decide

/-- Counterexample to C20 as stated: task 1 is dequeued on a host where pkexec resolves
and the helper then fails to start.  Between the dequeue and the error event the timer is
armed (`startTask` starts it just before `QProcess::start`); the error step stops it. -/
theorem launch_failure_counterexample :
    run (Executor.init junk0) runLaunchFail = some (stateAfter runLaunchFail)
      ∧ (stateAfter [submitVim]).timerActive = false
      ∧ (stateAfter runLaunch).timerActive = true
      ∧ terminalEvents 1 (stateAfter runLaunch).trace = []
      ∧ newEvents (stateAfter runLaunch) (stateAfter runLaunchFail)
        = [Event.taskError 1 "execve: No such file or directory", Event.deleteLater 0]
      ∧ (stateAfter runLaunchFail).timerActive = false := by
  decide

/-- C20 as amended.  In every reachable idle state with head `t` of the queue and a host
on which the resolver yields a method, the delivery of `processNextTask` is enabled and
starts `t`: it arms the timer and then calls `QProcess::start`.  When the subprocess
then reports that it failed to start, the error step is enabled and emits exactly: the
call of the receiver's error slot with the error text (if receiver and slot are set), one
`taskError` for `t` with the error text, and the release of the handle.  After it the
timer is stopped, the engine is idle and holds no handle.  Over both steps no
`taskStarted` and no `taskFinished` is emitted for `t`. -/
theorem launch_failure (junk : PrivilegedTask) (acts : List Action) (s : Executor)
    (h : run (Executor.init junk) acts = some s) (env : Host) (t : PrivilegedTask)
    (rest : List PrivilegedTask) (hidle : s.m_isRunning = false)
    (hq : s.m_taskQueue = t :: rest) (hm : (getPrivilegeMethod env s).1 ≠ "")
    (errorString : String) :
    ∃ s1 s2 k, enabled s (Action.processNextTask env) = true
      ∧ step s (Action.processNextTask env) = some s1
      ∧ s1.timerActive = true
      ∧ s1.m_currentProcess = some k
      ∧ s1.m_currentTask = t
      ∧ enabled s1 (Action.processError errorString) = true
      ∧ step s1 (Action.processError errorString) = some s2
      ∧ newEvents s1 s2
        = (match t.receiver, t.errorSlot with
            | some r, some slot => [Event.invokeMethod r slot errorString]
            | _, _ => [])
          ++ [Event.taskError t.taskId errorString, Event.deleteLater k]
      ∧ s2.timerActive = false
      ∧ s2.m_isRunning = false
      ∧ s2.m_currentProcess = none
      ∧ (∀ d, Event.taskStarted t.taskId d ∉ newEvents s s2)
      ∧ (∀ c o, Event.taskFinished t.taskId c o ∉ newEvents s s2) := by
  have hs := inv_run junk acts s h
  have hres : resolved env s.s_privilegeMethod ≠ "" := by
    rw [getPrivilegeMethod_eq] at hm
    exact hm
  have hen : enabled s (Action.processNextTask env) = true := by
    have := hs.wake hidle (by rw [hq]; simp)
    simpa [enabled] using this
  have hstep : step s (Action.processNextTask env)
      = some (startTask env t
          { s with m_taskQueue := rest, pendingCalls := s.pendingCalls - 1 }) := by
    simp [step, processNextTask, hidle, hq]
  have heq1 := startTask_eq_launch env t
    { s with m_taskQueue := rest, pendingCalls := s.pendingCalls - 1 } hres
  simp only at heq1
  rw [heq1] at hstep
  have hstep2 := errorCurrentTask_eq errorString
    { s with
      m_taskQueue := rest, pendingCalls := s.pendingCalls - 1
      m_currentTask := t, m_currentProcess := some s.processCount, m_isRunning := true
      timerActive := true, processCount := s.processCount + 1
      s_privilegeMethod := resolved env s.s_privilegeMethod
      trace := s.trace ++ [Event.startTask t] ++ probeEvents env s.s_privilegeMethod
        ++ [Event.processStart s.processCount (resolved env s.s_privilegeMethod)
              (fullArgs (resolved env s.s_privilegeMethod) t)] }
  simp only at hstep2
  refine ⟨_, _, s.processCount, hen, hstep, rfl, rfl, rfl, by simp [enabled],
    by simp only [step, onProcessError]; rw [hstep2], ?_, rfl, rfl, rfl, ?_, ?_⟩
  · apply newEvents_append
    simp [errorEvents]
  · intro d hd
    rw [newEvents_append s _
      ([Event.startTask t] ++ probeEvents env s.s_privilegeMethod
        ++ [Event.processStart s.processCount (resolved env s.s_privilegeMethod)
              (fullArgs (resolved env s.s_privilegeMethod) t)]
        ++ errorEvents t (some s.processCount) errorString) (by simp)] at hd
    simp only [List.mem_append, List.mem_singleton] at hd
    rcases hd with ((hd | hd) | hd) | hd
    · exact absurd hd (by simp)
    · exact quiet_of_mem_taskStarted _ (probeEvents_quiet _ _) _ _ hd
    · exact absurd hd (by simp)
    · exact quiet_of_mem_taskStarted _ (errorEvents_quiet _ _ _) _ _ hd
  · intro c o hd
    rw [newEvents_append s _
      ([Event.startTask t] ++ probeEvents env s.s_privilegeMethod
        ++ [Event.processStart s.processCount (resolved env s.s_privilegeMethod)
              (fullArgs (resolved env s.s_privilegeMethod) t)]
        ++ errorEvents t (some s.processCount) errorString) (by simp)] at hd
    simp only [List.mem_append, List.mem_singleton] at hd
    rcases hd with ((hd | hd) | hd) | hd
    · exact absurd hd (by simp)
    · unfold probeEvents at hd
      split at hd
      · simp at hd
      · split at hd <;> simp at hd
    · exact absurd hd (by simp)
    · unfold errorEvents at hd
      simp only [List.mem_append, List.mem_singleton] at hd
      rcases hd with (hd | hd) | hd
      · split at hd <;> simp at hd
      · exact absurd hd (by simp)
      · simp at hd

/-- Witness for C20 as amended: the first task on a host with pkexec, whose helper then
fails to start. -/
theorem launch_failure_witness :
    run (Executor.init junk0) [submitVim] = some (stateAfter [submitVim])
      ∧ ∃ s1 s2 k, step (stateAfter [submitVim]) (Action.processNextTask hostBoth) = some s1
        ∧ s1.timerActive = true
        ∧ s1.m_currentProcess = some k
        ∧ step s1 (Action.processError "execve: No such file or directory") = some s2
        ∧ s2.timerActive = false
        ∧ s2.m_currentProcess = none :=
  ⟨by decide,
    match launch_failure junk0 [submitVim] (stateAfter [submitVim]) (by decide) hostBoth
      taskVim [] (by decide) (by decide) (by decide)
      "execve: No such file or directory" with
    | ⟨s1, s2, k, _, h2, h3, h4, _, _, h7, _, h9, _, h11, _, _⟩ =>
      ⟨s1, s2, k, h2, h3, h4, h7, h9, h11⟩⟩

/-! ## Claims C21 to C30 -/

theorem foldl_descriptions (q : List PrivilegedTask) (acc : List String) :
    q.foldl (fun acc task => acc ++ [task.description]) acc
      = acc ++ q.map (fun t => t.description) := by
  induction q generalizing acc with
  | nil => simp
  | cons t q ih => simp [ih]

theorem getRunningTasksCall_fst (s : Executor) :
    (getRunningTasksCall s).1 = getRunningTasks s := by
  unfold getRunningTasksCall getRunningTasks
  simp only [foldl_descriptions]
  cases s.m_isRunning <;> simp

theorem executeCommandAsync_some (s : Executor) (hn : s.m_nextTaskId ≠ INT_MAX)
    (c : String) (as : List String) (d : String) (r : Option Nat)
    (ss es ps : Option String) :
    executeCommandAsync c as d r ss es ps s = some
      { s with
        m_taskQueue := s.m_taskQueue ++
          [{ command := c, args := as, description := d, taskId := s.m_nextTaskId,
             receiver := r, successSlot := ss, errorSlot := es, progressSlot := ps }]
        m_nextTaskId := s.m_nextTaskId + 1
        pendingCalls := if s.m_isRunning then s.pendingCalls else s.pendingCalls + 1
        trace := s.trace ++
          [Event.enqueueTask
            { command := c, args := as, description := d, taskId := s.m_nextTaskId,
              receiver := r, successSlot := ss, errorSlot := es, progressSlot := ps }] } := by
  rw [executeCommandAsync_eq, if_neg hn]

/-- C21 (introspection is read-only).  For every state and every id, the calls
`isTaskRunning(id)` and `getRunningTasks()` leave the whole state as it was: the queue,
the current task, the running flag, the subprocess handle, the timer, the id counter and
the trace (no event is emitted).  `isTaskRunning(id)` returns true exactly when the
running flag is set and the current task has that id. -/
theorem introspection_read_only (s : Executor) (taskId : Int) :
    (isTaskRunningCall taskId s).2 = s
      ∧ (getRunningTasksCall s).2 = s
      ∧ newEvents s (isTaskRunningCall taskId s).2 = []
      ∧ newEvents s (getRunningTasksCall s).2 = []
      ∧ (isTaskRunningCall taskId s).1 = isTaskRunning taskId s
      ∧ (getRunningTasksCall s).1 = getRunningTasks s
      ∧ ((isTaskRunningCall taskId s).1 = true
          ↔ s.m_isRunning = true ∧ s.m_currentTask.taskId = taskId) := by
  refine ⟨rfl, rfl, newEvents_self s _ rfl, newEvents_self s _ rfl, rfl,
    getRunningTasksCall_fst s, ?_⟩
  simp [isTaskRunningCall]

/-- C22 (package wrappers).  In every state whose id counter has not reached `INT_MAX`
and for every package list `ps`, each of `installPackages`, `removePackages` and
`updatePackages` has a result, appends exactly one descriptor to the queue, with command
"dnf", arguments `["install", "-y"] ++ ps`, `["remove", "-y"] ++ ps` and
`["update", "-y"] ++ ps` respectively (the package names in the given order,
unmodified), the given receiver and slots and the old counter value as id, and
increments the counter by one.  For the empty list the arguments of `updatePackages` are
`["update", "-y"]` and the description is "Updating all packages". -/
theorem package_wrappers (s : Executor) (hn : s.m_nextTaskId ≠ INT_MAX)
    (packages : List String) (r : Option Nat) (ss es ps : Option String) :
    (∃ s1, installPackages packages r ss es ps s = some s1
        ∧ s1.m_taskQueue = s.m_taskQueue ++
            [{ command := "dnf", args := ["install", "-y"] ++ packages,
               description := "Installing packages: " ++ String.intercalate " " packages,
               taskId := s.m_nextTaskId, receiver := r, successSlot := ss,
               errorSlot := es, progressSlot := ps }]
        ∧ s1.m_nextTaskId = s.m_nextTaskId + 1)
      ∧ (∃ s1, removePackages packages r ss es ps s = some s1
        ∧ s1.m_taskQueue = s.m_taskQueue ++
            [{ command := "dnf", args := ["remove", "-y"] ++ packages,
               description := "Removing packages: " ++ String.intercalate " " packages,
               taskId := s.m_nextTaskId, receiver := r, successSlot := ss,
               errorSlot := es, progressSlot := ps }]
        ∧ s1.m_nextTaskId = s.m_nextTaskId + 1)
      ∧ (∃ s1, updatePackages packages r ss es ps s = some s1
        ∧ s1.m_taskQueue = s.m_taskQueue ++
            [{ command := "dnf", args := ["update", "-y"] ++ packages,
               description :=
                 if packages = [] then "Updating all packages"
                 else "Updating packages: " ++ String.intercalate " " packages,
               taskId := s.m_nextTaskId, receiver := r, successSlot := ss,
               errorSlot := es, progressSlot := ps }]
        ∧ s1.m_nextTaskId = s.m_nextTaskId + 1) := by
  refine ⟨?_, ?_, ?_⟩
  · exact ⟨_, executeCommandAsync_some s hn "dnf" (["install", "-y"] ++ packages)
      ("Installing packages: " ++ String.intercalate " " packages) r ss es ps, rfl, rfl⟩
  · exact ⟨_, executeCommandAsync_some s hn "dnf" (["remove", "-y"] ++ packages)
      ("Removing packages: " ++ String.intercalate " " packages) r ss es ps, rfl, rfl⟩
  · cases packages with
    | nil =>
      exact ⟨_, executeCommandAsync_some s hn "dnf" ["update", "-y"]
        "Updating all packages" r ss es ps, by simp, rfl⟩
    | cons x xs =>
      exact ⟨_, executeCommandAsync_some s hn "dnf" (["update", "-y"] ++ x :: xs)
        ("Updating packages: " ++ String.intercalate " " (x :: xs)) r ss es ps,
        by simp, rfl⟩

/-- Witness for C22: `installPackages ["vim", "git"]` on a fresh executor. -/
theorem package_wrappers_witness :
    (Executor.init junk0).m_nextTaskId ≠ INT_MAX
      ∧ ∃ s1, installPackages ["vim", "git"] none none none none (Executor.init junk0)
            = some s1
          ∧ s1.m_taskQueue = (Executor.init junk0).m_taskQueue ++
              [{ command := "dnf", args := ["install", "-y"] ++ ["vim", "git"],
                 description :=
                   "Installing packages: " ++ String.intercalate " " ["vim", "git"],
                 taskId := (Executor.init junk0).m_nextTaskId, receiver := none,
                 successSlot := none, errorSlot := none, progressSlot := none }]
          ∧ s1.m_nextTaskId = (Executor.init junk0).m_nextTaskId + 1 :=
  ⟨by decide,
    (package_wrappers (Executor.init junk0) (by decide) ["vim", "git"] none none none
      none).1⟩

/-- C23 (running-state invariant).  In every reachable state the running flag is set if
and only if a subprocess handle is held.  Both are clear in the initial state; both are
clear after `finishCurrentTask` and after `errorCurrentTask`; and both are set after a
`startTask` for which the resolver yields a method. -/
theorem running_iff_process (junk : PrivilegedTask) (acts : List Action) (s : Executor)
    (h : run (Executor.init junk) acts = some s) :
    (s.m_isRunning = true ↔ s.m_currentProcess ≠ none)
      ∧ ((Executor.init junk).m_isRunning = false
          ∧ (Executor.init junk).m_currentProcess = none)
      ∧ (∀ exitCode output, (finishCurrentTask exitCode output s).m_isRunning = false
          ∧ (finishCurrentTask exitCode output s).m_currentProcess = none)
      ∧ (∀ error, (errorCurrentTask error s).m_isRunning = false
          ∧ (errorCurrentTask error s).m_currentProcess = none)
      ∧ ∀ env t, (getPrivilegeMethod env s).1 ≠ "" →
          (startTask env t s).m_isRunning = true
            ∧ ∃ k, (startTask env t s).m_currentProcess = some k := by
  have hs := inv_run junk acts s h
  refine ⟨?_, ⟨rfl, rfl⟩, ?_, ?_, ?_⟩
  · rw [hs.running]
    cases s.m_currentProcess <;> simp
  · intro exitCode output
    rw [finishCurrentTask_eq]
    exact ⟨rfl, rfl⟩
  · intro error
    rw [errorCurrentTask_eq]
    exact ⟨rfl, rfl⟩
  · intro env t hm
    rw [getPrivilegeMethod_eq] at hm
    rw [startTask_eq_launch env t s hm]
    exact ⟨rfl, _, rfl⟩

/-- Witness for C23: in the state of `runStarted` the flag is set and a handle is
held. -/
theorem running_iff_process_witness :
    run (Executor.init junk0) runStarted = some (stateAfter runStarted)
      ∧ ((stateAfter runStarted).m_isRunning = true
          ↔ (stateAfter runStarted).m_currentProcess ≠ none) :=
  ⟨by decide, (running_iff_process junk0 runStarted (stateAfter runStarted) (by decide)).1⟩

/-- C24 (no crash on a subprocess notification), evaluated at the failing run: the
subprocess of task 1 crashes (or is killed, as after `cancelTask 1`).  Qt reports
`errorOccurred` and then `finished` for the same `QProcess`.  The error handler runs
`errorCurrentTask`, which sets `m_currentProcess` to null; the finished notification is
then enabled and `onProcessFinished` dereferences the null handle: the step has no
defined result. -/
theorem finished_after_error_crashes :
    run (Executor.init junk0) runCrash = some (stateAfter runCrash)
      ∧ (stateAfter runCrash).m_currentProcess = none
      ∧ enabled (stateAfter runCrash) (Action.processFinished 11 "") = true
      ∧ step (stateAfter runCrash) (Action.processFinished 11 "") = none
      ∧ run (Executor.init junk0) (runCrash ++ [Action.processFinished 11 ""]) = none
      ∧ run (Executor.init junk0) (runCancelRunning ++ [Action.processFinished 9 ""])
        = none := by
  decide

theorem finishEvents_signals (task : PrivilegedTask) (proc : Option Nat) (exitCode : Int)
    (output : String) :
    (finishEvents task proc exitCode output).filter isSignal
      = [Event.taskFinished task.taskId exitCode output] := by
  unfold finishEvents
  simp only [List.filter_append]
  cases proc <;> (split <;> [(split <;> split <;> simp [isSignal]); simp [isSignal]])

theorem errorEvents_signals (task : PrivilegedTask) (proc : Option Nat) (error : String) :
    (errorEvents task proc error).filter isSignal = [Event.taskError task.taskId error] := by
  unfold errorEvents
  simp only [List.filter_append]
  cases proc <;> (split <;> simp [isSignal])

/-- C26 (terminal step postcondition and receiver routing).  In every state, after
`finishCurrentTask` and after `errorCurrentTask` the timer is stopped, the subprocess
handle is null, the running flag is false and the queue is unchanged; the only signal
the step emits is one terminal signal for the current task id (`taskFinished` with the
exit code and output, respectively `taskError` with the message).  When the current task
has a receiver and both slots, `finishCurrentTask` makes exactly one slot call, with the
output: the success slot if the exit code is 0 and the error slot otherwise. -/
theorem terminal_step (s : Executor) :
    (∀ exitCode output,
        (finishCurrentTask exitCode output s).timerActive = false
          ∧ (finishCurrentTask exitCode output s).m_currentProcess = none
          ∧ (finishCurrentTask exitCode output s).m_isRunning = false
          ∧ (finishCurrentTask exitCode output s).m_taskQueue = s.m_taskQueue
          ∧ (newEvents s (finishCurrentTask exitCode output s)).filter isSignal
            = [Event.taskFinished s.m_currentTask.taskId exitCode output]
          ∧ ∀ r a b, s.m_currentTask.receiver = some r →
              s.m_currentTask.successSlot = some a → s.m_currentTask.errorSlot = some b →
              (newEvents s (finishCurrentTask exitCode output s)).filter isInvoke
                = [Event.invokeMethod r (if exitCode = 0 then a else b) output])
      ∧ ∀ error,
        (errorCurrentTask error s).timerActive = false
          ∧ (errorCurrentTask error s).m_currentProcess = none
          ∧ (errorCurrentTask error s).m_isRunning = false
          ∧ (errorCurrentTask error s).m_taskQueue = s.m_taskQueue
          ∧ (newEvents s (errorCurrentTask error s)).filter isSignal
            = [Event.taskError s.m_currentTask.taskId error] := by
  refine ⟨?_, ?_⟩
  · intro exitCode output
    have hnew : newEvents s (finishCurrentTask exitCode output s)
        = finishEvents s.m_currentTask s.m_currentProcess exitCode output :=
      newEvents_append s _ _ (by rw [finishCurrentTask_eq])
    rw [hnew, finishCurrentTask_eq]
    refine ⟨rfl, rfl, rfl, rfl, finishEvents_signals _ _ _ _, ?_⟩
    intro r a b hr ha hb
    unfold finishEvents
    rw [hr, ha, hb]
    simp only [List.filter_append]
    by_cases h0 : exitCode = 0 <;> cases s.m_currentProcess <;> simp [h0, isInvoke]
  · intro error
    have hnew : newEvents s (errorCurrentTask error s)
        = errorEvents s.m_currentTask s.m_currentProcess error :=
      newEvents_append s _ _ (by rw [errorCurrentTask_eq])
    rw [hnew, errorCurrentTask_eq]
    exact ⟨rfl, rfl, rfl, rfl, errorEvents_signals _ _ _⟩

/-- C27 (write-file wrapper), evaluated at the failing input: on a fresh executor the
temporary file "/tmp/qt_temp.Xa12Bc" is created for the content "hello".  The call
enqueues the task `cp /tmp/qt_temp.Xa12Bc /etc/motd` with id 1, and when it has returned
the temporary file no longer exists (the local `QTemporaryFile` has been destroyed), so
the queued task has no source file when it runs.  The second part shows the branch for a
temporary file that cannot be created: nothing is enqueued, the counter is unchanged and
only the receiver's error slot is called. -/
theorem temp_file_removed_before_use :
    (writeSystemFile (some "/tmp/qt_temp.Xa12Bc") "/etc/motd" "hello" none none none
        world0).map
        (fun w => (w.exec.m_taskQueue.map (fun t => (t.taskId, t.command, t.args)), w.files))
        = some ([(1, "cp", ["/tmp/qt_temp.Xa12Bc", "/etc/motd"])], [])
      ∧ writeSystemFile none "/etc/motd" "hello" (some 7) (some "onDone") (some "onFailed")
          world0
        = some { world0 with
            exec := emit world0.exec
              (Event.invokeMethod 7 "onFailed" "Failed to create temporary file") } := by
  decide

/-- C29 (content of `getRunningTasks`).  In every state `getRunningTasks()` returns the
description of the current task if the running flag is set, followed by the descriptions
of the pending tasks in queue order.  Its length is the queue length, plus one if
running; it is empty exactly when the engine is idle with an empty queue; and the
description of every pending (not yet started) task is in it. -/
theorem running_tasks_content (s : Executor) :
    (getRunningTasksCall s).1
        = (if s.m_isRunning then [s.m_currentTask.description] else [])
          ++ s.m_taskQueue.map (fun t => t.description)
      ∧ (getRunningTasksCall s).1.length
        = s.m_taskQueue.length + (if s.m_isRunning then 1 else 0)
      ∧ ((getRunningTasksCall s).1 = [] ↔ s.m_isRunning = false ∧ s.m_taskQueue = [])
      ∧ ∀ t ∈ s.m_taskQueue, t.description ∈ (getRunningTasksCall s).1 := by
  rw [getRunningTasksCall_fst]
  unfold getRunningTasks
  refine ⟨rfl, ?_, ?_, ?_⟩
  · cases s.m_isRunning <;> simp [Nat.add_comm]
  · cases s.m_isRunning <;> simp
  · intro t ht
    exact List.mem_append_right _ (List.mem_map.2 ⟨t, ht, rfl⟩)

theorem executeCommand_eq (env : Host) (exitCode : Int) (t : PrivilegedTask)
    (s : Executor) :
    executeCommand env exitCode t.command t.args s =
      if resolved env s.s_privilegeMethod = "" then
        (-1, { s with
          s_privilegeMethod := resolved env s.s_privilegeMethod
          trace := s.trace ++ probeEvents env s.s_privilegeMethod })
      else
        (exitCode, { s with
          s_privilegeMethod := resolved env s.s_privilegeMethod
          trace := s.trace ++ probeEvents env s.s_privilegeMethod
            ++ [Event.runCommand (resolved env s.s_privilegeMethod)
                  (fullArgs (resolved env s.s_privilegeMethod) t)] }) := by
  unfold executeCommand
  simp only [getPrivilegeMethod_eq, emit, fullArgs]

/-- C30 (the synchronous and the queued path agree).  In every state, on every host, for
every command and argument list: when the resolver yields a method, `executeCommand`
returns the exit code of the helper after running, beyond the probes of the resolver,
exactly one command, and `startTask` for a task with the same command and arguments
calls `QProcess::start` with the same program and the same argument vector; the program
is the resolved method, the vector is `[c] ++ as` for "pkexec" and `["-n", c] ++ as` for
"sudo".  When the resolver yields nothing, `executeCommand` returns -1 and runs nothing
but the probes of the resolver. -/
theorem sync_and_queued_agree (env : Host) (s : Executor) (t : PrivilegedTask)
    (exitCode : Int) :
    ((getPrivilegeMethod env s).1 ≠ "" →
        ∃ k p a, newEvents s (executeCommand env exitCode t.command t.args s).2
            = newEvents s (getPrivilegeMethod env s).2 ++ [Event.runCommand p a]
          ∧ newEvents s (startTask env t s)
            = [Event.startTask t] ++ newEvents s (getPrivilegeMethod env s).2
              ++ [Event.processStart k p a]
          ∧ p = (getPrivilegeMethod env s).1
          ∧ (p = "pkexec" → a = [t.command] ++ t.args)
          ∧ (p = "sudo" → a = ["-n", t.command] ++ t.args)
          ∧ (executeCommand env exitCode t.command t.args s).1 = exitCode)
      ∧ ((getPrivilegeMethod env s).1 = "" →
        (executeCommand env exitCode t.command t.args s).1 = -1
          ∧ (executeCommand env exitCode t.command t.args s).2 = (getPrivilegeMethod env s).2
          ∧ newEvents s (executeCommand env exitCode t.command t.args s).2
            = [Event.runCommand "which" ["pkexec"], Event.runCommand "which" ["sudo"]]) := by
  have hprobe : newEvents s (getPrivilegeMethod env s).2 = probeEvents env s.s_privilegeMethod :=
    newEvents_append s _ _ (by rw [getPrivilegeMethod_eq])
  rw [hprobe, executeCommand_eq, getPrivilegeMethod_eq]
  simp only
  refine ⟨?_, ?_⟩
  · intro hm
    rw [if_neg hm, startTask_eq_launch env t s hm]
    refine ⟨s.processCount, resolved env s.s_privilegeMethod,
      fullArgs (resolved env s.s_privilegeMethod) t, ?_, ?_, rfl, ?_, ?_, rfl⟩
    · exact newEvents_append s _ _ (by simp)
    · exact newEvents_append s _ _ (by simp)
    · intro hp
      simp [fullArgs, hp]
    · intro hp
      simp [fullArgs, hp]
  · intro hm
    rw [if_pos hm]
    obtain ⟨hc, hp, hs⟩ := resolved_eq_empty env _ hm
    refine ⟨rfl, rfl, ?_⟩
    rw [newEvents_append s _ (probeEvents env s.s_privilegeMethod) rfl]
    simp [probeEvents, hc, hp]

/-- Witness for C26: task 2 has a receiver and both slots; on exit code 3 the only slot
call is the error slot with the output. -/
theorem terminal_step_witness :
    (stateAfter runTwo).m_currentTask.receiver = some 7
      ∧ (newEvents (stateAfter runTwo)
          (finishCurrentTask 3 "failed" (stateAfter runTwo))).filter isInvoke
        = [Event.invokeMethod 7 (if (3 : Int) = 0 then "onDone" else "onFailed") "failed"] :=
  ⟨by decide,
    ((terminal_step (stateAfter runTwo)).1 3 "failed").2.2.2.2.2 7 "onDone" "onFailed"
      (by decide) (by decide) (by decide)⟩

/-- Witness for C30: on a fresh executor and a host with sudo only, both paths run the
same program with the same argument vector for `dnf install -y vim`. -/
theorem sync_and_queued_agree_witness :
    (getPrivilegeMethod hostSudo (Executor.init junk0)).1 ≠ ""
      ∧ ∃ k p a,
          newEvents (Executor.init junk0)
              (executeCommand hostSudo 0 taskVim.command taskVim.args (Executor.init junk0)).2
            = newEvents (Executor.init junk0) (getPrivilegeMethod hostSudo (Executor.init junk0)).2
              ++ [Event.runCommand p a]
          ∧ newEvents (Executor.init junk0) (startTask hostSudo taskVim (Executor.init junk0))
            = [Event.startTask taskVim]
              ++ newEvents (Executor.init junk0)
                (getPrivilegeMethod hostSudo (Executor.init junk0)).2
              ++ [Event.processStart k p a]
          ∧ p = (getPrivilegeMethod hostSudo (Executor.init junk0)).1
          ∧ (p = "pkexec" → a = [taskVim.command] ++ taskVim.args)
          ∧ (p = "sudo" → a = ["-n", taskVim.command] ++ taskVim.args)
          ∧ (executeCommand hostSudo 0 taskVim.command taskVim.args (Executor.init junk0)).1
            = 0 :=
  ⟨by decide,
    (sync_and_queued_agree hostSudo (Executor.init junk0) taskVim 0).1 (by decide)⟩


/-! ### The submit operations as one family -/

/-- Every submit operation that reaches `executeCommandAsync` is one call of it on the
executor of the world. -/
theorem submit_exec (op : Submit) (w : World) (he : op.enqueues = true) :
    ∃ c as d r ss es ps, (submit op w).map (fun w1 => w1.exec)
      = executeCommandAsync c as d r ss es ps w.exec := by
  cases op with
  | executeCommandAsync c as d r ss es ps =>
    exact ⟨c, as, d, r, ss, es, ps, by
      cases h : executeCommandAsync c as d r ss es ps w.exec <;> simp [submit, h, World.withExec]⟩
  | installPackages pk r ss es ps =>
    exact ⟨_, _, _, r, ss, es, ps, by
      cases h : installPackages pk r ss es ps w.exec
      · simp only [submit, h, Option.map_none']; exact h.symm.trans rfl
      · simp only [submit, h, Option.map_some', World.withExec]; exact h.symm.trans rfl⟩
  | removePackages pk r ss es ps =>
    exact ⟨_, _, _, r, ss, es, ps, by
      cases h : removePackages pk r ss es ps w.exec
      · simp only [submit, h, Option.map_none']; exact h.symm.trans rfl
      · simp only [submit, h, Option.map_some', World.withExec]; exact h.symm.trans rfl⟩
  | updatePackages pk r ss es ps =>
    by_cases hp : pk.isEmpty = true
    · exact ⟨"dnf", ["update", "-y"], "Updating all packages", r, ss, es, ps, by
        cases h : updatePackages pk r ss es ps w.exec
        · simp only [submit, h, Option.map_none']
          exact h.symm.trans (by simp only [updatePackages, if_pos hp])
        · simp only [submit, h, Option.map_some', World.withExec]
          exact h.symm.trans (by simp only [updatePackages, if_pos hp])⟩
    · exact ⟨"dnf", ["update", "-y"] ++ pk, "Updating packages: " ++ String.intercalate " " pk,
        r, ss, es, ps, by
        cases h : updatePackages pk r ss es ps w.exec
        · simp only [submit, h, Option.map_none']
          exact h.symm.trans (by simp only [updatePackages, if_neg hp])
        · simp only [submit, h, Option.map_some', World.withExec]
          exact h.symm.trans (by simp only [updatePackages, if_neg hp])⟩
  | enableRepository repo r ss es =>
    exact ⟨_, _, _, r, ss, es, none, by
      cases h : enableRepository repo r ss es w.exec
      · simp only [submit, h, Option.map_none']; exact h.symm.trans rfl
      · simp only [submit, h, Option.map_some', World.withExec]; exact h.symm.trans rfl⟩
  | disableRepository repo r ss es =>
    exact ⟨_, _, _, r, ss, es, none, by
      cases h : disableRepository repo r ss es w.exec
      · simp only [submit, h, Option.map_none']; exact h.symm.trans rfl
      · simp only [submit, h, Option.map_some', World.withExec]; exact h.symm.trans rfl⟩
  | addRepository url name r ss es =>
    exact ⟨_, _, _, r, ss, es, none, by
      cases h : addRepository url name r ss es w.exec
      · simp only [submit, h, Option.map_none']; exact h.symm.trans rfl
      · simp only [submit, h, Option.map_some', World.withExec]; exact h.symm.trans rfl⟩
  | enableSystemdService sv r ss es =>
    exact ⟨_, _, _, r, ss, es, none, by
      cases h : enableSystemdService sv r ss es w.exec
      · simp only [submit, h, Option.map_none']; exact h.symm.trans rfl
      · simp only [submit, h, Option.map_some', World.withExec]; exact h.symm.trans rfl⟩
  | disableSystemdService sv r ss es =>
    exact ⟨_, _, _, r, ss, es, none, by
      cases h : disableSystemdService sv r ss es w.exec
      · simp only [submit, h, Option.map_none']; exact h.symm.trans rfl
      · simp only [submit, h, Option.map_some', World.withExec]; exact h.symm.trans rfl⟩
  | restartSystemdService sv r ss es =>
    exact ⟨_, _, _, r, ss, es, none, by
      cases h : restartSystemdService sv r ss es w.exec
      · simp only [submit, h, Option.map_none']; exact h.symm.trans rfl
      · simp only [submit, h, Option.map_some', World.withExec]; exact h.symm.trans rfl⟩
  | writeSystemFile tmp path content r ss es =>
    cases tmp with
    | none => exact absurd he (by simp [Submit.enqueues])
    | some name =>
      exact ⟨"cp", [name, path], "Writing system file: " ++ path, r, ss, es, none, by
        cases h : executeCommandAsync "cp" [name, path] ("Writing system file: " ++ path)
          r ss es none w.exec <;> simp [submit, writeSystemFile, h]⟩
  | deleteSystemFile path r ss es =>
    exact ⟨_, _, _, r, ss, es, none, by
      cases h : deleteSystemFile path r ss es w.exec
      · simp only [submit, h, Option.map_none']; exact h.symm.trans rfl
      · simp only [submit, h, Option.map_some', World.withExec]; exact h.symm.trans rfl⟩

/-- Removing by id the descriptor at the tail of a queue whose other entries carry other
ids gives back the queue without that tail. -/
theorem removeFirstWithId_tail (q : List PrivilegedTask) (t : PrivilegedTask)
    (hq : ∀ x ∈ q, x.taskId ≠ t.taskId) :
    removeFirstWithId t.taskId (q ++ [t]) = some q := by
  induction q with
  | nil => simp [removeFirstWithId]
  | cons x rest ih =>
    have hx : x.taskId ≠ t.taskId := hq x (List.mem_cons_self _ _)
    have hrest := ih (fun y hy => hq y (List.mem_cons_of_mem _ hy))
    simp [removeFirstWithId, hx, hrest]

/-- C14 as amended.  Take any reachable state of the executor whose id counter has not
reached `INT_MAX`, and any submit operation: `executeCommandAsync` or one of the eleven
convenience wrappers, with any arguments (`writeSystemFile` with its temporary file
created; when it is not created nothing is enqueued).  The operation has a result; it
puts exactly one descriptor `t` at the tail of the queue; the id of `t` is the value the
id counter had before the call, which is one more than the number of submissions made
so far; and the counter is one higher afterwards.  The value handed back to the caller
does not tell the id: no function of the returned value gives the id assigned by this
call and also the id that the same call would be assigned next.  The id is usable all
the same: directly after the call `isTaskRunning` with it answers false (the descriptor
is pending), and `cancelTask` with it removes exactly `t` from the queue and emits
`taskCancelled` for that id and nothing else. -/
theorem submit_returns_nothing (junk : PrivilegedTask) (acts : List Action) (w : World)
    (h : run (Executor.init junk) acts = some w.exec)
    (hn : w.exec.m_nextTaskId ≠ INT_MAX) (op : Submit) (he : op.enqueues = true) :
    ∃ w1 t, submit op w = some w1
      ∧ w1.exec.m_taskQueue = w.exec.m_taskQueue ++ [t]
      ∧ t.taskId = w.exec.m_nextTaskId
      ∧ t.taskId = ((submittedTasks w.exec.trace).length : Int) + 1
      ∧ w1.exec.m_nextTaskId = t.taskId + 1
      ∧ (∀ f : Unit → Int,
          ¬ (f (submitResult op w) = t.taskId ∧ f (submitResult op w1) = w1.exec.m_nextTaskId))
      ∧ isTaskRunning t.taskId w1.exec = false
      ∧ (cancelTask t.taskId w1.exec).m_taskQueue = w.exec.m_taskQueue
      ∧ newEvents w1.exec (cancelTask t.taskId w1.exec) = [Event.taskCancelled t.taskId] := by
  have hs := inv_run junk acts w.exec h
  obtain ⟨c, as, d, r, ss, es, ps, hex⟩ := submit_exec op w he
  rw [executeCommandAsync_some w.exec hn] at hex
  cases hsub : submit op w with
  | none => rw [hsub] at hex; simp at hex
  | some w1 =>
    rw [hsub] at hex
    simp only [Option.map_some', Option.some.injEq] at hex
    have hq : ∀ x ∈ w.exec.m_taskQueue, x.taskId ≠ w.exec.m_nextTaskId := fun x hx =>
      ne_of_lt (hs.fresh x (queue_mem_submitted w.exec hs x hx))
    have hcur : ¬ (w.exec.m_isRunning = true ∧ w.exec.m_currentTask.taskId = w.exec.m_nextTaskId) :=
      fun hc => absurd hc.2 (ne_of_lt (hs.fresh _
        (started_mem_submitted w.exec hs _ (running_current_started w.exec hs hc.1))))
    have hrem := removeFirstWithId_tail w.exec.m_taskQueue
      { command := c, args := as, description := d, taskId := w.exec.m_nextTaskId,
        receiver := r, successSlot := ss, errorSlot := es, progressSlot := ps } hq
    refine ⟨w1, ⟨c, as, d, w.exec.m_nextTaskId, r, ss, es, ps⟩, rfl, ?_, rfl, hs.next, ?_, ?_,
      ?_, ?_, ?_⟩
    · rw [hex]
    · rw [hex]
    · rintro f ⟨h1, h2⟩
      rw [hex] at h2
      have h3 : w.exec.m_nextTaskId = w.exec.m_nextTaskId + 1 := h1.symm.trans h2
      omega
    · rw [hex]
      unfold isTaskRunning
      cases hr : w.exec.m_isRunning
      · simp
      · simpa using fun hc => hcur ⟨hr, hc⟩
    · rw [cancelTask_eq, hex]
      simp only [if_neg hcur, hrem]
    · apply newEvents_append
      rw [cancelTask_eq, hex]
      simp only [if_neg hcur, hrem]

/-- Witness for C14 as amended: `restartSystemdService("sshd", ...)` called while the
first task is running is assigned id 2. -/
theorem submit_returns_nothing_witness :
    run (Executor.init junk0) runStarted = some worldStarted.exec
      ∧ worldStarted.exec.m_nextTaskId ≠ INT_MAX
      ∧ submitRestartSshd.enqueues = true
      ∧ ∃ w1 t, submit submitRestartSshd worldStarted = some w1
          ∧ w1.exec.m_taskQueue = worldStarted.exec.m_taskQueue ++ [t]
          ∧ t.taskId = worldStarted.exec.m_nextTaskId
          ∧ t.taskId = ((submittedTasks worldStarted.exec.trace).length : Int) + 1
          ∧ w1.exec.m_nextTaskId = t.taskId + 1
          ∧ (∀ f : Unit → Int,
              ¬ (f (submitResult submitRestartSshd worldStarted) = t.taskId
                ∧ f (submitResult submitRestartSshd w1) = w1.exec.m_nextTaskId))
          ∧ isTaskRunning t.taskId w1.exec = false
          ∧ (cancelTask t.taskId w1.exec).m_taskQueue = worldStarted.exec.m_taskQueue
          ∧ newEvents w1.exec (cancelTask t.taskId w1.exec) = [Event.taskCancelled t.taskId] :=
  ⟨by decide, by decide, by decide,
    submit_returns_nothing junk0 runStarted worldStarted (by decide) (by decide)
      submitRestartSshd (by decide)⟩

/-! ### The task mutex -/

end PrivExec
